import Mathlib

/-!
# Event sourcing: aggregates, event stores and projections

A shallow embedding of the Go packages `eventsourcing`, `eventsourcing/aggregate`
and `eventsourcing/internal`: the aggregate root, the type register, the decoding
iterator, the Load / Save orchestration and the projections; of the event stores
`eventstore/bbolt`, `eventstore/kurrent` and `eventstore/sql`; and of the examples
`example/order` and `example/tictactoe`. The properties they satisfy follow the
definitions.

Conventions of the embedding:

* a Go method that mutates its receiver becomes a function returning the new value;
* the package level variables `internal.GlobalRegister`, `internal.EventEncoder`
  and `idFunc`, and the clock `time.Now`, are passed as explicit arguments;
* collaborators behind an interface (event store, snapshot store, encoder) are
  records of functions over an explicit store state;
* calls made on a collaborator are recorded in a log returned next to the result,
  so that "the store is never invoked" is a statement about that log;
* a loop without a bound of its own takes a bound on its passes, `none` meaning that
  the bound was reached; goroutines run under a schedule that names, step by step,
  the goroutine that moves.
-/

namespace Eventsourcing

/-! ## Errors -/

/-- Go error values. The sentinels are the `errors.New` variables of the packages
`eventsourcing` and `core` and the two context errors; `backend` stands for any error
created by a collaborator (store, encoder); `errorf` is an error made on the spot by
`fmt.Errorf` without a `%w` verb, known by its message; `wrap` is `fmt.Errorf` with one
`%w` verb, `text` being the formatted text that precedes the wrapped error. -/
inductive Error where
  | ErrAggregateNotFound
  | ErrAggregateNotRegistered
  | ErrEventNotRegistered
  | ErrConcurrency
  | ErrAggregateAlreadyExists
  | ErrAggregateNeedsToBeAPointer
  | ErrUnsavedEvents
  | ErrProjectionAlreadyRunning
  | coreErrConcurrency
  | coreErrSnapshotNotFound
  | contextCanceled
  | contextDeadlineExceeded
  | backend (code : Nat)
  | errorf (message : String)
  | wrap (text : String) (inner : Error)
deriving DecidableEq, Repr

namespace Error

/-- Go `errors.Is`: the target is found at some level of the unwrap chain. -/
def Is : Error → Error → Bool
  | wrap text inner, target => decide (wrap text inner = target) || Is inner target
  | e, target => decide (e = target)

/-- The errors a back-end can hand out: the sentinels of package `core`, which is all
a store imports of this repository, the context errors, errors of its own, and wraps of
those. -/
def fromBackend : Error → Bool
  | coreErrConcurrency => true
  | coreErrSnapshotNotFound => true
  | contextCanceled => true
  | contextDeadlineExceeded => true
  | backend _ => true
  | wrap _ inner => fromBackend inner
  | _ => false

end Error

/-! ## Values that cross the codec -/

/-- A Go `[]byte`. -/
abbrev Bytes := List Nat

/-- Modelled from the spec: the declaration of `core.Version` (and of
`eventsourcing.Version`, a conversion of it) is not among the sources; the data model
calls it an unsigned integer, which is what `Nat` is. -/
abbrev Version := Nat

/-- A Go `interface{}` holding a pointer to a struct. The dynamic type is a named type:
`typeName` is what `reflect.TypeOf(x).Elem().Name()` returns, the name without the
package, and `pkgPath` is the import path of the package that declares the type, so
that two values are of the same dynamic type when both agree; `value` is the struct
value. -/
structure Dyn (π : Type) where
  typeName : String
  value : π
  pkgPath : String := ""
deriving DecidableEq, Repr

/-- Two values behind `interface{}` have the same dynamic type. -/
def Dyn.sameType {π : Type} (x y : Dyn π) : Prop :=
  x.typeName = y.typeName ∧ x.pkgPath = y.pkgPath

instance {π : Type} (x y : Dyn π) : Decidable (x.sameType y) := by
  unfold Dyn.sameType
  exact inferInstance

/-- A Go `map[string]interface{}`; `none` is the nil map. -/
abbrev Metadata := Option (List (String × String))

/-- The interface `eventsourcing.Encoder`, instantiated at the two kinds of value the
event codec is applied to: event data and event metadata. `Deserialize*` receives the
bytes and the current content of the sink and returns the new content of the sink.
The metadata bytes keep the nil / non-nil distinction of the Go slice. -/
structure Encoder (π : Type) where
  SerializeData : Dyn π → Except Error Bytes
  SerializeMetadata : Metadata → Except Error (Option Bytes)
  DeserializeData : Bytes → Dyn π → Except Error (Dyn π)
  DeserializeMetadata : Bytes → Metadata → Except Error Metadata

/-! ## Raw and decoded events -/

namespace core

/-- Modelled from the spec: the struct `core.Event` is declared outside the sources;
the fields are the ones the spec lists for a raw event and the sources assign.
`Metadata` is `none` for a nil slice; the nil-ness of `Data` is never inspected. -/
structure Event where
  AggregateID : String
  Version : Eventsourcing.Version
  GlobalVersion : Eventsourcing.Version
  AggregateType : String
  Timestamp : Nat
  Reason : String
  Data : Bytes
  Metadata : Option Bytes
deriving DecidableEq, Repr

end core

/-- Modelled from the spec: the struct `eventsourcing.Event` is declared outside the
sources; a decoded event carries the raw event plus the typed data value and the
metadata mapping. -/
structure Event (π : Type) where
  event : core.Event
  data : Dyn π
  metadata : Metadata
deriving DecidableEq, Repr

namespace Event

variable {π : Type}

/-- Modelled from the spec: `eventsourcing.NewEvent` packs its three arguments. -/
def NewEvent (e : core.Event) (data : Dyn π) (metadata : Metadata) : Event π :=
  { event := e, data := data, metadata := metadata }

/-- Modelled from the spec: accessor of the decoded event. -/
def Data (e : Event π) : Dyn π := e.data

/-- Modelled from the spec: accessor of the decoded event. -/
def Metadata (e : Event π) : Eventsourcing.Metadata := e.metadata

/-- Modelled from the spec: accessor of the decoded event. -/
def AggregateID (e : Event π) : String := e.event.AggregateID

/-- Modelled from the spec: accessor of the decoded event. -/
def AggregateType (e : Event π) : String := e.event.AggregateType

/-- Modelled from the spec: accessor of the decoded event. -/
def Version (e : Event π) : Eventsourcing.Version := e.event.Version

/-- Modelled from the spec: accessor of the decoded event. -/
def GlobalVersion (e : Event π) : Eventsourcing.Version := e.event.GlobalVersion

/-- Modelled from the spec: accessor of the decoded event. -/
def Timestamp (e : Event π) : Nat := e.event.Timestamp

/-- Modelled from the spec: the reason is the event's type name, the name of the
dynamic type of its data. -/
def Reason (e : Event π) : String := e.data.typeName

end Event

/-! ## Type register (`internal/register.go`) -/

namespace internal

/-- The struct `register`: the Go maps are association lists, looked up from the
front. A `registerFunc` is a constructor without arguments, represented by the fresh
value it returns. -/
structure register (π : Type) where
  eventsF : List (String × Dyn π)
  aggregates : List String

namespace register

variable {π : Type}

/-- The function `newRegister`. -/
def newRegister : register π := { eventsF := [], aggregates := [] }

/-- The method `AggregateRegistered`, applied to `aggregateType(a)`. -/
def AggregateRegistered (r : register π) (typ : String) : Bool :=
  r.aggregates.contains typ

/-- The method `EventRegistered`: `none` is the `false` result. -/
def EventRegistered (r : register π) (event : core.Event) : Option (Dyn π) :=
  r.eventsF.lookup (event.AggregateType ++ "_" ++ event.Reason)

/-- The function `eventToFunc`: a constructor of a new zero value of the exemplar's
type. -/
def eventToFunc [Inhabited π] (event : Dyn π) : Dyn π :=
  { typeName := event.typeName, pkgPath := event.pkgPath, value := default }

/-- The method `Register`, applied to `aggregateType(a)` and to the exemplars the
aggregate's `Register` method passes to the callback `RegisterAggregate` returns. A
map assignment puts the binding in front of the association list. -/
def Register [Inhabited π] (r : register π) (aggregateType : String)
    (exemplars : List (Dyn π)) : register π :=
  (exemplars.map eventToFunc).foldl
    (fun r f => { r with eventsF := (aggregateType ++ "_" ++ f.typeName, f) :: r.eventsF })
    { r with aggregates := aggregateType :: r.aggregates }

/-- A raw event of the given aggregate type and reason, with nothing else set: what a
lookup in the register depends on. -/
def probe (aggregateType reason : String) : core.Event :=
  { AggregateID := "", Version := 0, GlobalVersion := 0, AggregateType := aggregateType,
    Timestamp := 0, Reason := reason, Data := [], Metadata := none }

end register

end internal

/-! ## Aggregate root (`aggregate/root.go`) -/

namespace aggregate

/-- The struct `Root`. -/
structure Root (π : Type) where
  id : String
  version : Eventsourcing.Version
  globalVersion : Eventsourcing.Version
  events : List (Event π)
deriving DecidableEq, Repr

/-- The constant `emptyID`. -/
def emptyID : String := ""

/-- The methods and the dynamic type of a value behind the interface `aggregate`, a
pointer to a struct that embeds `Root`: `typeName` is `aggregateType(a)`; `Transition`
is a method of that struct, so it is given the embedded root as it stands when the
method is called, which it can read through `ID`, `Version`, `GlobalVersion`, `Events`
and `UnsavedEvents`, and the event, and it acts on the fields next to the root;
`Register` is the list of exemplars the `Register` method hands to its callback. The two
snapshot methods belong to the interface `snapshot`; the marshal function each receives
is the snapshot encoder. -/
structure Class (σ π : Type) where
  typeName : String
  Transition : Root π → σ → Event π → σ
  Register : List (Dyn π)
  SerializeSnapshot : σ → Except Error Bytes
  DeserializeSnapshot : σ → Bytes → σ × Option Error

/-- The struct a value behind `aggregate` points to: the embedded root and the fields
next to it. -/
structure Aggregate (σ π : Type) where
  root : Root π
  state : σ
deriving DecidableEq, Repr

namespace Root

variable {π : Type}

/-- The method `Version`. -/
def Version (ar : Root π) : Eventsourcing.Version :=
  match ar.events.getLast? with
  | some last => last.Version
  | none => ar.version

/-- The method `nextVersion`. -/
def nextVersion (ar : Root π) : Eventsourcing.Version := ar.Version + 1

/-- The method `SetID`. -/
def SetID (ar : Root π) (id : String) : Root π × Option Error :=
  if ar.id ≠ emptyID then (ar, some Error.ErrAggregateAlreadyExists)
  else ({ ar with id := id }, none)

/-- The method `ID`. -/
def ID (ar : Root π) : String := ar.id

/-- The method `GlobalVersion`. -/
def GlobalVersion (ar : Root π) : Eventsourcing.Version := ar.globalVersion

/-- The method `Events`: a copy of the buffer. -/
def Events (ar : Root π) : List (Event π) := ar.events.map (fun event => event)

/-- The method `UnsavedEvents`. -/
def UnsavedEvents (ar : Root π) : Bool := decide (ar.events.length > 0)

end Root

variable {σ π : Type}

/-- The function `TrackChangeWithMetadata`. `newID` is what `idFunc()` returns when it
is called, `now` is `time.Now().UTC()`. -/
def TrackChangeWithMetadata (c : Class σ π) (newID : String) (now : Nat)
    (a : Aggregate σ π) (data : Dyn π) (metadata : Metadata) : Aggregate σ π :=
  let ar := a.root
  let ar := if ar.id = emptyID then { ar with id := newID } else ar
  let event := Event.NewEvent
    { AggregateID := ar.id
      Version := ar.nextVersion
      GlobalVersion := 0
      AggregateType := c.typeName
      Timestamp := now
      Reason := ""
      Data := []
      Metadata := none }
    data metadata
  let ar := { ar with events := ar.events ++ [event] }
  { root := ar, state := c.Transition ar a.state event }

/-- The function `TrackChange`. -/
def TrackChange (c : Class σ π) (newID : String) (now : Nat)
    (a : Aggregate σ π) (data : Dyn π) : Aggregate σ π :=
  TrackChangeWithMetadata c newID now a data none

/-- The function `buildFromHistory`. -/
def buildFromHistory (c : Class σ π) (a : Aggregate σ π) (events : List (Event π)) :
    Aggregate σ π :=
  events.foldl
    (fun a event =>
      { state := c.Transition a.root a.state event
        root := { a.root with
          id := event.AggregateID
          version := event.Version
          globalVersion := event.GlobalVersion } })
    a

end aggregate

/-! ## Collaborators (`core`) -/

/-- A `context.Context` as the load loop sees it: `cancelledFrom = some n` closes
`Done()` from the n-th poll on, `none` never closes it; `err` is what `Err()` returns
once `Done()` is closed. -/
structure Context where
  cancelledFrom : Option Nat
  err : Error
deriving DecidableEq, Repr

namespace Context

/-- The receive `<-ctx.Done()` of a `select` with a default case, at poll number `i`. -/
def done (ctx : Context) (i : Nat) : Bool :=
  match ctx.cancelledFrom with
  | some n => decide (n ≤ i)
  | none => false

/-- The context `context.Background()`. -/
def Background : Context := { cancelledFrom := none, err := Error.contextCanceled }

end Context

namespace core

/-- Modelled from the spec: the interface `core.Iterator` (`Next`, `Value`, `Close`) is
declared outside the sources. A cursor is the finite list of the results that `Value`
returns after each `Next` that reports `true`. -/
abbrev Iterator := List (Except Error Event)

/-- Modelled from the spec: the interface `core.EventStore` is declared outside the
sources. `S` is the state of the back-end. `Save` returns the new state, the content of
the caller's slice after the call (the store writes global versions into it) and the
error; a callee cannot change the length of the caller's slice, which is `Save_length`.
`Get` takes the context, the aggregate id, the aggregate type and the version after
which events are wanted. -/
structure EventStore (S : Type) where
  Save : S → List Event → S × List Event × Option Error
  Get : S → Context → String → String → Version → Except Error Iterator
  Save_length : ∀ s events, (Save s events).2.1.length = events.length

/-- Modelled from the spec: the struct `core.Snapshot` is declared outside the sources;
the fields are (id, type, version, global version, state bytes); `Typ` is the field
`Type`, a reserved word here. -/
structure Snapshot where
  ID : String
  Typ : String
  Version : Eventsourcing.Version
  GlobalVersion : Eventsourcing.Version
  State : Bytes
deriving DecidableEq, Repr

/-- Modelled from the spec: the interface `core.SnapshotStore` is declared outside the
sources. `T` is the state of the back-end; `Get` takes the context, the aggregate id
and the aggregate type. -/
structure SnapshotStore (T : Type) where
  Save : T → Snapshot → T × Option Error
  Get : T → Context → String → String → Except Error Snapshot

end core

/-! ## Decoding iterator (`iterator.go`) -/

namespace Iterator

variable {π : Type}

/-- The method `Iterator.Value`, applied to what the wrapped `CoreIterator.Value()`
returns. -/
def Value (reg : internal.register π) (enc : Encoder π) (item : Except Error core.Event) :
    Except Error (Event π) :=
  match item with
  | .error err => .error err
  | .ok event =>
    match reg.EventRegistered event with
    | none =>
      .error (Error.wrap
        ("event not registered, aggregate type: " ++ event.AggregateType ++ ", reason: "
          ++ event.Reason ++ ", global version: " ++ toString event.GlobalVersion ++ ", ")
        Error.ErrEventNotRegistered)
    | some f =>
      match enc.DeserializeData event.Data f with
      | .error err => .error err
      | .ok data =>
        match event.Metadata with
        | none => .ok { event := event, data := data, metadata := some [] }
        | some bytes =>
          match enc.DeserializeMetadata bytes (some []) with
          | .error err => .error err
          | .ok metadata => .ok { event := event, data := data, metadata := metadata }

/-- The calls `Iterator.Value` makes on its collaborators after `CoreIterator.Value()`
has returned: the lookup in the register and the two uses of the event codec. -/
inductive Call where
  | EventRegistered (aggregateType reason : String)
  | DeserializeData (bytes : Bytes)
  | DeserializeMetadata (bytes : Bytes)
deriving DecidableEq, Repr

/-- The method `Iterator.Value` once more, returning next to its result the log of the
calls it made on the register and on the event codec, in order. -/
def ValueLogged (reg : internal.register π) (enc : Encoder π) (item : Except Error core.Event) :
    Except Error (Event π) × List Call :=
  match item with
  | .error err => (.error err, [])
  | .ok event =>
    match reg.EventRegistered event with
    | none =>
      (.error (Error.wrap
        ("event not registered, aggregate type: " ++ event.AggregateType ++ ", reason: "
          ++ event.Reason ++ ", global version: " ++ toString event.GlobalVersion ++ ", ")
        Error.ErrEventNotRegistered),
        [Call.EventRegistered event.AggregateType event.Reason])
    | some f =>
      match enc.DeserializeData event.Data f with
      | .error err =>
        (.error err,
          [Call.EventRegistered event.AggregateType event.Reason,
           Call.DeserializeData event.Data])
      | .ok data =>
        match event.Metadata with
        | none =>
          (.ok { event := event, data := data, metadata := some [] },
            [Call.EventRegistered event.AggregateType event.Reason,
             Call.DeserializeData event.Data])
        | some bytes =>
          match enc.DeserializeMetadata bytes (some []) with
          | .error err =>
            (.error err,
              [Call.EventRegistered event.AggregateType event.Reason,
               Call.DeserializeData event.Data, Call.DeserializeMetadata bytes])
          | .ok metadata =>
            (.ok { event := event, data := data, metadata := metadata },
              [Call.EventRegistered event.AggregateType event.Reason,
               Call.DeserializeData event.Data, Call.DeserializeMetadata bytes])

end Iterator

/-! ## Load and Save (`aggregate/aggregate.go`) -/

namespace reflect

/-- The kinds `reflect.ValueOf(a).Kind()` can report for a value behind `aggregate`:
a pointer, or a struct passed by value. -/
inductive Kind where
  | Ptr
  | Struct
deriving DecidableEq, Repr

end reflect

namespace aggregate

variable {σ π S T : Type}

/-- One invocation of `EventStore.Get`: aggregate id, aggregate type, after-version. -/
structure GetCall where
  id : String
  aggregateType : String
  afterVersion : Version
deriving DecidableEq, Repr

/-- What `saveEvents` returns (`globalVersion`, `err`), the store after the call and
the log of the slices handed to `EventStore.Save`. -/
structure SaveEventsResult (S : Type) where
  globalVersion : Version
  err : Option Error
  store : S
  calls : List (List core.Event)

/-- What `Save` returns (`err`), the aggregate and the store after the call, and the
log of the slices handed to `EventStore.Save`. -/
structure SaveResult (σ π S : Type) where
  err : Option Error
  a : Aggregate σ π
  store : S
  calls : List (List core.Event)

/-- What `Load` returns (`err`), the aggregate after the call and the log of the
invocations of `EventStore.Get`. -/
structure LoadResult (σ π : Type) where
  err : Option Error
  a : Aggregate σ π
  gets : List GetCall

/-- The loop of `saveEvents` that turns the buffered events into raw events: for each
event, serialize data, serialize metadata, build the raw event, check the register. -/
def encodeEvents (reg : internal.register π) (enc : Encoder π) :
    List (Event π) → Except Error (List core.Event)
  | [] => .ok []
  | event :: rest =>
    match enc.SerializeData event.Data with
    | .error err => .error err
    | .ok data =>
      match enc.SerializeMetadata event.Metadata with
      | .error err => .error err
      | .ok metadata =>
        let esEvent : core.Event :=
          { AggregateID := event.AggregateID
            Version := event.Version
            GlobalVersion := 0
            AggregateType := event.AggregateType
            Timestamp := event.Timestamp
            Reason := event.Reason
            Data := data
            Metadata := metadata }
        match reg.EventRegistered esEvent with
        | none => .error (Error.wrap (esEvent.Reason ++ " ") Error.ErrEventNotRegistered)
        | some _ =>
          match encodeEvents reg enc rest with
          | .error err => .error err
          | .ok esEvents => .ok (esEvent :: esEvents)

/-- The function `saveEvents`. The last line indexes the last element of the slice handed
to the store; `Save` only calls with a non-empty buffer, and for an empty slice, where
Go would panic on the index, the model reads 0. -/
def saveEvents (reg : internal.register π) (enc : Encoder π) (eventStore : core.EventStore S)
    (s : S) (events : List (Event π)) : SaveEventsResult S :=
  match encodeEvents reg enc events with
  | .error err => { globalVersion := 0, err := some err, store := s, calls := [] }
  | .ok esEvents =>
    match eventStore.Save s esEvents with
    | (s', _, some err) =>
      if Error.Is err Error.coreErrConcurrency then
        { globalVersion := 0, err := some Error.ErrConcurrency, store := s', calls := [esEvents] }
      else
        { globalVersion := 0, err := some (Error.wrap "error from event store: " err),
          store := s', calls := [esEvents] }
    | (s', written, none) =>
      { globalVersion := (written.getLast?.map (fun e => e.GlobalVersion)).getD 0,
        err := none, store := s', calls := [esEvents] }

/-- The function `Save`, for an aggregate passed as a pointer. The buffer is not empty
where `lastEvent` is read, so the `none` case of that read is never taken. -/
def Save (reg : internal.register π) (enc : Encoder π) (es : core.EventStore S) (s : S)
    (c : Class σ π) (a : Aggregate σ π) : SaveResult σ π S :=
  let root := a.root
  if root.events.length = 0 then
    { err := none, a := a, store := s, calls := [] }
  else if !reg.AggregateRegistered c.typeName then
    { err := some (Error.wrap (c.typeName ++ " ") Error.ErrAggregateNotRegistered),
      a := a, store := s, calls := [] }
  else
    let r := saveEvents reg enc es s root.Events
    match r.err with
    | some err => { err := some err, a := a, store := r.store, calls := r.calls }
    | none =>
      match root.events.getLast? with
      | none => { err := none, a := a, store := r.store, calls := r.calls }
      | some lastEvent =>
        { err := none
          a := { a with root :=
            { id := root.id, version := lastEvent.Version, globalVersion := r.globalVersion,
              events := [] } }
          store := r.store
          calls := r.calls }

/-- The function `getEvents`. -/
def getEvents (ctx : Context) (eventStore : core.EventStore S) (s : S)
    (id aggregateType : String) (fromVersion : Version) : Except Error core.Iterator :=
  match eventStore.Get s ctx id aggregateType fromVersion with
  | .error err => .error err
  | .ok eventIterator => .ok eventIterator

/-- The loop `for iterator.Next()` of `Load`: `poll` counts the polls of the context
made so far; the result is the error the loop returns with, if any, and the aggregate. -/
def loadLoop (reg : internal.register π) (enc : Encoder π) (ctx : Context) (c : Class σ π) :
    Nat → core.Iterator → Aggregate σ π → Option Error × Aggregate σ π
  | _, [], a => (none, a)
  | poll, item :: rest, a =>
    if ctx.done poll then (some ctx.err, a)
    else
      match Iterator.Value reg enc item with
      | .error err => (some err, a)
      | .ok event => loadLoop reg enc ctx c (poll + 1) rest (buildFromHistory c a [event])

/-- The function `Load`. `kind` is `reflect.ValueOf(a).Kind()`. -/
def Load (reg : internal.register π) (enc : Encoder π) (kind : reflect.Kind) (ctx : Context)
    (es : core.EventStore S) (s : S) (id : String) (c : Class σ π) (a : Aggregate σ π) :
    LoadResult σ π :=
  if kind ≠ reflect.Kind.Ptr then
    { err := some Error.ErrAggregateNeedsToBeAPointer, a := a, gets := [] }
  else
    let call : GetCall := { id := id, aggregateType := c.typeName, afterVersion := a.root.Version }
    match getEvents ctx es s id c.typeName a.root.Version with
    | .error err => { err := some err, a := a, gets := [call] }
    | .ok iterator =>
      match loadLoop reg enc ctx c 0 iterator a with
      | (some err, a') => { err := some err, a := a', gets := [call] }
      | (none, a') =>
        if a'.root.Version = 0 then
          { err := some Error.ErrAggregateNotFound, a := a', gets := [call] }
        else { err := none, a := a', gets := [call] }

/-! ## Snapshots (`aggregate/snapshot.go`) -/

/-- One invocation of `SnapshotStore.Get`: aggregate id and aggregate type. -/
structure SnapshotGetCall where
  id : String
  aggregateType : String
deriving DecidableEq, Repr

/-- What `LoadSnapshot` returns (`err`), the aggregate after the call, the log of the
invocations of `SnapshotStore.Get` and the log of the byte slices handed to the
aggregate's `DeserializeSnapshot`. -/
structure LoadSnapshotResult (σ π : Type) where
  err : Option Error
  a : Aggregate σ π
  gets : List SnapshotGetCall
  deserialized : List Bytes

/-- What `SaveSnapshot` returns (`err`), the aggregate and the snapshot store after the
call, the number of calls of the aggregate's `SerializeSnapshot` and the log of the
snapshots handed to `SnapshotStore.Save`. -/
structure SaveSnapshotResult (σ π T : Type) where
  err : Option Error
  a : Aggregate σ π
  store : T
  serialized : Nat
  saves : List core.Snapshot

/-- The function `getSnapshot`; the result record is that of `LoadSnapshot`, which adds
nothing to the two logs. -/
def getSnapshot (ctx : Context) (ss : core.SnapshotStore T) (t : T) (id : String)
    (c : Class σ π) (a : Aggregate σ π) : LoadSnapshotResult σ π :=
  match ss.Get t ctx id c.typeName with
  | .error err =>
    { err := some err, a := a, gets := [{ id := id, aggregateType := c.typeName }],
      deserialized := [] }
  | .ok snap =>
    match c.DeserializeSnapshot a.state snap.State with
    | (state, some err) =>
      { err := some err, a := { a with state := state },
        gets := [{ id := id, aggregateType := c.typeName }], deserialized := [snap.State] }
    | (state, none) =>
      { err := none
        a :=
          { state := state
            root := { a.root with
              globalVersion := snap.GlobalVersion
              version := snap.Version
              id := snap.ID } }
        gets := [{ id := id, aggregateType := c.typeName }]
        deserialized := [snap.State] }

/-- The function `LoadSnapshot`. `kind` is `reflect.ValueOf(s).Kind()`. -/
def LoadSnapshot (kind : reflect.Kind) (ctx : Context) (ss : core.SnapshotStore T) (t : T)
    (id : String) (c : Class σ π) (a : Aggregate σ π) : LoadSnapshotResult σ π :=
  if kind ≠ reflect.Kind.Ptr then
    { err := some Error.ErrAggregateNeedsToBeAPointer, a := a, gets := [], deserialized := [] }
  else
    match (getSnapshot ctx ss t id c a).err with
    | some err =>
      if Error.Is err Error.coreErrSnapshotNotFound then
        { getSnapshot ctx ss t id c a with err := some Error.ErrAggregateNotFound }
      else getSnapshot ctx ss t id c a
    | none => getSnapshot ctx ss t id c a

/-- The function `SaveSnapshot`, for an aggregate passed as a pointer. -/
def SaveSnapshot (ss : core.SnapshotStore T) (t : T) (c : Class σ π) (a : Aggregate σ π) :
    SaveSnapshotResult σ π T :=
  let root := a.root
  if root.Events.length > 0 then
    { err := some Error.ErrUnsavedEvents, a := a, store := t, serialized := 0, saves := [] }
  else
    match c.SerializeSnapshot a.state with
    | .error err => { err := some err, a := a, store := t, serialized := 1, saves := [] }
    | .ok state =>
      let snapshot : core.Snapshot :=
        { ID := root.ID
          Typ := c.typeName
          Version := root.Version
          GlobalVersion := root.GlobalVersion
          State := state }
      { err := (ss.Save t snapshot).2, a := a, store := (ss.Save t snapshot).1,
        serialized := 1, saves := [snapshot] }

/-- The function `LoadFromSnapshot`; the log is that of the event store's `Get`. -/
def LoadFromSnapshot (reg : internal.register π) (enc : Encoder π) (kind : reflect.Kind)
    (ctx : Context) (es : core.EventStore S) (s : S) (ss : core.SnapshotStore T) (t : T)
    (id : String) (c : Class σ π) (a : Aggregate σ π) : LoadResult σ π :=
  match (LoadSnapshot kind ctx ss t id c a).err with
  | some err => { err := some err, a := (LoadSnapshot kind ctx ss t id c a).a, gets := [] }
  | none => Load reg enc kind ctx es s id c (LoadSnapshot kind ctx ss t id c a).a

/-- The arguments of one call of `TrackChangeWithMetadata` together with what the
environment supplies to it: the id `idFunc()` would generate and the current time. -/
structure Change (π : Type) where
  newID : String
  now : Nat
  data : Dyn π
  metadata : Metadata

/-- A sequence of `TrackChangeWithMetadata` calls on the same aggregate. -/
def trackAll (c : Class σ π) (a : Aggregate σ π) (changes : List (Change π)) :
    Aggregate σ π :=
  changes.foldl
    (fun a ch => TrackChangeWithMetadata c ch.newID ch.now a ch.data ch.metadata) a

/-- The pair (aggregate type, reason) of a buffered event is in the register: the
lookup `EventRegistered` makes on the raw event built from it succeeds. -/
def registered (reg : internal.register π) (event : Event π) : Bool :=
  (reg.eventsF.lookup (event.AggregateType ++ "_" ++ event.Reason)).isSome

/-- The encoder accepts both the data and the metadata of a buffered event. -/
def serializes (enc : Encoder π) (event : Event π) : Bool :=
  (enc.SerializeData event.Data).toBool && (enc.SerializeMetadata event.Metadata).toBool

/-- The buffered events up to and including the first one that is not registered (all
of them when every event is registered). -/
def upToFirstUnregistered (reg : internal.register π) (events : List (Event π)) :
    List (Event π) :=
  events.take ((events.takeWhile (registered reg)).length + 1)

/-- A zero-value aggregate: an empty root next to the zero value of the other fields. -/
def zeroValue (zero : σ) : Aggregate σ π :=
  { root := { id := emptyID, version := 0, globalVersion := 0, events := [] }, state := zero }

/-- The register holds, for the (aggregate type, reason) of the event, a constructor of
a value of the event's own type. -/
def constructs (reg : internal.register π) (event : Event π) : Bool :=
  match reg.eventsF.lookup (event.AggregateType ++ "_" ++ event.Reason) with
  | some f => decide (f.sameType event.Data)
  | none => false

/-- The event codec's Deserialize inverts its Serialize: decoding the bytes of a data
value into a fresh value of the same type gives the value back; decoding the bytes of a
metadata map into a fresh map gives the map back; and only the empty map is encoded as
a nil slice, which the iterator reads as the empty map without calling the codec. -/
def Inverts (enc : Encoder π) : Prop :=
  (∀ (d sink : Dyn π) (bytes : Bytes), enc.SerializeData d = .ok bytes →
      sink.sameType d → enc.DeserializeData bytes sink = .ok d)
  ∧ (∀ (m : Metadata) (bytes : Bytes), enc.SerializeMetadata m = .ok (some bytes) →
      enc.DeserializeMetadata bytes (some []) = .ok m)
  ∧ (∀ m : Metadata, enc.SerializeMetadata m = .ok none → m = some [])

/-- Of the event, the Transition of the class reads the data, metadata, aggregate id,
aggregate type, version and timestamp only: not the global version, which is 0 on a
tracked event and assigned by the store on a loaded one, nor the raw payloads. -/
def ReadsContent (c : Class σ π) : Prop :=
  ∀ (r : Root π) (s : σ) (e e' : Event π), e.Data = e'.Data → e.Metadata = e'.Metadata →
    e.AggregateID = e'.AggregateID → e.AggregateType = e'.AggregateType →
    e.Version = e'.Version → e.Timestamp = e'.Timestamp →
    c.Transition r s e = c.Transition r s e'

/-- The Transition of the class does not read the embedded root: `TrackChangeWithMetadata`
calls it after the event was appended to the buffer, `buildFromHistory` before id,
version and global version of the root are set from the event, so the root it finds is
not the same on the two paths. -/
def RootBlind (c : Class σ π) : Prop :=
  ∀ (r r' : Root π) (s : σ) (e : Event π), c.Transition r s e = c.Transition r' s e

/-- The stored event `r` is the saved event `b` up to the global version, which the
store assigns. -/
def storedAs (b r : core.Event) : Prop :=
  { r with GlobalVersion := b.GlobalVersion } = b

/-- The buffer of a root whose committed version is `v` carries `v+1, v+2, ...`. -/
def Consecutive (v : Version) (ar : Root π) : Prop :=
  ar.version = v ∧ ar.events.map Event.Version = List.range' (v + 1) ar.events.length

end aggregate

/-! ## A concrete aggregate -/

namespace Counter

open aggregate

/-- A small aggregate used to instantiate the general statements: the state is a
running total, the only event type is `Added`, whose payload is the amount; the
snapshot body is the total as a single number. -/
def counter : Class Nat Nat :=
  { typeName := "Counter"
    Transition := fun _ total event => total + event.Data.value
    Register := [{ typeName := "Added", value := 0 }]
    SerializeSnapshot := fun total => .ok [total]
    DeserializeSnapshot := fun total bytes =>
      match bytes with
      | [n] => (n, none)
      | _ => (total, some (Error.backend 1)) }

/-- A zero-value `Counter`. -/
def fresh : Aggregate Nat Nat :=
  { root := { id := "", version := 0, globalVersion := 0, events := [] }, state := 0 }

/-- The change `Added{amount}`, with the id the generator would hand out and the time. -/
def added (amount : Nat) (now : Nat) : Change Nat :=
  { newID := "c-1", now := now, data := { typeName := "Added", value := amount },
    metadata := none }

/-- The register after `aggregate.Register(&Counter{})` on a new register. -/
def register : internal.register Nat :=
  internal.register.newRegister.Register counter.typeName counter.Register

/-- An event codec for `Counter`: the data is the amount as one number; the nil
metadata map is `[0]`, the empty map is `[1]`, larger maps are refused. -/
def encoder : Encoder Nat :=
  { SerializeData := fun data => .ok [data.value]
    SerializeMetadata := fun metadata =>
      match metadata with
      | none => .ok (some [0])
      | some [] => .ok (some [1])
      | some _ => .error (Error.backend 2)
    DeserializeData := fun bytes sink =>
      match bytes with
      | [n] => .ok { sink with value := n }
      | _ => .error (Error.backend 3)
    DeserializeMetadata := fun bytes _ =>
      match bytes with
      | [0] => .ok none
      | [1] => .ok (some [])
      | _ => .error (Error.backend 4) }

end Counter

/-! ## Concrete event stores -/

namespace memory

/-- Modelled from the spec: the in-memory event store is outside the sources. The state
is the global log; the current version of a stream is the version of its last event. -/
def currentVersion (log : List core.Event) (id aggregateType : String) : Version :=
  (((log.filter (fun e => e.AggregateID = id ∧ e.AggregateType = aggregateType)).getLast?).map
    (fun e => e.Version)).getD 0

/-- Modelled from the spec: the events of a batch receive the next global versions, in
slice order. -/
def assign (next : Version) (events : List core.Event) : List core.Event :=
  events.enum.map (fun ie => { ie.2 with GlobalVersion := next + ie.1 })

/-- Modelled from the spec: `Save` of the event store contract, section 4.D: an empty
slice is a no-op, a first version other than current + 1 is `ErrConcurrency` without a
write, otherwise the batch is appended with its global versions written back. -/
def Save (log : List core.Event) (events : List core.Event) :
    List core.Event × List core.Event × Option Error :=
  match events with
  | [] => (log, [], none)
  | first :: rest =>
    if currentVersion log first.AggregateID first.AggregateType + 1 ≠ first.Version then
      (log, first :: rest, some Error.coreErrConcurrency)
    else (log ++ assign (log.length + 1) (first :: rest), assign (log.length + 1) (first :: rest),
      none)

/-- Modelled from the spec: `Get` of the event store contract, section 4.D: the events
of the stream with a version above `afterVersion`, in ascending version order. -/
def Get (log : List core.Event) (_ctx : Context) (id aggregateType : String)
    (afterVersion : Version) : Except Error core.Iterator :=
  .ok ((log.filter (fun e =>
    e.AggregateID = id ∧ e.AggregateType = aggregateType ∧ afterVersion < e.Version)).map .ok)

/-- The in-memory event store. -/
def Create : core.EventStore (List core.Event) :=
  { Save := Save
    Get := Get
    Save_length := by
      intro s events
      cases events with
      | nil => rfl
      | cons first rest =>
        simp only [Save]
        split <;> simp [assign] }

/-- An event store whose `Save` always fails with `err` and whose `Get` yields the
events of `history` as they are. -/
def failing (err : Error) (history : core.Iterator) : core.EventStore Unit :=
  { Save := fun s events => (s, events, some err)
    Get := fun _ _ _ _ _ => .ok history
    Save_length := fun _ _ => rfl }

end memory

/-! ## A concrete snapshot store -/

namespace snapshotstore

/-- Modelled from the spec: the in-memory snapshot store is outside the sources. `Save`
upserts by (type, id), the newest snapshot in front; `Get` returns the snapshot of
(id, type) or `ErrSnapshotNotFound`. -/
def Create : core.SnapshotStore (List core.Snapshot) :=
  { Save := fun t snapshot => (snapshot :: t, none)
    Get := fun t _ id aggregateType =>
      match t.find? (fun snap => decide (snap.ID = id ∧ snap.Typ = aggregateType)) with
      | some snap => .ok snap
      | none => .error Error.coreErrSnapshotNotFound }

end snapshotstore

namespace Counter

open aggregate

/-- A `Counter` on which `Added{1}` was tracked at time 10. -/
def tracked : Aggregate Nat Nat := trackAll counter fresh [added 1 10]

/-- The raw event `saveEvents` builds from the buffer of `tracked`. -/
def trackedBatch : List core.Event :=
  [{ AggregateID := "c-1", Version := 1, GlobalVersion := 0, AggregateType := "Counter",
     Timestamp := 10, Reason := "Added", Data := [1], Metadata := some [0] }]

/-- A second class on the type `Counter`: its Transition keeps the global version of
the last event it was given. -/
def auditor : Class Nat Nat :=
  { counter with Transition := fun _ _ event => event.GlobalVersion }

/-- An `auditor` on which `Added{1}` was tracked at time 10. -/
def audited : Aggregate Nat Nat := trackAll auditor fresh [added 1 10]

/-- A third class on the type `Counter`: its Transition keeps what `Version()` of the
embedded root returns when it is called. -/
def versioned : Class Nat Nat :=
  { counter with Transition := fun root _ _ => root.Version }

/-- A `versioned` on which `Added{1}` was tracked at time 10. -/
def versionedOnce : Aggregate Nat Nat := trackAll versioned fresh [added 1 10]

/-- A fourth class on the type `Counter`: its Transition keeps the length of what `ID()`
of the embedded root returns when it is called. -/
def named : Class Nat Nat :=
  { counter with Transition := fun root _ _ => root.ID.length }

/-- A zero-value instance whose id was set with `SetID("c-1")`: nothing is tracked, the
version is 0. -/
def preset : Aggregate Nat Nat := { fresh with root := (fresh.root.SetID "c-1").1 }

/-- A `Counter` whose buffer holds one event of the type `Removed`, which `Counter`
does not list in `Register`, tracked with a metadata map of one entry. -/
def trackedRemoved : Aggregate Nat Nat :=
  TrackChangeWithMetadata counter "c-1" 10 fresh { typeName := "Removed", value := 1 }
    (some [("user", "u-7")])

/-- The raw event of `trackedBatch` as the in-memory store holds it after the Save. -/
def storedEvent : core.Event :=
  { AggregateID := "c-1", Version := 1, GlobalVersion := 1, AggregateType := "Counter",
    Timestamp := 10, Reason := "Added", Data := [1], Metadata := some [0] }

/-- The log of the in-memory store after the Save of `tracked`. -/
def storedBatch : List core.Event := [storedEvent]

/-- The decoded form of `storedBatch`. -/
def decodedBatch : List (Event Nat) :=
  [{ event := { AggregateID := "c-1", Version := 1, GlobalVersion := 1,
                AggregateType := "Counter", Timestamp := 10, Reason := "Added", Data := [1],
                Metadata := some [0] },
     data := { typeName := "Added", value := 1 }, metadata := none }]

/-- The stream of `c-1` after a second change, `Added{2}` at time 20, was saved. -/
def storedTwo : List core.Event :=
  [storedEvent,
   { AggregateID := "c-1", Version := 2, GlobalVersion := 2, AggregateType := "Counter",
     Timestamp := 20, Reason := "Added", Data := [2], Metadata := some [0] }]

/-- The decoded form of `storedTwo`. -/
def decodedTwo : List (Event Nat) :=
  [{ event := storedEvent, data := { typeName := "Added", value := 1 }, metadata := none },
   { event := { AggregateID := "c-1", Version := 2, GlobalVersion := 2,
                AggregateType := "Counter", Timestamp := 20, Reason := "Added", Data := [2],
                Metadata := some [0] },
     data := { typeName := "Added", value := 2 }, metadata := none }]

/-- The `Counter` of `tracked` after its Save to the empty in-memory store. -/
def saved : Aggregate Nat Nat :=
  (Save register encoder memory.Create [] counter tracked).a

/-- The snapshot SaveSnapshot takes of `saved`. -/
def savedSnapshot : core.Snapshot :=
  { ID := "c-1", Typ := "Counter", Version := 1, GlobalVersion := 1, State := [1] }

/-- The `auditor` of `audited` after its Save to the empty in-memory store. -/
def auditedSaved : Aggregate Nat Nat :=
  (Save register encoder memory.Create [] auditor audited).a

/-- The snapshot SaveSnapshot takes of `auditedSaved`: the state it captures is 0. -/
def auditedSnapshot : core.Snapshot :=
  { ID := "c-1", Typ := "Counter", Version := 1, GlobalVersion := 1, State := [0] }

/-- A third class on the type `Counter`, whose snapshot methods do not agree on the
layout of the body: SerializeSnapshot writes the total alone, DeserializeSnapshot
expects a layout number, 2, in front of it and refuses anything else. -/
def relaidOut : Class Nat Nat :=
  { counter with
    DeserializeSnapshot := fun total bytes =>
      match bytes with
      | [2, n] => (n, none)
      | _ => (total, some (Error.backend 5)) }

/-- A class on the type `Counter` whose SerializeSnapshot fails: the marshal function it
is given refuses the value. -/
def unserializable : Class Nat Nat :=
  { counter with SerializeSnapshot := fun _ => .error (Error.backend 6) }

/-- A class on the type `Counter` whose DeserializeSnapshot looks a part of the body up
in a snapshot store of its own and reports the miss of that lookup, wrapped. -/
def nested : Class Nat Nat :=
  { counter with
    DeserializeSnapshot := fun total _ =>
      (total, some (Error.wrap "nested body: " Error.coreErrSnapshotNotFound)) }

end Counter

/-! ## The bbolt event store (`eventstore/bbolt`) -/

namespace bbolt

/-- The constant `globalEventOrderBucketName`. -/
def globalEventOrderBucketName : String := "global_event_order"

/-- The conversion `uint64(x)` of an unsigned value. -/
def uint64 (x : Nat) : Nat := x % 2 ^ 64

/-- The struct `boltEvent`. The value stored under a key is the JSON text of a
`boltEvent`; `json.Marshal` followed by `json.Unmarshal` gives the struct back, and the
stored value is represented by the struct itself. -/
structure boltEvent where
  AggregateID : String
  Version : Nat
  GlobalVersion : Nat
  Reason : String
  AggregateType : String
  Timestamp : Nat
  Data : Bytes
  Metadata : Option Bytes
deriving DecidableEq, Repr

/-- The function `itob`: the 8-byte big-endian key of a `uint64`. Keys of that form
compare bytewise as the numbers they encode, so a key is represented by its number. -/
def itob (v : Nat) : Nat := v

/-- The function `position`. -/
def position (p : Version) : Nat := itob (uint64 (p + 1))

/-- The function `bucketRef`. -/
def bucketRef (aggregateType aggregateID : String) : String :=
  aggregateType ++ "_" ++ aggregateID

/-- A bucket of the bbolt library: its key/value pairs in ascending key order, and the
counter behind `NextSequence`. -/
structure Bucket where
  pairs : List (Nat × boltEvent)
  sequence : Nat
deriving DecidableEq, Repr

/-- The content of a bbolt database, as a transaction sees it: the named buckets. A
write transaction works on its own copy, which `Commit` makes the content of the
database and `Rollback` drops. -/
structure DB where
  buckets : List (String × Bucket)
deriving DecidableEq, Repr

namespace Bucket

/-- The library's `Bucket.Put`: the value of an existing key is replaced, a new key is
inserted at its place in key order. -/
def Put (b : Bucket) (key : Nat) (value : boltEvent) : Bucket :=
  { b with
    pairs := b.pairs.filter (fun kv => decide (kv.1 < key)) ++ [(key, value)]
      ++ b.pairs.filter (fun kv => decide (key < kv.1)) }

/-- The library's `Cursor.Last` on a cursor of the bucket. -/
def Last (b : Bucket) : Option (Nat × boltEvent) := b.pairs.getLast?

end Bucket

namespace DB

/-- The library's `Tx.Bucket`: `none` is the nil bucket. -/
def Bucket (tx : DB) (name : String) : Option bbolt.Bucket := tx.buckets.lookup name

/-- Replace the bucket of that name in the transaction's copy. -/
def setBucket (tx : DB) (name : String) (b : bbolt.Bucket) : DB :=
  { buckets := tx.buckets.map (fun nb => if nb.1 = name then (nb.1, b) else nb) }

/-- The library's `Tx.CreateBucketIfNotExists`. -/
def CreateBucketIfNotExists (tx : DB) (name : String) : DB :=
  match tx.Bucket name with
  | some _ => tx
  | none => { buckets := tx.buckets ++ [(name, { pairs := [], sequence := 0 })] }

/-- The library's `Bucket.NextSequence` on the bucket of that name: the counter is
incremented and returned. -/
def NextSequence (tx : DB) (name : String) : DB × Nat :=
  match tx.Bucket name with
  | some b => (tx.setBucket name { b with sequence := b.sequence + 1 }, b.sequence + 1)
  | none => (tx, 0)

/-- The library's `Bucket.Put` on the bucket of that name. -/
def Put (tx : DB) (name : String) (key : Nat) (value : boltEvent) : DB :=
  match tx.Bucket name with
  | some b => tx.setBucket name (b.Put key value)
  | none => tx

end DB

/-- The function `New` on a file that does not exist yet: a database with the bucket of
the global event order. -/
def New : DB := { buckets := [(globalEventOrderBucketName, { pairs := [], sequence := 0 })] }

/-- The loop `for i, event := range events` of `Save`, on the transaction's copy: the
two buckets are addressed by name, as the handles `evBucket` and `globalBucket` point
into the same transaction. The second component is the caller's slice with the global
versions written into it. -/
def saveLoop (bucketRef : String) : DB → List core.Event → DB × List core.Event
  | tx, [] => (tx, [])
  | tx, event :: rest =>
    let sequence := (tx.NextSequence bucketRef).2
    let tx := (tx.NextSequence bucketRef).1
    let globalSequence := (tx.NextSequence globalEventOrderBucketName).2
    let tx := (tx.NextSequence globalEventOrderBucketName).1
    let bEvent : boltEvent :=
      { AggregateID := event.AggregateID
        AggregateType := event.AggregateType
        Version := uint64 event.Version
        GlobalVersion := globalSequence
        Reason := event.Reason
        Timestamp := event.Timestamp
        Metadata := event.Metadata
        Data := event.Data }
    let tx := tx.Put bucketRef (itob sequence) bEvent
    let tx := tx.Put globalEventOrderBucketName (itob globalSequence) bEvent
    ((saveLoop bucketRef tx rest).1,
      { event with GlobalVersion := globalSequence } :: (saveLoop bucketRef tx rest).2)

/-- The method `BBolt.Save`, absent failures of the database: the result is the
committed content of the database after the call, the caller's slice after the call and
the error. Every return before `tx.Commit()` leaves the committed content as it was,
through the deferred `tx.Rollback()`. -/
def Save (db : DB) (events : List core.Event) : DB × List core.Event × Option Error :=
  match events with
  | [] => (db, [], none)
  | first :: rest =>
    let ref := bucketRef first.AggregateType first.AggregateID
    let tx := match db.Bucket ref with
      | none => db.CreateBucketIfNotExists ref
      | some _ => db
    let currentVersion := match (tx.Bucket ref).bind Bucket.Last with
      | some (_, lastEvent) => lastEvent.Version
      | none => 0
    if currentVersion + 1 ≠ first.Version then
      (db, first :: rest, some Error.coreErrConcurrency)
    else
      match tx.Bucket globalEventOrderBucketName with
      | none => (db, first :: rest, some (Error.backend 10))
      | some _ =>
        ((saveLoop ref tx (first :: rest)).1, (saveLoop ref tx (first :: rest)).2, none)

/-- A cursor of the bbolt library over a bucket: the pairs of the bucket as the read
transaction sees them, and the pairs that follow the current position. A cursor that
was never positioned has nothing behind it. -/
structure Cursor where
  pairs : List (Nat × boltEvent)
  rest : List (Nat × boltEvent)
deriving DecidableEq, Repr

namespace Cursor

/-- The library's `Cursor.Seek`: move to the first pair whose key is not below `key`
and return its value, nil when there is none. -/
def Seek (cur : Cursor) (key : Nat) : Cursor × Option boltEvent :=
  match cur.pairs.dropWhile (fun kv => decide (kv.1 < key)) with
  | [] => ({ cur with rest := [] }, none)
  | kv :: rest => ({ cur with rest := rest }, some kv.2)

/-- The library's `Cursor.Next`: move to the following pair and return its value, nil at
the end. -/
def Next (cur : Cursor) : Cursor × Option boltEvent :=
  match cur.rest with
  | [] => (cur, none)
  | kv :: rest => ({ cur with rest := rest }, some kv.2)

end Cursor

/-- The struct `Iterator` of the package, without the transaction handle. `cursor` is
`none` for the nil cursor, `value` is `none` for the nil slice. -/
structure Iterator where
  cursor : Option Cursor
  startPosition : Nat
  value : Option boltEvent
  CurrentGlobalVersion : Version
deriving DecidableEq, Repr

namespace Iterator

/-- The zero value `Iterator{}`. -/
def zero : Iterator :=
  { cursor := none, startPosition := 0, value := none, CurrentGlobalVersion := 0 }

/-- The method `Iterator.Next`: the iterator after the call and the result. -/
def Next (i : Iterator) : Iterator × Bool :=
  match i.cursor with
  | none => (i, false)
  | some cur =>
    let moved := if i.value.isNone then cur.Seek i.startPosition else cur.Next
    ({ i with cursor := some moved.1, value := moved.2 }, moved.2.isSome)

/-- The method `Iterator.Value`: the iterator after the call and the result. With a nil
`value` the `json.Unmarshal` fails. -/
def Value (i : Iterator) : Iterator × Except Error core.Event :=
  match i.value with
  | none => (i, .error (Error.backend 11))
  | some bEvent =>
    ({ i with CurrentGlobalVersion := bEvent.GlobalVersion },
      .ok
        { AggregateID := bEvent.AggregateID
          AggregateType := bEvent.AggregateType
          Version := bEvent.Version
          GlobalVersion := bEvent.GlobalVersion
          Timestamp := bEvent.Timestamp
          Metadata := bEvent.Metadata
          Data := bEvent.Data
          Reason := bEvent.Reason })

/-- The raw event `Iterator.Value` builds from a stored value. -/
def decode (bEvent : boltEvent) : core.Event :=
  { AggregateID := bEvent.AggregateID
    AggregateType := bEvent.AggregateType
    Version := bEvent.Version
    GlobalVersion := bEvent.GlobalVersion
    Timestamp := bEvent.Timestamp
    Metadata := bEvent.Metadata
    Data := bEvent.Data
    Reason := bEvent.Reason }

/-- The loop `for iter.Next() { iter.Value() }` of a consumer that reads the iterator to
exhaustion: the iterator after the loop and the results of `Value`, in order. `fuel`
bounds the number of calls of `Next`; `none` means the bound was reached before `Next`
returned false. -/
def drain : Nat → Iterator → Option (Iterator × List (Except Error core.Event))
  | 0, _ => none
  | fuel + 1, i =>
    if (i.Next).2 then
      match drain fuel ((i.Next).1.Value).1 with
      | some (i', values) => some (i', ((i.Next).1.Value).2 :: values)
      | none => none
    else some ((i.Next).1, [])

end Iterator

/-- The method `BBolt.Get`, absent failures of the database. -/
def Get (db : DB) (_ctx : Context) (id aggregateType : String) (afterVersion : Version) :
    Iterator :=
  match db.Bucket (bucketRef aggregateType id) with
  | none => Iterator.zero
  | some bucket =>
    { cursor := some { pairs := bucket.pairs, rest := [] }
      startPosition := position afterVersion
      value := none
      CurrentGlobalVersion := 0 }

/-- The closure `BBolt.All` returns: the captured variables `start` and `iter`. -/
structure Fetcher where
  start : Version
  iter : Iterator
deriving DecidableEq, Repr

/-- The method `BBolt.All`. -/
def All (start : Version) : Fetcher := { start := start, iter := Iterator.zero }

namespace Fetcher

/-- One invocation of the fetcher on the committed content `db`, absent failures of the
database: the closure after the call, and the iterator it returns when that is not the
captured `iter` itself (`none` when it is, the caller then working on `iter`). -/
def call (f : Fetcher) (db : DB) : Fetcher × Option Iterator :=
  match db.Bucket globalEventOrderBucketName with
  | none => (f, some Iterator.zero)
  | some bucket =>
    let start := if f.iter.CurrentGlobalVersion ≠ 0 then f.iter.CurrentGlobalVersion else f.start
    ({ start := start
       iter := { f.iter with
         cursor := some { pairs := bucket.pairs, rest := [] }
         startPosition := position start } },
      none)

/-- One invocation of the fetcher followed by reading the returned iterator to
exhaustion, `Value` being called on each event: the closure afterwards, whose `iter` is
the iterator that was read when the fetcher returned it, and the results of `Value`. -/
def fetch (fuel : Nat) (f : Fetcher) (db : DB) :
    Option (Fetcher × List (Except Error core.Event)) :=
  match (f.call db).2 with
  | some separate =>
    match Iterator.drain fuel separate with
    | some (_, values) => some ((f.call db).1, values)
    | none => none
  | none =>
    match Iterator.drain fuel (f.call db).1.iter with
    | some (iter, values) => some ({ (f.call db).1 with iter := iter }, values)
    | none => none

end Fetcher

/-- The events a database holds for an aggregate: the values of the bucket of the
global event order that carry this aggregate type and id, in global order. -/
def storedFor (db : DB) (aggregateType id : String) : List boltEvent :=
  (((db.Bucket globalEventOrderBucketName).map (fun b => b.pairs)).getD []).filterMap
    (fun kv =>
      if kv.2.AggregateType = aggregateType ∧ kv.2.AggregateID = id then some kv.2 else none)

/-- The version of the last event stored for the aggregate, 0 when none is stored. -/
def storedVersion (db : DB) (aggregateType id : String) : Version :=
  (((storedFor db aggregateType id).getLast?).map (fun e => e.Version)).getD 0

/-- A raw event as a caller hands it to `Save`: no global version yet. -/
def rawEvent (aggregateType id : String) (version : Version) (reason : String) : core.Event :=
  { AggregateID := id, Version := version, GlobalVersion := 0, AggregateType := aggregateType,
    Timestamp := 0, Reason := reason, Data := [], Metadata := none }

/-- A new database after the first event of the aggregate of type `Order_eu` and id `7`
was saved. -/
def afterOrderEu : DB := (Save New [rawEvent "Order_eu" "7" 1 "Created"]).1

/-- A new database after the first event of the aggregate of type `global` and id
`event_order` was saved. -/
def afterGlobal : DB := (Save New [rawEvent "global" "event_order" 1 "Created"]).1

/-- A new database after two events of the aggregate `Order`/`1` and then one event of
the aggregate `Order`/`2` were saved. -/
def afterThree : DB :=
  (Save (Save New [rawEvent "Order" "1" 1 "Created", rawEvent "Order" "1" 2 "Paid"]).1
    [rawEvent "Order" "2" 1 "Created"]).1

/-- The global versions of the events an iterator yielded, errors left out. -/
def globalVersions (values : List (Except Error core.Event)) : List Version :=
  values.filterMap (fun v =>
    match v with
    | .ok e => some e.GlobalVersion
    | .error _ => none)

/-- The events an iterator yielded, as (aggregate type, aggregate id, version). -/
def streamPositions (values : List (Except Error core.Event)) :
    List (String × String × Version) :=
  values.filterMap (fun v =>
    match v with
    | .ok e => some (e.AggregateType, e.AggregateID, e.Version)
    | .error _ => none)

end bbolt

namespace Counter

/-- The stored event of `c-1` with a metadata payload that is an empty slice, not a nil
one: what a back-end hands out for a stored payload of length zero. -/
def emptyMetadata : core.Event := { storedEvent with Metadata := some [] }

/-- The stored event of `c-1` with a nil metadata payload. -/
def nilMetadata : core.Event := { storedEvent with Metadata := none }

end Counter

/-! ## Projections (`projections.go`) -/

namespace core

/-- Modelled from the spec: the type `core.Fetcher`, a `func() (core.Iterator, error)`,
is declared outside the sources. A fetcher is a closure that remembers its cursor: `φ`
is the state it closes over, a call returns the new state next to the result. -/
abbrev Fetcher (φ : Type) := φ → φ × Except Error Iterator

end core

/-- The type `callbackFunc`: a closure, `κ` being the state it closes over (the read
model it builds). -/
abbrev callbackFunc (κ π : Type) := κ → Event π → κ × Option Error

/-- The struct `Projection`; the trigger channel is the list of wake-ups `Run` is
given. -/
structure Projection (φ κ π : Type) where
  running : Bool
  fetchF : core.Fetcher φ
  callbackF : callbackFunc κ π
  Strict : Bool
  Name : String

/-- The struct `ProjectionResult`. `LastHandledEvent = none` is the zero value
`Event{}`, which no decoded event equals: the data of a decoded event is never nil. -/
structure ProjectionResult (π : Type) where
  Error : Option Error
  Name : String
  LastHandledEvent : Option (Event π)
deriving DecidableEq, Repr

/-- The call `GlobalVersion()` on a `LastHandledEvent`: 0 on the zero value. -/
def ProjectionResult.lastGlobalVersion {π : Type} (last : Option (Event π)) : Version :=
  match last with
  | none => 0
  | some event => event.GlobalVersion

/-- The function `NewProjection`. -/
def NewProjection {φ κ π : Type} (fetchF : core.Fetcher φ) (callbackF : callbackFunc κ π) :
    Projection φ κ π :=
  { running := false, fetchF := fetchF, callbackF := callbackF, Strict := true, Name := "" }

namespace Projection

variable {φ κ π : Type}

/-- What a projection acts on: the state its fetcher and its callback close over, and,
kept for the statements only, the calls of the callback so far with what each returned,
the number of calls of the fetcher, the number of times `ctx.Done()` was polled and the
number of synchronous triggers answered; `pending` tells whether the function `f` of
`Run` is the one a synchronous trigger sent. -/
structure State (φ κ π : Type) where
  fetch : φ
  callback : κ
  handled : List (Event π × Option Error)
  fetches : Nat
  polls : Nat
  answered : Nat
  pending : Bool

/-- The loop `for iterator.Next()` of `RunOnce`, over the results that `Value` of the
core iterator has left to give; `ran` and `lastHandledEvent` are the local variables. -/
def RunOnce.loop (reg : internal.register π) (enc : Encoder π) (p : Projection φ κ π) :
    List (Except Error core.Event) → State φ κ π → Bool → Option (Event π) →
    State φ κ π × Bool × ProjectionResult π
  | [], st, ran, lastHandledEvent =>
    (st, ran, { Error := none, Name := p.Name, LastHandledEvent := lastHandledEvent })
  | item :: rest, st, _, lastHandledEvent =>
    match Iterator.Value reg enc item with
    | .error err =>
      if Error.Is err Error.ErrEventNotRegistered then
        if p.Strict then
          (st, false,
            { Error := some err, Name := p.Name, LastHandledEvent := lastHandledEvent })
        else RunOnce.loop reg enc p rest st true lastHandledEvent
      else
        (st, false, { Error := some err, Name := p.Name, LastHandledEvent := lastHandledEvent })
    | .ok event =>
      match p.callbackF st.callback event with
      | (callback, some err) =>
        ({ st with callback := callback, handled := st.handled ++ [(event, some err)] }, false,
          { Error := some err, Name := p.Name, LastHandledEvent := lastHandledEvent })
      | (callback, none) =>
        RunOnce.loop reg enc p rest
          { st with callback := callback, handled := st.handled ++ [(event, none)] } true
          (some event)

/-- The method `RunOnce`. -/
def RunOnce (reg : internal.register π) (enc : Encoder π) (p : Projection φ κ π)
    (st : State φ κ π) : State φ κ π × Bool × ProjectionResult π :=
  match p.fetchF st.fetch with
  | (fetch, .error err) =>
    ({ st with fetch := fetch, fetches := st.fetches + 1 }, false,
      { Error := some err, Name := p.Name, LastHandledEvent := none })
  | (fetch, .ok coreIterator) =>
    RunOnce.loop reg enc p coreIterator { st with fetch := fetch, fetches := st.fetches + 1 }
      false none

/-- The default case of the `select` in `RunToEnd`: one `RunOnce` and what follows it.
The third component tells whether the loop goes on; the local `lastHandledEvent` is then
the `LastHandledEvent` of the result. -/
def RunToEnd.default (reg : internal.register π) (enc : Encoder π) (p : Projection φ κ π)
    (st : State φ κ π) (lastHandledEvent : Option (Event π)) :
    State φ κ π × ProjectionResult π × Bool :=
  match RunOnce reg enc p st with
  | (st, ran, result) =>
    let result :=
      if ProjectionResult.lastGlobalVersion result.LastHandledEvent = 0 then
        { result with LastHandledEvent := lastHandledEvent }
      else result
    if result.Error ≠ none then (st, result, false)
    else if !ran then (st, result, false)
    else (st, result, true)

/-- The result `RunToEnd` returns from the case `<-ctx.Done()`: the `result` it reads
there is the variable declared at the top of the function, which is never assigned, the
one of the default case being a new variable of the same name. -/
def RunToEnd.cancelled (ctx : Context) : ProjectionResult π :=
  { Error := some ctx.err, Name := "", LastHandledEvent := none }

/-- The method `RunToEnd`. The loop has no bound of its own; `fuel` bounds the number of
passes, and `none` means the bound was reached. -/
def RunToEnd (reg : internal.register π) (enc : Encoder π) (p : Projection φ κ π)
    (ctx : Context) : Nat → State φ κ π → Option (Event π) →
    Option (State φ κ π × ProjectionResult π)
  | 0, _, _ => none
  | fuel + 1, st, lastHandledEvent =>
    if ctx.done st.polls then
      some ({ st with polls := st.polls + 1 }, RunToEnd.cancelled ctx)
    else
      match RunToEnd.default reg enc p { st with polls := st.polls + 1 } lastHandledEvent with
      | (st, result, false) => some (st, result)
      | (st, result, true) => RunToEnd reg enc p ctx fuel st result.LastHandledEvent

end Projection

namespace Projection

variable {φ κ π : Type}

/-- The case of the `select` in `Run` that is taken when the select is reached: the
receive from `ctx.Done()`, the timer `time.After(pace)`, or a receive from the trigger
channel, of the function of `TriggerSync` (`sync = true`) or of the no-op function of
`TriggerAsync`. Which one it is depends on the clock and on the other goroutines. -/
inductive Wake where
  | done
  | pace
  | trigger (sync : Bool)
deriving DecidableEq, Repr

/-- The first two statements of the loop of `Run`: `RunToEnd`, then `triggerFunc()`,
which calls `f` and sets it back to the no-op function. The last component, kept for
the statements only, is the flag `running` of the projection on which `RunToEnd` was
called: what `p.running.Load()` gives to `TriggerSync`, to `TriggerAsync` and to another
`Run` while the pass goes on. -/
def Run.pass (reg : internal.register π) (enc : Encoder π) (p : Projection φ κ π)
    (ctx : Context) (fuel : Nat) (st : State φ κ π) :
    Option (State φ κ π × ProjectionResult π × Bool) :=
  match RunToEnd reg enc p ctx fuel st none with
  | none => none
  | some (st, result) =>
    some ({ st with answered := if st.pending then st.answered + 1 else st.answered,
                    pending := false }, result, p.running)

/-- The loop of `Run`. `waits` lists the cases taken by the successive selects; the loop
is still blocked in a select when the list is used up, and a `RunToEnd` may use up
`fuel`: both give `none`. `seen` collects the flags that the passes hand out. -/
def Run.loop (reg : internal.register π) (enc : Encoder π) (p : Projection φ κ π)
    (ctx : Context) (fuel : Nat) :
    List Wake → State φ κ π → List Bool → Option (State φ κ π × Error × List Bool)
  | [], st, seen =>
    match Run.pass reg enc p ctx fuel st with
    | none => none
    | some (st, result, flag) =>
      match result.Error with
      | some err => some (st, err, seen ++ [flag])
      | none => none
  | wake :: rest, st, seen =>
    match Run.pass reg enc p ctx fuel st with
    | none => none
    | some (st, result, flag) =>
      match result.Error with
      | some err => some (st, err, seen ++ [flag])
      | none =>
        match wake with
        | Wake.done => some (st, ctx.err, seen ++ [flag])
        | Wake.pace => Run.loop reg enc p ctx fuel rest st (seen ++ [flag])
        | Wake.trigger sync =>
          Run.loop reg enc p ctx fuel rest { st with pending := sync } (seen ++ [flag])

/-- The method `Run`: the projection after the call, the state after the call, the
error returned and, kept for the statements only, the value the flag `running` had
during each pass of the loop; `none` when the call has not returned. The flag is stored
as true before the loop, and the deferred function stores false on the way out. -/
def Run (reg : internal.register π) (enc : Encoder π) (p : Projection φ κ π)
    (ctx : Context) (fuel : Nat) (waits : List Wake) (st : State φ κ π) :
    Option (Projection φ κ π × State φ κ π × Error × List Bool) :=
  if p.running then some (p, st, Error.ErrProjectionAlreadyRunning, [])
  else
    let p := { p with running := true }
    match Run.loop reg enc p ctx fuel waits st [] with
    | none => none
    | some (st, err, seen) => some ({ p with running := false }, st, err, seen)

end Projection

namespace Projection

variable {φ κ π : Type}

/-- The calls of the callback that one `RunOnce` makes, in order, each with what the
callback returned: what the call adds to the record of the state. -/
def RunOnce.calls (reg : internal.register π) (enc : Encoder π) (p : Projection φ κ π)
    (st : State φ κ π) : List (Event π × Option Error) :=
  (RunOnce reg enc p st).1.handled.drop st.handled.length

/-- A state in which nothing has run yet, around the states of the two closures. -/
def State.init (fetch : φ) (callback : κ) : State φ κ π :=
  { fetch := fetch, callback := callback, handled := [], fetches := 0, polls := 0,
    answered := 0, pending := false }

/-- A fetcher over a fixed global stream that keeps the events it has not yielded yet:
each call yields them all, in stream order. -/
def streamFetcher : core.Fetcher (List core.Event) :=
  fun remaining => ([], .ok (remaining.map .ok))

end Projection

namespace Counter

/-- A callback that records the global version of each event it is given and never
fails. -/
def recorder : callbackFunc (List Version) Nat :=
  fun seen event => (seen ++ [event.GlobalVersion], none)

/-- A callback that records like `recorder` but refuses an event whose amount is 2. -/
def refusingTwo : callbackFunc (List Version) Nat :=
  fun seen event =>
    if event.Data.value = 2 then (seen, some (Error.errorf "amount 2 refused"))
    else (seen ++ [event.GlobalVersion], none)

/-- A stored event of `c-1` whose reason, `Removed`, is not registered. -/
def removedEvent (version globalVersion : Version) : core.Event :=
  { AggregateID := "c-1", Version := version, GlobalVersion := globalVersion,
    AggregateType := "Counter", Timestamp := 30, Reason := "Removed", Data := [1],
    Metadata := some [0] }

/-- A stored event of `c-1` of the registered reason `Added` whose data payload the
codec refuses. -/
def brokenEvent (version globalVersion : Version) : core.Event :=
  { AggregateID := "c-1", Version := version, GlobalVersion := globalVersion,
    AggregateType := "Counter", Timestamp := 30, Reason := "Added", Data := [],
    Metadata := some [0] }

/-- A stored event of `c-1` of the reason `Added`, with the given amount. -/
def addedEvent (version globalVersion : Version) (amount : Nat) : core.Event :=
  { AggregateID := "c-1", Version := version, GlobalVersion := globalVersion,
    AggregateType := "Counter", Timestamp := 30, Reason := "Added", Data := [amount],
    Metadata := some [0] }

/-- The decoded form of `addedEvent`. -/
def addedDecoded (version globalVersion : Version) (amount : Nat) : Event Nat :=
  { event := addedEvent version globalVersion amount,
    data := { typeName := "Added", value := amount }, metadata := none }

/-- A projection over a stream of `Counter` events: the fetcher is `streamFetcher`. -/
def projection (strict : Bool) (callbackF : callbackFunc (List Version) Nat) :
    Projection (List core.Event) (List Version) Nat :=
  { NewProjection Projection.streamFetcher callbackF with Strict := strict, Name := "totals" }

end Counter

namespace Counter

/-- A projection over a stream of `Counter` events whose running flag is set: a `Run`
of it is under way. -/
def started : Projection (List core.Event) (List Version) Nat :=
  { projection true recorder with running := true }

end Counter

/-! ## ProjectionsRace (`projections.go`) -/

namespace Race

variable {φ κ π : Type}

/-- Where the goroutine that `ProjectionsRace` starts for one projection stands: at the
`select` of `RunToEnd`; in the default case of that select, before its `RunOnce`; back
from `RunToEnd` with its result, before the rest of the goroutine's body; or through
(`wg.Done()` has run). -/
inductive Phase (π : Type) where
  | atSelect
  | inDefault
  | returned (result : ProjectionResult π)
  | done
deriving DecidableEq, Repr

/-- Whether the goroutine is through. -/
def Phase.isDone {π : Type} : Phase π → Bool
  | Phase.done => true
  | _ => false

/-- One goroutine: its projection, the state of that projection's closures, the local
`lastHandledEvent` of its `RunToEnd`, and where it stands. -/
structure Worker (φ κ π : Type) where
  p : Projection φ κ π
  st : Projection.State φ κ π
  lastHandledEvent : Option (Event π)
  phase : Phase π

/-- The variables the goroutines share: whether `cancel()` was called on `ctx`,
`causingErr` and `results`; and the goroutines. `returns` lists the indices of the
goroutines in the order in which their `RunToEnd` returned. -/
structure Shared (φ κ π : Type) where
  cancelled : Bool
  causingErr : Option Error
  results : List (ProjectionResult π)
  workers : List (Worker φ κ π)
  returns : List Nat

/-- The context `ctx` of `ProjectionsRace`, a `context.WithCancel` of the background
context: `Done()` is closed once `cancel()` was called, `Err()` is then
`context.Canceled`. -/
def ctx (cancelled : Bool) : Context :=
  { cancelledFrom := if cancelled then some 0 else none, err := Error.contextCanceled }

/-- The body of a goroutine after `RunToEnd` has returned `result`: on an error that is
not a cancellation, with `cancelOnError`, it cancels the context and assigns
`causingErr`; then it stores the result at its index. -/
def publish (cancelOnError : Bool) (index : Nat) (result : ProjectionResult π)
    (s : Shared φ κ π) : Shared φ κ π :=
  let s :=
    match result.Error with
    | some err =>
      if !Error.Is err Error.contextCanceled && cancelOnError then
        { s with cancelled := true, causingErr := some err }
      else s
    | none => s
  { s with results := s.results.set index result }

/-- The next step of the goroutine `index`, the others standing still: the poll of
`ctx.Done()` in `RunToEnd`, one pass of its default case, or the rest of the goroutine's
body once `RunToEnd` is back. A goroutine that is through takes no step. -/
def step (reg : internal.register π) (enc : Encoder π) (cancelOnError : Bool)
    (s : Shared φ κ π) (index : Nat) : Shared φ κ π :=
  match s.workers[index]? with
  | none => s
  | some w =>
    match w.phase with
    | Phase.atSelect =>
      if (ctx s.cancelled).done w.st.polls then
        { s with
          workers := s.workers.set index
            { w with st := { w.st with polls := w.st.polls + 1 },
                     phase := Phase.returned (Projection.RunToEnd.cancelled (ctx s.cancelled)) },
          returns := s.returns ++ [index] }
      else
        { s with
          workers := s.workers.set index
            { w with st := { w.st with polls := w.st.polls + 1 }, phase := Phase.inDefault } }
    | Phase.inDefault =>
      match Projection.RunToEnd.default reg enc w.p w.st w.lastHandledEvent with
      | (st, result, true) =>
        { s with
          workers := s.workers.set index
            { w with st := st, lastHandledEvent := result.LastHandledEvent,
                     phase := Phase.atSelect } }
      | (st, result, false) =>
        { s with
          workers := s.workers.set index { w with st := st, phase := Phase.returned result },
          returns := s.returns ++ [index] }
    | Phase.returned result =>
      let s := publish cancelOnError index result s
      { s with workers := s.workers.set index { w with phase := Phase.done } }
    | Phase.done => s

/-- The state in which `ProjectionsRace` has started its goroutines and none has taken
a step: `results` holds one zero value per projection. -/
def start (projections : List (Projection φ κ π × Projection.State φ κ π)) : Shared φ κ π :=
  { cancelled := false
    causingErr := none
    results := projections.map (fun _ => { Error := none, Name := "", LastHandledEvent := none })
    workers := projections.map
      (fun ps => { p := ps.1, st := ps.2, lastHandledEvent := none, phase := Phase.atSelect })
    returns := [] }

/-- The goroutines run as `schedule` has it: each entry lets the goroutine of that index
take its next step. -/
def run (reg : internal.register π) (enc : Encoder π) (cancelOnError : Bool)
    (projections : List (Projection φ κ π × Projection.State φ κ π)) (schedule : List Nat) :
    Shared φ κ π :=
  schedule.foldl (step reg enc cancelOnError) (start projections)

end Race

/-- The function `ProjectionsRace`, each projection given with the state of its
closures, under a schedule of the goroutines: `wg.Wait()` returns once every goroutine is
through, and the call returns `results` and `causingErr`; `none` when the schedule ends
before that. -/
def ProjectionsRace {φ κ π : Type} (reg : internal.register π) (enc : Encoder π)
    (cancelOnError : Bool) (projections : List (Projection φ κ π × Projection.State φ κ π))
    (schedule : List Nat) : Option (List (ProjectionResult π) × Option Error) :=
  let s := Race.run reg enc cancelOnError projections schedule
  if s.workers.all (fun w => w.phase.isDone) then
    some (s.results, s.causingErr)
  else none

namespace Counter

/-- A callback that records like `recorder` but refuses an event of the given amount,
with the given message. -/
def refusing (amount : Nat) (message : String) : callbackFunc (List Version) Nat :=
  fun seen event =>
    if event.Data.value = amount then (seen, some (Error.errorf message))
    else (seen ++ [event.GlobalVersion], none)

/-- Two projections for a race, each over a stream of its own that holds one event: the
first refuses the amount 2 of its event, the second the amount 3 of its event. -/
def racers : List (Projection (List core.Event) (List Version) Nat
    × Projection.State (List core.Event) (List Version) Nat) :=
  [({ projection true (refusing 2 "first refuses") with Name := "first" },
      Projection.State.init [addedEvent 1 1 2] []),
   ({ projection true (refusing 3 "second refuses") with Name := "second" },
      Projection.State.init [addedEvent 1 1 3] [])]

end Counter

/-! ## The Kurrent event store (`eventstore/kurrent`) -/

namespace strings

/-- The pieces of a text around each occurrence of the separator character. -/
def Split.chars (sep : Char) : List Char → List (List Char)
  | [] => [[]]
  | c :: rest =>
    if c = sep then [] :: Split.chars sep rest
    else
      match Split.chars sep rest with
      | [] => [[c]]
      | first :: more => (c :: first) :: more

/-- Go `strings.Split(s, sep)` for a separator of one character: the substrings of `s`
between the occurrences of `sep`, one more than there are occurrences. -/
def Split (s : String) (sep : Char) : List String :=
  (Split.chars sep s.data).map String.mk

end strings

namespace kurrent

/-- The constant `streamSeparator`, a string of the one character `-`. -/
def streamSeparator : Char := '-'

/-- The function `stream`. -/
def stream (aggregateType aggregateID : String) : String :=
  aggregateType ++ streamSeparator.toString ++ aggregateID

/-- The fields of a `kurrentdb.RecordedEvent`, the event a read of a stream delivers,
that the iterator reads. `EventNumber` is the position in the stream, from 0. -/
structure RecordedEvent where
  StreamID : String
  EventNumber : Nat
  CreatedDate : Nat
  EventType : String
  Data : Bytes
  UserMetadata : Option Bytes
deriving DecidableEq, Repr

/-- The method `Iterator.Value`, applied to the event the last `Next` received. The
index expressions `stream[0]` and `stream[1]` panic when the slice is too short: that is
`none`. The global version is not set. -/
def Iterator.Value (event : RecordedEvent) : Option core.Event :=
  let stream := strings.Split event.StreamID streamSeparator
  match stream[0]?, stream[1]? with
  | some aggregateType, some aggregateID =>
    some
      { AggregateID := aggregateID
        Version := event.EventNumber + 1
        AggregateType := aggregateType
        Timestamp := event.CreatedDate
        Data := event.Data
        Metadata := event.UserMetadata
        Reason := event.EventType
        GlobalVersion := 0 }
  | _, _ => none

/-- The event at position `number` of the stream of the aggregate (type, id), as a read
of that stream delivers it. -/
def recorded (aggregateType aggregateID : String) (number : Nat) : RecordedEvent :=
  { StreamID := stream aggregateType aggregateID, EventNumber := number, CreatedDate := 10,
    EventType := "Created", Data := [1], UserMetadata := some [0] }

end kurrent

/-! ## The SQL event stores (`eventstore/sql`) -/

namespace time

/-- A Go `time.Time` in UTC, not before 1970: the number of nanoseconds since
1970-01-01T00:00:00Z. The field `Timestamp` of a raw event holds such a value. -/
abbrev Time := Nat

/-- The nanoseconds of a second. -/
def second : Nat := 1000000000

/-- The calendar date (year, month, day) of the day `days` days after 1970-01-01, in the
proleptic Gregorian calendar. -/
def civil (days : Nat) : Nat × Nat × Nat :=
  let z := days + 719468
  let era := z / 146097
  let doe := z % 146097
  let yoe := (doe - doe / 1460 + doe / 36524 - doe / 146096) / 365
  let doy := doe - (365 * yoe + yoe / 4 - yoe / 100)
  let mp := (5 * doy + 2) / 153
  let d := doy - (153 * mp + 2) / 5 + 1
  let m := if mp < 10 then mp + 3 else mp - 9
  let y := yoe + era * 400
  (if m ≤ 2 then y + 1 else y, m, d)

/-- The number of days from 1970-01-01 to the given date; `none` before 1970. -/
def days (year month day : Nat) : Option Nat :=
  let y := if month ≤ 2 then year - 1 else year
  let era := y / 400
  let yoe := y % 400
  let doy := (153 * (if month > 2 then month - 3 else month + 9) + 2) / 5 + day - 1
  let doe := yoe * 365 + yoe / 4 - yoe / 100 + doy
  if 719468 ≤ era * 146097 + doe then some (era * 146097 + doe - 719468) else none

/-- The number of days of a month. -/
def daysIn (year month : Nat) : Nat :=
  if month = 2 then
    if year % 4 = 0 ∧ (year % 100 ≠ 0 ∨ year % 400 = 0) then 29 else 28
  else if month = 4 ∨ month = 6 ∨ month = 9 ∨ month = 11 then 30
  else 31

/-- Two decimal digits. -/
def twoDigits (n : Nat) : List Char := [Nat.digitChar (n / 10 % 10), Nat.digitChar (n % 10)]

/-- The year as the layout element `2006` prints it: four digits, more when the year
needs them. -/
def yearDigits (n : Nat) : List Char :=
  if n < 10000 then twoDigits (n / 100) ++ twoDigits (n % 100) else (Nat.repr n).data

/-- The method `Time.Format` with the layout `time.RFC3339`, `2006-01-02T15:04:05Z07:00`,
on a time in UTC: date and time of day down to the second, then `Z`. The layout has no
element for the fraction of the second. -/
def FormatRFC3339 (t : Time) : String :=
  let seconds := t / second
  let date := civil (seconds / 86400)
  let clock := seconds % 86400
  String.mk (yearDigits date.1 ++ '-' :: twoDigits date.2.1 ++ '-' :: twoDigits date.2.2
    ++ 'T' :: twoDigits (clock / 3600) ++ ':' :: twoDigits (clock / 60 % 60)
    ++ ':' :: twoDigits (clock % 60) ++ ['Z'])

/-- The number a run of decimal digits denotes; `none` when a character is no digit. -/
def number : List Char → Option Nat
  | [] => some 0
  | cs =>
    cs.foldl (fun acc c =>
      match acc with
      | some n => if c.isDigit then some (n * 10 + (c.toNat - '0'.toNat)) else none
      | none => none) (some 0)

/-- The fraction of a second in front of the zone, in nanoseconds, and the rest of the
text: `Parse` accepts a fraction after the seconds although the layout has none. Digits
beyond the ninth are dropped. -/
def fraction (rest : List Char) : Option (Nat × List Char) :=
  match rest with
  | '.' :: more =>
    let digits := more.takeWhile Char.isDigit
    if digits = [] then none
    else
      match number ((digits ++ List.replicate 9 '0').take 9) with
      | some nanos => some (nanos, more.dropWhile Char.isDigit)
      | none => none
  | _ => some (0, rest)

/-- The zone at the end of the text: `Z`, or a sign and `hh:mm`. The result is the
offset from UTC in seconds and whether the zone is east of Greenwich (sign `+`), where
the clock is ahead of UTC; `Z` counts as east with the offset 0. -/
def zone (rest : List Char) : Option (Bool × Nat) :=
  match rest with
  | ['Z'] => some (true, 0)
  | [sign, h₁, h₂, ':', m₁, m₂] =>
    match number [h₁, h₂], number [m₁, m₂] with
    | some h, some m =>
      if h < 24 ∧ m < 60 then
        if sign = '+' then some (true, h * 3600 + m * 60)
        else if sign = '-' then some (false, h * 3600 + m * 60)
        else none
      else none
    | _, _ => none
  | _ => none

/-- The function `time.Parse` with the layout `time.RFC3339`. A text that does not have
the shape of the layout, or names a date that does not exist or an instant before 1970,
is an error. -/
def ParseRFC3339 (text : String) : Except Error Time :=
  match text.data with
  | y₁ :: y₂ :: y₃ :: y₄ :: '-' :: m₁ :: m₂ :: '-' :: d₁ :: d₂ :: 'T' :: h₁ :: h₂ :: ':'
      :: n₁ :: n₂ :: ':' :: s₁ :: s₂ :: rest =>
    match number [y₁, y₂, y₃, y₄], number [m₁, m₂], number [d₁, d₂], number [h₁, h₂],
        number [n₁, n₂], number [s₁, s₂], fraction rest with
    | some year, some month, some day, some hour, some minute, some sec, some (nanos, rest) =>
      if 1 ≤ month ∧ month ≤ 12 ∧ 1 ≤ day ∧ day ≤ daysIn year month ∧ hour < 24 ∧ minute < 60
          ∧ sec < 60 then
        match days year month day, zone rest with
        | some d, some (east, offset) =>
          let wall := d * 86400 + hour * 3600 + minute * 60 + sec
          if east then
            if offset ≤ wall then .ok ((wall - offset) * second + nanos)
            else .error (Error.errorf "parsing time: before 1970")
          else .ok ((wall + offset) * second + nanos)
        | _, _ => .error (Error.errorf "parsing time")
      else .error (Error.errorf "parsing time: out of range")
    | _, _, _, _, _, _, _ => .error (Error.errorf "parsing time")
  | _ => .error (Error.errorf "parsing time")

end time

namespace sql

/-- A row of the table `events`: the columns the insert statement of `Save` writes and
the select statements of `Get` and `All` read; `seq` is assigned by the database. The
column `timestamp` holds text. -/
structure Row where
  seq : Version
  id : String
  version : Version
  reason : String
  typ : String
  timestamp : String
  data : Bytes
  metadata : Option Bytes
deriving DecidableEq, Repr

/-- The row that the insert statement of `Save` writes for one event of the slice, in
`Postgres.Save` and `SQLServer.Save` alike: the timestamp is bound as
`event.Timestamp.Format(time.RFC3339)`. -/
def Save.row (seq : Version) (event : core.Event) : Row :=
  { seq := seq
    id := event.AggregateID
    version := event.Version
    reason := event.Reason
    typ := event.AggregateType
    timestamp := time.FormatRFC3339 event.Timestamp
    data := event.Data
    metadata := event.Metadata }

/-- The method `Iterator.Value`, applied to the row that `Rows.Scan` reads. -/
def Iterator.Value (row : Row) : Except Error core.Event :=
  match time.ParseRFC3339 row.timestamp with
  | .error err => .error err
  | .ok t =>
    .ok
      { AggregateID := row.id
        Version := row.version
        GlobalVersion := row.seq
        AggregateType := row.typ
        Timestamp := t
        Data := row.data
        Metadata := row.metadata
        Reason := row.reason }

/-- An event as `TrackChange` stamps it: the clock read 2023-11-14T22:13:20.25Z, a
quarter of a second past the full second. -/
def stamped : core.Event :=
  { AggregateID := "c-1", Version := 1, GlobalVersion := 0, AggregateType := "Counter",
    Timestamp := 1700000000250000000, Reason := "Added", Data := [1], Metadata := some [0] }

end sql

/-! ## The order example (`example/order`) -/

namespace order

open aggregate

/-- The width of the Go types `uint` and `int` on a 64-bit platform. -/
def bits : Nat := 64

/-- A value of type `uint` after an arithmetic operation: the result modulo `2^64`. -/
def uint (x : Int) : Nat := (x % (2 ^ bits : Int)).toNat

/-- The conversion `int(x)` of a `uint`: the same 64 bits read as a signed number. -/
def int (x : Nat) : Int :=
  if x % 2 ^ bits < 2 ^ (bits - 1) then ((x % 2 ^ bits : Nat) : Int)
  else ((x % 2 ^ bits : Nat) : Int) - (2 ^ bits : Int)

/-- A value of type `int` after an arithmetic operation: overflow wraps around. -/
def wrap (x : Int) : Int := (x + (2 ^ (bits - 1) : Int)) % (2 ^ bits : Int) - (2 ^ (bits - 1) : Int)

/-- The constant `Pending`. -/
def Pending : String := "pending"

/-- The constant `Complete`. -/
def Complete : String := "complete"

/-- The fields of the struct `Order` next to the embedded `Root`; the numbers are of
type `uint`. -/
structure Order where
  Status : String
  Total : Nat
  Discount : Nat
  Outstanding : Nat
  Paid : Nat
deriving DecidableEq, Repr

/-- The event types of the package: `Created`, `DiscountApplied`, `DiscountRemoved`,
`Paid` and `Completed`, each with its fields. -/
inductive Data where
  | Created (Total : Nat)
  | DiscountApplied (Percentage Total : Nat)
  | DiscountRemoved
  | Paid (Amount : Nat)
  | Completed
deriving DecidableEq, Repr

/-- A pointer to an event struct behind `interface{}`. -/
def Data.dyn (data : Data) : Dyn Data :=
  { typeName :=
      match data with
      | Data.Created _ => "Created"
      | Data.DiscountApplied _ _ => "DiscountApplied"
      | Data.DiscountRemoved => "DiscountRemoved"
      | Data.Paid _ => "Paid"
      | Data.Completed => "Completed"
    pkgPath := "github.com/r23vme/eventsourcing/example/order"
    value := data }

/-- The method `Transition`: the type switch on the event's data. -/
def Transition (o : Order) (event : Event Data) : Order :=
  match event.Data.value with
  | Data.Created total => { o with Status := Pending, Total := total, Outstanding := total }
  | Data.DiscountApplied percentage total =>
    { o with Discount := percentage, Outstanding := total }
  | Data.DiscountRemoved => { o with Discount := 0, Outstanding := o.Total }
  | Data.Paid amount =>
    { o with
      Outstanding := uint ((o.Outstanding : Int) - (amount : Int))
      Paid := uint ((o.Paid : Int) + (amount : Int)) }
  | Data.Completed => { o with Status := Complete }

/-- The methods of `*Order` behind the interface `aggregate`. `Order` has no snapshot
methods; the two fields stand for their absence and are not used. -/
def aggregateClass : Class Order Data :=
  { typeName := "Order"
    Transition := fun _ => Transition
    Register :=
      [(Data.Created 0).dyn, (Data.DiscountApplied 0 0).dyn, Data.DiscountRemoved.dyn,
       (Data.Paid 0).dyn, Data.Completed.dyn]
    SerializeSnapshot := fun _ => .error (Error.errorf "Order is no snapshot aggregate")
    DeserializeSnapshot := fun o _ => (o, some (Error.errorf "Order is no snapshot aggregate")) }

/-- The value `Order{}`. -/
def zero : Aggregate Order Data :=
  { root := { id := "", version := 0, globalVersion := 0, events := [] }
    state := { Status := "", Total := 0, Discount := 0, Outstanding := 0, Paid := 0 } }

/-- The function `Create`. `newID` is what the id generator hands out, `now` the reading
of the clock. -/
def Create (newID : String) (now : Nat) (amount : Nat) :
    Except Error (Aggregate Order Data) :=
  if amount > 500 then .error (Error.errorf "amount can't be higher than 500")
  else .ok (TrackChange aggregateClass newID now zero (Data.Created amount).dyn)

/-- The method `Pay`. `now` and `later` are the readings of the clock in the two calls
of `TrackChange`. -/
def Pay (newID : String) (now later : Nat) (o : Aggregate Order Data) (amount : Nat) :
    Aggregate Order Data × Option Error :=
  if o.state.Status = Complete then (o, some (Error.errorf "can't pay on completed order"))
  else if wrap (int o.state.Outstanding - int amount) < 0 then
    (o, some (Error.errorf "payment is higher than order total amount"))
  else
    let o := TrackChange aggregateClass newID now o (Data.Paid amount).dyn
    let o :=
      if o.state.Outstanding = 0 then TrackChange aggregateClass newID later o Data.Completed.dyn
      else o
    (o, none)

/-- The order that `Create(100)` returns, with the id `o-1`, at time 10. -/
def hundred : Aggregate Order Data :=
  TrackChange aggregateClass "o-1" 10 zero (Data.Created 100).dyn

/-- The largest value of type `uint`. -/
def maxUint : Nat := 2 ^ bits - 1

end order

namespace Counter

/-- A context that is cancelled while the first pass of a `RunToEnd` is under way: the
first poll of `ctx.Done()` finds it open, every later one closed. -/
def cancelledAfterFirstPass : Context :=
  { cancelledFrom := some 1, err := Error.contextCanceled }

end Counter

namespace bbolt

/-- The bucket `name` of the transaction holds `value` under `key`, and the key is not
above the counter of the bucket. -/
def DB.Holds (tx : DB) (name : String) (key : Nat) (value : boltEvent) : Prop :=
  ∃ b, tx.Bucket name = some b ∧ (key, value) ∈ b.pairs ∧ key ≤ b.sequence

/-- The bucket `name` of the transaction exists, and its counter is at least `n`. -/
def DB.Reaches (tx : DB) (name : String) (n : Nat) : Prop :=
  ∃ b, tx.Bucket name = some b ∧ n ≤ b.sequence

/-- A new database after the first two events of the aggregate `Order`/`1` were saved in
one call. -/
def afterTwo : DB :=
  (Save New [rawEvent "Order" "1" 1 "Created", rawEvent "Order" "1" 2 "Paid"]).1

end bbolt

namespace order

open aggregate

/-- The method `AddDiscount`. The amount taken off,
`uint(float64(o.Total)*discountFloat)` with `discountFloat := float64(percentage) / 100.0`,
is computed in floating point; `share` stands for that computation, applied to the total
and the percentage. -/
def AddDiscount (share : Nat → Nat → Nat) (newID : String) (now : Nat)
    (o : Aggregate Order Data) (percentage : Nat) : Aggregate Order Data × Option Error :=
  if o.state.Status = Complete then
    (o, some (Error.errorf "can't add discount on completed order"))
  else if o.state.Discount > 0 then
    (o, some (Error.errorf "there is already an active discount"))
  else if o.state.Paid > 0 then
    (o, some (Error.errorf "can't add discount on order with payments"))
  else if percentage > 25 then
    (o, some (Error.errorf ("discount can't be over 25 was " ++ toString percentage)))
  else if percentage = 0 then (o, none)
  else
    let newTotal := uint ((o.state.Total : Int) - (share o.state.Total percentage : Int))
    (TrackChange aggregateClass newID now o (Data.DiscountApplied percentage newTotal).dyn, none)

/-- The method `RemoveDiscount`. -/
def RemoveDiscount (newID : String) (now : Nat) (o : Aggregate Order Data) :
    Aggregate Order Data :=
  if o.state.Discount = 0 then o
  else TrackChange aggregateClass newID now o Data.DiscountRemoved.dyn

/-- The value of the floating-point computation in `AddDiscount` where the quotient and
the product are exact, as for 25 percent of 100: `25 / 100.0` is 0.25 and `100 * 0.25`
is 25. -/
def exactShare (total percentage : Nat) : Nat := total * percentage / 100

/-- The order after `Create(100)` and `AddDiscount(25)`: 75 are outstanding. -/
def discounted : Aggregate Order Data := (AddDiscount exactShare "o-1" 20 hundred 25).1

/-- The order after `Create(100)`, `AddDiscount(25)` and `Pay(75)`: it is complete. -/
def paidUp : Aggregate Order Data := (Pay "o-1" 30 40 discounted 75).1

/-- The order after `Create(100)`, `AddDiscount(25)` and `Pay(10)`: a payment has been
made, 65 are outstanding. -/
def partlyPaid : Aggregate Order Data := (Pay "o-1" 30 40 discounted 10).1

end order

/-! ## The tic-tac-toe example (`example/tictactoe`) -/

namespace tictactoe

open aggregate

/-- The type `[3][3]string` of the board: the cell at row `x`, column `y`. -/
abbrev Board := Fin 3 → Fin 3 → String

/-- The assignment `board[x][y] = mark`. -/
def Board.set (board : Board) (x y : Fin 3) (mark : String) : Board :=
  fun i j => if i = x ∧ j = y then mark else board i j

/-- The fields of the struct `Game` next to the embedded `Root`. -/
structure Game where
  board : Board
  turn : String
  gameOver : Bool
  winner : String

/-- The event types of the package. The coordinates of a move are of type `int`; an
index outside 0..2 makes the indexing of the board panic, and the coordinates are taken
in that range. -/
inductive Data where
  | Started
  | XMoved (X Y : Fin 3)
  | OMoved (X Y : Fin 3)
  | Draw
  | XWon
  | OWon
deriving DecidableEq, Repr

/-- A pointer to an event struct behind `interface{}`. -/
def Data.dyn (data : Data) : Dyn Data :=
  { typeName :=
      match data with
      | Data.Started => "Started"
      | Data.XMoved _ _ => "XMoved"
      | Data.OMoved _ _ => "OMoved"
      | Data.Draw => "Draw"
      | Data.XWon => "XWon"
      | Data.OWon => "OWon"
    pkgPath := "github.com/r23vme/eventsourcing/example/tictactoe"
    value := data }

/-- The body of the type switch of `Transition`, on the data of the event. -/
def Game.apply (g : Game) (data : Data) : Game :=
  match data with
  | Data.Started => { g with turn := "X" }
  | Data.XMoved x y => { g with board := g.board.set x y "X", turn := "O" }
  | Data.OMoved x y => { g with board := g.board.set x y "O", turn := "X" }
  | Data.Draw => { g with gameOver := true, winner := "" }
  | Data.XWon => { g with gameOver := true, winner := "X" }
  | Data.OWon => { g with gameOver := true, winner := "O" }

/-- The method `Transition`. -/
def Transition (g : Game) (event : Event Data) : Game := g.apply event.Data.value

/-- The loop `for i := 0; i < 3; i++` of `checkWinner`, over the values of `i` that are
left: the mark it returns, `none` when it runs to its end. -/
def checkWinner.rowsAndColumns (board : Board) : List (Fin 3) → Option String
  | [] => none
  | i :: rest =>
    if board i 0 ≠ "" ∧ board i 0 = board i 1 ∧ board i 1 = board i 2 then some (board i 0)
    else if board 0 i ≠ "" ∧ board 0 i = board 1 i ∧ board 1 i = board 2 i then some (board 0 i)
    else checkWinner.rowsAndColumns board rest

/-- The function `checkWinner`. -/
def checkWinner (board : Board) : String :=
  match checkWinner.rowsAndColumns board [0, 1, 2] with
  | some mark => mark
  | none =>
    if board 0 0 ≠ "" ∧ board 0 0 = board 1 1 ∧ board 1 1 = board 2 2 then board 0 0
    else if board 0 2 ≠ "" ∧ board 0 2 = board 1 1 ∧ board 1 1 = board 2 0 then board 0 2
    else ""

/-- The function `isDraw`. -/
def isDraw (board : Board) : Bool :=
  if checkWinner board ≠ "" then false
  else [0, 1, 2].all (fun i => [0, 1, 2].all (fun j => decide (board i j ≠ "")))

/-- The methods of `*Game` behind the interface `aggregate`. `Game` has no snapshot
methods; the two fields stand for their absence and are not used. -/
def aggregateClass : Class Game Data :=
  { typeName := "Game"
    Transition := fun _ => Transition
    Register :=
      [Data.Started.dyn, (Data.XMoved 0 0).dyn, (Data.OMoved 0 0).dyn, Data.Draw.dyn,
       Data.XWon.dyn, Data.OWon.dyn]
    SerializeSnapshot := fun _ => .error (Error.errorf "Game is no snapshot aggregate")
    DeserializeSnapshot := fun g _ => (g, some (Error.errorf "Game is no snapshot aggregate")) }

/-- The value `Game{}`. -/
def zero : Aggregate Game Data :=
  { root := { id := "", version := 0, globalVersion := 0, events := [] }
    state := { board := fun _ _ => "", turn := "", gameOver := false, winner := "" } }

/-- The function `NewGame`. `newID` is what the id generator hands out, `now` the reading
of the clock. -/
def NewGame (newID : String) (now : Nat) : Aggregate Game Data :=
  TrackChange aggregateClass newID now zero Data.Started.dyn

/-- The method `Turn`. -/
def Turn (g : Aggregate Game Data) : String := g.state.turn

/-- The method `Done`. -/
def Done (g : Aggregate Game Data) : Bool := g.state.gameOver

/-- The method `Winner`. -/
def Winner (g : Aggregate Game Data) : String := g.state.winner

/-- The method `PlayMove`. `now` and `later` are the readings of the clock in the two
calls of `TrackChange`. -/
def PlayMove (newID : String) (now later : Nat) (g : Aggregate Game Data) (x y : Fin 3) :
    Aggregate Game Data × Option Error :=
  if g.state.gameOver then (g, some (Error.errorf "game over"))
  else if g.state.board x y ≠ "" then (g, some (Error.errorf "position already taken"))
  else
    let g :=
      if g.state.turn = "X" then TrackChange aggregateClass newID now g (Data.XMoved x y).dyn
      else TrackChange aggregateClass newID now g (Data.OMoved x y).dyn
    let winner := checkWinner g.state.board
    if winner = "X" then (TrackChange aggregateClass newID later g Data.XWon.dyn, none)
    else if winner = "O" then (TrackChange aggregateClass newID later g Data.OWon.dyn, none)
    else if isDraw g.state.board then
      (TrackChange aggregateClass newID later g Data.Draw.dyn, none)
    else (g, none)

/-- A call of `PlayMove`: the coordinates, and the readings of the clock during it. -/
structure Move where
  x : Fin 3
  y : Fin 3
  now : Nat
  later : Nat
deriving DecidableEq, Repr

/-- The game reached from `NewGame` by a sequence of calls of `PlayMove`, whatever each
returned. -/
def play (newID : String) (now : Nat) (moves : List Move) : Aggregate Game Data :=
  moves.foldl (fun g m => (PlayMove newID m.now m.later g m.x m.y).1) (NewGame newID now)

/-- The data of the events in the buffer of a game, in order. -/
def tracked (g : Aggregate Game Data) : List Data := g.root.events.map (fun e => e.Data.value)

/-- Some row, column or diagonal of the board holds the mark `m` in its three cells. -/
def holdsLine (board : Board) (m : String) : Prop :=
  (∃ i, board i 0 = m ∧ board i 1 = m ∧ board i 2 = m)
  ∨ (∃ i, board 0 i = m ∧ board 1 i = m ∧ board 2 i = m)
  ∨ (board 0 0 = m ∧ board 1 1 = m ∧ board 2 2 = m)
  ∨ (board 0 2 = m ∧ board 1 1 = m ∧ board 2 0 = m)

/-- Some row, column or diagonal holds three equal non-empty cells. -/
def hasLine (board : Board) : Prop := ∃ m, m ≠ "" ∧ holdsLine board m

/-- No cell of the board is empty. -/
def full (board : Board) : Prop := ∀ i j, board i j ≠ ""

/-- A move with the clock readings left at 0. -/
def Move.at (x y : Fin 3) : Move := { x := x, y := y, now := 0, later := 0 }

end tictactoe

namespace tictactoe

/-- The event is one of those that close a game: `XWon`, `OWon` or `Draw`. -/
def Data.isEnd : Data → Bool
  | Data.XWon => true
  | Data.OWon => true
  | Data.Draw => true
  | _ => false

/-- The event `PlayMove` tracks for the player whose turn it is. -/
def moveOf (turn : String) (x y : Fin 3) : Data :=
  if turn = "X" then Data.XMoved x y else Data.OMoved x y

/-- The event with which `PlayMove` closes the game after a move has led to `board`,
`none` when the game goes on. -/
def ending (board : Board) : Option Data :=
  if checkWinner board = "X" then some Data.XWon
  else if checkWinner board = "O" then some Data.OWon
  else if isDraw board then some Data.Draw
  else none

end tictactoe

namespace tictactoe

/-- What holds of a game reached from `NewGame`, of its state `s` and the data `l` of
its tracked events: it is the turn of `X` or of `O`; while the game is not over, the
board has no line and a free cell, and no closing event was tracked; once it is over,
the tracked events end in the last move and the closing event that goes with the board,
no closing event comes before, and the board without the mark of the last move has no
line. -/
def Sound (s : Game) (l : List Data) : Prop :=
  (s.turn = "X" ∨ s.turn = "O")
  ∧ (s.gameOver = false →
      checkWinner s.board = "" ∧ ¬ full s.board ∧ ∀ d ∈ l, d.isEnd = false)
  ∧ (s.gameOver = true → ∃ pre x y,
      (∀ d ∈ pre, d.isEnd = false)
      ∧ checkWinner (s.board.set x y "") = ""
      ∧ ((l = pre ++ [Data.XMoved x y, Data.XWon] ∧ s.winner = "X"
            ∧ checkWinner s.board = "X")
        ∨ (l = pre ++ [Data.OMoved x y, Data.OWon] ∧ s.winner = "O"
            ∧ checkWinner s.board = "O")
        ∨ (l = pre ++ [moveOf (if s.turn = "X" then "O" else "X") x y, Data.Draw]
            ∧ s.winner = "" ∧ checkWinner s.board = "" ∧ full s.board)))

end tictactoe

namespace tictactoe

/-- The moves of the test `TestWinDetection`: X takes the top row. -/
def TestWinDetection.moves : List Move :=
  [Move.at 0 0, Move.at 1 0, Move.at 0 1, Move.at 1 1, Move.at 0 2]

/-- The moves of the test `TestDrawDetection`: nine moves that fill the board without
a line. -/
def TestDrawDetection.moves : List Move :=
  [Move.at 0 0, Move.at 0 1, Move.at 0 2, Move.at 1 1, Move.at 1 0, Move.at 1 2, Move.at 2 1,
   Move.at 2 0, Move.at 2 2]

end tictactoe

namespace aggregate

variable {σ π : Type}

/-- The error with which the encoder refuses a buffered event: the one `Serialize`
returns for the data, or else the one it returns for the metadata; `none` when it
accepts both. -/
def refusal (enc : Encoder π) (event : Event π) : Option Error :=
  match enc.SerializeData event.Data with
  | .error err => some err
  | .ok _ =>
    match enc.SerializeMetadata event.Metadata with
    | .error err => some err
    | .ok _ => none

end aggregate

/-! # Properties -/

namespace aggregate

variable {σ π S T : Type}

/-! ## Tracking changes -/

theorem Root.Version_append (ar : Root π) (e : Event π) :
    Root.Version { ar with events := ar.events ++ [e] } = e.Version := by
  simp [Root.Version]

theorem Root.Version_nil (ar : Root π) (h : ar.events = []) : ar.Version = ar.version := by
  simp [Root.Version, h]

theorem TrackChangeWithMetadata_events (c : Class σ π) (newID : String) (now : Nat)
    (a : Aggregate σ π) (data : Dyn π) (metadata : Metadata) :
    ∃ e : Event π,
      (TrackChangeWithMetadata c newID now a data metadata).root.events = a.root.events ++ [e]
      ∧ e.Version = a.root.Version + 1
      ∧ e.data = data ∧ e.metadata = metadata
      ∧ (TrackChangeWithMetadata c newID now a data metadata).root.version = a.root.version
      ∧ (TrackChangeWithMetadata c newID now a data metadata).root.globalVersion
          = a.root.globalVersion := by
  unfold TrackChangeWithMetadata
  dsimp only
  split
  · exact ⟨_, rfl, by simp [Event.Version, Event.NewEvent, Root.nextVersion, Root.Version],
      rfl, rfl, rfl, rfl⟩
  · exact ⟨_, rfl, by simp [Event.Version, Event.NewEvent, Root.nextVersion, Root.Version],
      rfl, rfl, rfl, rfl⟩

theorem Consecutive.rootVersion {v : Version} {ar : Root π} (h : Consecutive v ar) :
    ar.Version = v + ar.events.length := by
  obtain ⟨hv, hl⟩ := h
  rcases List.eq_nil_or_concat ar.events with hnil | ⟨init, last, hcons⟩
  · simp [Root.Version, hnil, hv]
  · rw [hcons] at hl
    simp only [List.concat_eq_append, List.map_append, List.map_cons, List.map_nil,
      List.length_append, List.length_singleton, List.range'_concat] at hl
    have := List.append_inj_right' hl (by simp)
    simp only [List.cons.injEq, and_true] at this
    simp [Root.Version, hcons] at this ⊢
    rw [this, Nat.add_assoc, Nat.add_comm 1]

theorem Consecutive.track {v : Version} (c : Class σ π) (newID : String) (now : Nat)
    (a : Aggregate σ π) (data : Dyn π) (metadata : Metadata) (h : Consecutive v a.root) :
    Consecutive v (TrackChangeWithMetadata c newID now a data metadata).root := by
  obtain ⟨e, he, hver, -, -, hv, -⟩ := TrackChangeWithMetadata_events c newID now a data metadata
  refine ⟨by rw [hv]; exact h.1, ?_⟩
  rw [he, List.map_append, h.2, List.length_append, List.length_singleton,
    List.range'_concat, List.map_cons, List.map_nil, hver, h.rootVersion]
  congr 2
  show @Eq Nat _ _
  omega

theorem trackAll_append (c : Class σ π) (a : Aggregate σ π) (changes : List (Change π))
    (x : Change π) :
    trackAll c a (changes ++ [x])
      = TrackChangeWithMetadata c x.newID x.now (trackAll c a changes) x.data x.metadata := by
  simp [trackAll, List.foldl_append]

theorem trackAll_consecutive (c : Class σ π) (a : Aggregate σ π) (changes : List (Change π))
    (h : a.root.events = []) :
    Consecutive a.root.version (trackAll c a changes).root
      ∧ (trackAll c a changes).root.events.length = changes.length := by
  induction changes using List.reverseRecOn with
  | nil => simp [trackAll, Consecutive, h]
  | append_singleton init x ih =>
    rw [trackAll_append]
    refine ⟨ih.1.track c _ _ _ _ _, ?_⟩
    obtain ⟨e, he, -⟩ :=
      TrackChangeWithMetadata_events c x.newID x.now (trackAll c a init) x.data x.metadata
    rw [he, List.length_append, ih.2]
    simp

/-- C3: starting from a root with committed version `v` and an empty buffer, after
`k` calls of TrackChange the next call appends exactly one event at the end of the
buffer; its version is `v + k + 1`, which is committed version + uncommitted count + 1;
the buffer then carries exactly `v+1, ..., v+k+1`, without gap or duplicate. -/
theorem C3_track_change_versions (c : Class σ π) (a₀ : Aggregate σ π)
    (changes : List (Change π)) (x : Change π) (h : a₀.root.events = []) :
    ∃ e : Event π,
      (TrackChangeWithMetadata c x.newID x.now (trackAll c a₀ changes) x.data
          x.metadata).root.events = (trackAll c a₀ changes).root.events ++ [e]
      ∧ e.Version = a₀.root.version + changes.length + 1
      ∧ e.Version = (trackAll c a₀ changes).root.version
          + (trackAll c a₀ changes).root.events.length + 1
      ∧ (TrackChangeWithMetadata c x.newID x.now (trackAll c a₀ changes) x.data
          x.metadata).root.events.map Event.Version
            = List.range' (a₀.root.version + 1) (changes.length + 1)
      ∧ ((TrackChangeWithMetadata c x.newID x.now (trackAll c a₀ changes) x.data
          x.metadata).root.events.map Event.Version).Nodup := by
  obtain ⟨hcons, hlen⟩ := trackAll_consecutive c a₀ changes h
  obtain ⟨e, he, hver, -⟩ :=
    TrackChangeWithMetadata_events c x.newID x.now (trackAll c a₀ changes) x.data x.metadata
  have hnext := hcons.track c x.newID x.now (trackAll c a₀ changes) x.data x.metadata
  have hmap : (TrackChangeWithMetadata c x.newID x.now (trackAll c a₀ changes) x.data
      x.metadata).root.events.map Event.Version
        = List.range' (a₀.root.version + 1) (changes.length + 1) := by
    rw [hnext.2, he, List.length_append, hlen, List.length_singleton]
  refine ⟨e, he, ?_, ?_, hmap, ?_⟩
  · rw [hver, hcons.rootVersion, hlen]
  · rw [hver, hcons.rootVersion, hcons.1]
  · rw [hmap]
    exact List.nodup_range' _ _

/-- C3 at a concrete input: a `Counter` with an empty buffer, two tracked changes,
then a third. -/
theorem C3_track_change_versions_witness :
    Counter.fresh.root.events = [] ∧
    ∃ e : Event Nat,
      (TrackChangeWithMetadata Counter.counter (Counter.added 5 30).newID
          (Counter.added 5 30).now
          (trackAll Counter.counter Counter.fresh [Counter.added 1 10, Counter.added 2 20])
          (Counter.added 5 30).data (Counter.added 5 30).metadata).root.events
        = (trackAll Counter.counter Counter.fresh
            [Counter.added 1 10, Counter.added 2 20]).root.events ++ [e]
      ∧ e.Version = Counter.fresh.root.version + 2 + 1 :=
  ⟨rfl,
    (C3_track_change_versions Counter.counter Counter.fresh
      [Counter.added 1 10, Counter.added 2 20] (Counter.added 5 30) rfl).imp
      (fun _ h => ⟨h.1, h.2.1⟩)⟩

/-! ## Save -/

@[simp] theorem Root.Events_eq (ar : Root π) : ar.Events = ar.events := by
  simp [Root.Events]

theorem Save_empty (reg : internal.register π) (enc : Encoder π) (es : core.EventStore S)
    (s : S) (c : Class σ π) (a : Aggregate σ π) (h : a.root.events = []) :
    Save reg enc es s c a = { err := none, a := a, store := s, calls := [] } := by
  simp [Save, h]

theorem Save_not_registered (reg : internal.register π) (enc : Encoder π)
    (es : core.EventStore S) (s : S) (c : Class σ π) (a : Aggregate σ π)
    (h : a.root.events ≠ []) (hreg : reg.AggregateRegistered c.typeName = false) :
    Save reg enc es s c a =
      { err := some (Error.wrap (c.typeName ++ " ") Error.ErrAggregateNotRegistered),
        a := a, store := s, calls := [] } := by
  simp [Save, h, hreg]

theorem Save_encode_error (reg : internal.register π) (enc : Encoder π)
    (es : core.EventStore S) (s : S) (c : Class σ π) (a : Aggregate σ π)
    (h : a.root.events ≠ []) (hreg : reg.AggregateRegistered c.typeName = true)
    (err : Error) (henc : encodeEvents reg enc a.root.events = .error err) :
    Save reg enc es s c a = { err := some err, a := a, store := s, calls := [] } := by
  simp [Save, h, hreg, saveEvents, henc]

theorem Save_store_error (reg : internal.register π) (enc : Encoder π)
    (es : core.EventStore S) (s : S) (c : Class σ π) (a : Aggregate σ π)
    (h : a.root.events ≠ []) (hreg : reg.AggregateRegistered c.typeName = true)
    (batch : List core.Event) (henc : encodeEvents reg enc a.root.events = .ok batch)
    (err : Error) (hstore : (es.Save s batch).2.2 = some err) :
    Save reg enc es s c a =
      { err := some (if Error.Is err Error.coreErrConcurrency then Error.ErrConcurrency
          else Error.wrap "error from event store: " err),
        a := a, store := (es.Save s batch).1, calls := [batch] } := by
  rcases hs : es.Save s batch with ⟨s', written, e⟩
  rw [hs] at hstore
  simp only at hstore
  subst hstore
  simp only [Save, saveEvents, Root.Events_eq, henc, hs]
  by_cases hc : Error.Is err Error.coreErrConcurrency = true <;> simp [h, hreg, hc]

theorem Save_store_ok (reg : internal.register π) (enc : Encoder π)
    (es : core.EventStore S) (s : S) (c : Class σ π) (a : Aggregate σ π)
    (last : Event π) (hlast : a.root.events.getLast? = some last)
    (hreg : reg.AggregateRegistered c.typeName = true)
    (batch : List core.Event) (henc : encodeEvents reg enc a.root.events = .ok batch)
    (hstore : (es.Save s batch).2.2 = none) :
    Save reg enc es s c a =
      { err := none
        a := { a with root :=
          { id := a.root.id, version := last.Version,
            globalVersion :=
              ((es.Save s batch).2.1.getLast?.map (fun e => e.GlobalVersion)).getD 0,
            events := [] } }
        store := (es.Save s batch).1, calls := [batch] } := by
  have h : a.root.events ≠ [] := by
    intro hnil
    simp [hnil] at hlast
  rcases hs : es.Save s batch with ⟨s', written, e⟩
  rw [hs] at hstore
  simp only at hstore
  subst hstore
  simp [Save, saveEvents, henc, hs, h, hreg, hlast]

theorem Save_calls (reg : internal.register π) (enc : Encoder π)
    (es : core.EventStore S) (s : S) (c : Class σ π) (a : Aggregate σ π)
    (batch : List core.Event) (hcall : (Save reg enc es s c a).calls = [batch]) :
    a.root.events ≠ [] ∧ reg.AggregateRegistered c.typeName = true
      ∧ encodeEvents reg enc a.root.events = .ok batch := by
  by_cases h : a.root.events = []
  · rw [Save_empty reg enc es s c a h] at hcall
    simp at hcall
  · cases hreg : reg.AggregateRegistered c.typeName with
    | false =>
      rw [Save_not_registered reg enc es s c a h hreg] at hcall
      simp at hcall
    | true =>
      refine ⟨h, rfl, ?_⟩
      cases henc : encodeEvents reg enc a.root.events with
      | error err =>
        rw [Save_encode_error reg enc es s c a h hreg err henc] at hcall
        simp at hcall
      | ok b =>
        cases hst : (es.Save s b).2.2 with
        | some err =>
          rw [Save_store_error reg enc es s c a h hreg b henc err hst] at hcall
          simp only [List.cons.injEq, and_true] at hcall
          rw [hcall]
        | none =>
          obtain ⟨last, hlast⟩ : ∃ last, a.root.events.getLast? = some last := by
            cases hl : a.root.events.getLast? with
            | none => exact absurd (List.getLast?_eq_none_iff.mp hl) h
            | some last => exact ⟨last, rfl⟩
          rw [Save_store_ok reg enc es s c a last hlast hreg b henc hst] at hcall
          simp only [List.cons.injEq, and_true] at hcall
          rw [hcall]

/-- C7: Save on an aggregate with an empty buffer, registered or not, against any
event store: it returns nil, never calls the store, leaves the aggregate (so `ID()`,
`Version()` and `GlobalVersion()`) and the store as they were; a second Save in a row
gives the same outcome again. -/
theorem C7_save_empty_buffer (reg : internal.register π) (enc : Encoder π)
    (es : core.EventStore S) (s : S) (c : Class σ π) (a : Aggregate σ π)
    (h : a.root.events = []) :
    (Save reg enc es s c a).err = none
    ∧ (Save reg enc es s c a).calls = []
    ∧ (Save reg enc es s c a).store = s
    ∧ (Save reg enc es s c a).a = a
    ∧ (Save reg enc es s c a).a.root.ID = a.root.ID
    ∧ (Save reg enc es s c a).a.root.Version = a.root.Version
    ∧ (Save reg enc es s c a).a.root.GlobalVersion = a.root.GlobalVersion
    ∧ (Save reg enc es (Save reg enc es s c a).store c (Save reg enc es s c a).a).err = none
    ∧ (Save reg enc es (Save reg enc es s c a).store c (Save reg enc es s c a).a).calls = []
    ∧ (Save reg enc es (Save reg enc es s c a).store c (Save reg enc es s c a).a).a = a
    ∧ (Save reg enc es (Save reg enc es s c a).store c (Save reg enc es s c a).a).store = s := by
  have hfirst := Save_empty reg enc es s c a h
  rw [hfirst]
  have hsecond : Save reg enc es s c a = { err := none, a := a, store := s, calls := [] } :=
    hfirst
  refine ⟨rfl, rfl, rfl, rfl, rfl, rfl, rfl, ?_, ?_, ?_, ?_⟩
  · exact congrArg SaveResult.err hsecond
  · exact congrArg SaveResult.calls hsecond
  · exact congrArg SaveResult.a hsecond
  · exact congrArg SaveResult.store hsecond

/-- C7 at a concrete input: a zero-value `Counter`, never registered, saved to the
in-memory store. -/
theorem C7_save_empty_buffer_witness :
    Counter.fresh.root.events = []
    ∧ (Save internal.register.newRegister Counter.encoder memory.Create [] Counter.counter
        Counter.fresh).err = none
    ∧ (Save internal.register.newRegister Counter.encoder memory.Create [] Counter.counter
        Counter.fresh).calls = [] :=
  ⟨rfl,
    (C7_save_empty_buffer internal.register.newRegister Counter.encoder memory.Create []
      Counter.counter Counter.fresh rfl).1,
    (C7_save_empty_buffer internal.register.newRegister Counter.encoder memory.Create []
      Counter.counter Counter.fresh rfl).2.1⟩

/-- C6: Save on an aggregate with a non-empty buffer whose type is not registered fails
with an error matching `ErrAggregateNotRegistered`, never invokes the event store, and
leaves the aggregate (buffer, committed version, global version) and the store
unchanged. -/
theorem C6_save_aggregate_not_registered (reg : internal.register π) (enc : Encoder π)
    (es : core.EventStore S) (s : S) (c : Class σ π) (a : Aggregate σ π)
    (h : a.root.events ≠ []) (hreg : reg.AggregateRegistered c.typeName = false) :
    (∃ err, (Save reg enc es s c a).err = some err
      ∧ Error.Is err Error.ErrAggregateNotRegistered = true)
    ∧ (Save reg enc es s c a).calls = []
    ∧ (Save reg enc es s c a).store = s
    ∧ (Save reg enc es s c a).a = a
    ∧ (Save reg enc es s c a).a.root.events = a.root.events
    ∧ (Save reg enc es s c a).a.root.version = a.root.version
    ∧ (Save reg enc es s c a).a.root.globalVersion = a.root.globalVersion := by
  rw [Save_not_registered reg enc es s c a h hreg]
  exact ⟨⟨_, rfl, by simp [Error.Is]⟩, rfl, rfl, rfl, rfl, rfl, rfl⟩

/-- C6 at a concrete input: a `Counter` with one tracked change and a new, empty
register. -/
theorem C6_save_aggregate_not_registered_witness :
    (trackAll Counter.counter Counter.fresh [Counter.added 1 10]).root.events ≠ []
    ∧ (internal.register.newRegister : internal.register Nat).AggregateRegistered
        Counter.counter.typeName = false
    ∧ (Save internal.register.newRegister Counter.encoder memory.Create [] Counter.counter
        (trackAll Counter.counter Counter.fresh [Counter.added 1 10])).calls = [] :=
  ⟨by simp [trackAll, TrackChangeWithMetadata], rfl,
    (C6_save_aggregate_not_registered internal.register.newRegister Counter.encoder
      memory.Create [] Counter.counter
      (trackAll Counter.counter Counter.fresh [Counter.added 1 10])
      (by simp [trackAll, TrackChangeWithMetadata]) rfl).2.1⟩

theorem encodeEvents_length (reg : internal.register π) (enc : Encoder π)
    (events : List (Event π)) (batch : List core.Event)
    (h : encodeEvents reg enc events = .ok batch) : batch.length = events.length := by
  induction events generalizing batch with
  | nil =>
    simp only [encodeEvents, Except.ok.injEq] at h
    simp [← h]
  | cons e rest ih =>
    simp only [encodeEvents] at h
    split at h
    · exact absurd h (by simp)
    · split at h
      · exact absurd h (by simp)
      · split at h
        · exact absurd h (by simp)
        · split at h
          · exact absurd h (by simp)
          · rename_i esEvents hrest
            simp only [Except.ok.injEq] at h
            rw [← h, List.length_cons, List.length_cons, ih esEvents hrest]

theorem getLast?_isSome_of_ne_nil {α : Type} (l : List α) (h : l ≠ []) :
    ∃ x, l.getLast? = some x := by
  cases hl : l.getLast? with
  | none => exact absurd (List.getLast?_eq_none_iff.mp hl) h
  | some x => exact ⟨x, rfl⟩

/-- C2: for a registered aggregate with a non-empty buffer of registered events, when
the event store's Save, called with the batch, succeeds: Save returns nil, `Events()` is
empty and `UnsavedEvents()` is false, the committed version is the version of the last
buffered event, so `Version()` is the same before and after, and `GlobalVersion()` is
the global version the store wrote back on the last event of the batch. -/
theorem C2_save_success (reg : internal.register π) (enc : Encoder π)
    (es : core.EventStore S) (s : S) (c : Class σ π) (a : Aggregate σ π)
    (batch : List core.Event)
    (hreg : reg.AggregateRegistered c.typeName = true)
    (hne : a.root.events ≠ [])
    (hall : ∀ e ∈ a.root.events, registered reg e = true)
    (hcall : (Save reg enc es s c a).calls = [batch])
    (hok : (es.Save s batch).2.2 = none) :
    (Save reg enc es s c a).err = none
    ∧ (Save reg enc es s c a).a.root.Events = []
    ∧ (Save reg enc es s c a).a.root.UnsavedEvents = false
    ∧ (∃ last, a.root.events.getLast? = some last
        ∧ (Save reg enc es s c a).a.root.version = last.Version)
    ∧ (Save reg enc es s c a).a.root.Version = a.root.Version
    ∧ (∃ written, (es.Save s batch).2.1.getLast? = some written
        ∧ (Save reg enc es s c a).a.root.GlobalVersion = written.GlobalVersion)
    ∧ (Save reg enc es s c a).a.root.ID = a.root.ID
    ∧ (Save reg enc es s c a).a.state = a.state
    ∧ (Save reg enc es s c a).store = (es.Save s batch).1 := by
  have _ := hreg
  have _ := hall
  obtain ⟨-, hreg', henc⟩ := Save_calls reg enc es s c a batch hcall
  obtain ⟨last, hlast⟩ := getLast?_isSome_of_ne_nil a.root.events hne
  have hlen : (es.Save s batch).2.1 ≠ [] := by
    intro hnil
    have h1 := es.Save_length s batch
    rw [hnil, encodeEvents_length reg enc _ _ henc] at h1
    exact hne (List.length_eq_zero.mp h1.symm)
  obtain ⟨written, hwritten⟩ := getLast?_isSome_of_ne_nil _ hlen
  rw [Save_store_ok reg enc es s c a last hlast hreg' batch henc hok]
  refine ⟨rfl, rfl, rfl, ⟨last, hlast, rfl⟩, ?_, ⟨written, hwritten, ?_⟩, rfl, rfl, rfl⟩
  · simp [Root.Version, hlast]
  · simp [Root.GlobalVersion, hwritten]

/-- C4: when the event store's Save, called with the batch, fails with an error that
matches `core.ErrConcurrency`, Save returns `ErrConcurrency` itself, not wrapped; when it
fails with any other error, Save returns an error that wraps it, so that `errors.Is`
finds it. In both cases the aggregate (buffer, committed version, global version) is
exactly what it was before the call. -/
theorem C4_save_store_error (reg : internal.register π) (enc : Encoder π)
    (es : core.EventStore S) (s : S) (c : Class σ π) (a : Aggregate σ π)
    (batch : List core.Event) (e : Error)
    (hcall : (Save reg enc es s c a).calls = [batch])
    (hfail : (es.Save s batch).2.2 = some e) :
    (Error.Is e Error.coreErrConcurrency = true →
      (Save reg enc es s c a).err = some Error.ErrConcurrency)
    ∧ (Error.Is e Error.coreErrConcurrency = false →
      ∃ err, (Save reg enc es s c a).err = some err ∧ Error.Is err e = true
        ∧ err = Error.wrap "error from event store: " e)
    ∧ (Save reg enc es s c a).a = a
    ∧ (Save reg enc es s c a).a.root.events = a.root.events
    ∧ (Save reg enc es s c a).a.root.version = a.root.version
    ∧ (Save reg enc es s c a).a.root.globalVersion = a.root.globalVersion := by
  obtain ⟨hne, hreg, henc⟩ := Save_calls reg enc es s c a batch hcall
  rw [Save_store_error reg enc es s c a hne hreg batch henc e hfail]
  refine ⟨fun h => by simp [h], fun h => ⟨_, by simp [h], ?_, rfl⟩, rfl, rfl, rfl, rfl⟩
  cases e <;> simp [Error.Is]

/-- C2 at a concrete input: a registered `Counter` with one tracked change, saved to
the empty in-memory store. -/
theorem C2_save_success_witness :
    Counter.register.AggregateRegistered Counter.counter.typeName = true
    ∧ Counter.tracked.root.events ≠ []
    ∧ (∀ e ∈ Counter.tracked.root.events, registered Counter.register e = true)
    ∧ (Save Counter.register Counter.encoder memory.Create [] Counter.counter
        Counter.tracked).calls = [Counter.trackedBatch]
    ∧ (memory.Create.Save [] Counter.trackedBatch).2.2 = none
    ∧ (Save Counter.register Counter.encoder memory.Create [] Counter.counter
        Counter.tracked).err = none
    ∧ (Save Counter.register Counter.encoder memory.Create [] Counter.counter
        Counter.tracked).a.root.Events = [] :=
  ⟨by decide, by decide, by decide, by decide, by decide,
    (C2_save_success Counter.register Counter.encoder memory.Create [] Counter.counter
      Counter.tracked Counter.trackedBatch (by decide) (by decide) (by decide) (by decide)
      (by decide)).1,
    (C2_save_success Counter.register Counter.encoder memory.Create [] Counter.counter
      Counter.tracked Counter.trackedBatch (by decide) (by decide) (by decide) (by decide)
      (by decide)).2.1⟩

/-- C4 at a concrete input: a registered `Counter` with one tracked change and a store
whose Save reports a wrapped `core.ErrConcurrency`. -/
theorem C4_save_store_error_witness :
    (Save Counter.register Counter.encoder
        (memory.failing (Error.wrap "tx: " Error.coreErrConcurrency) []) ()
        Counter.counter Counter.tracked).calls = [Counter.trackedBatch]
    ∧ ((memory.failing (Error.wrap "tx: " Error.coreErrConcurrency) []).Save ()
        Counter.trackedBatch).2.2 = some (Error.wrap "tx: " Error.coreErrConcurrency)
    ∧ (Save Counter.register Counter.encoder
        (memory.failing (Error.wrap "tx: " Error.coreErrConcurrency) []) ()
        Counter.counter Counter.tracked).err = some Error.ErrConcurrency
    ∧ (Save Counter.register Counter.encoder
        (memory.failing (Error.wrap "tx: " Error.coreErrConcurrency) []) ()
        Counter.counter Counter.tracked).a = Counter.tracked :=
  ⟨by decide, by decide,
    (C4_save_store_error Counter.register Counter.encoder
      (memory.failing (Error.wrap "tx: " Error.coreErrConcurrency) []) ()
      Counter.counter Counter.tracked Counter.trackedBatch
      (Error.wrap "tx: " Error.coreErrConcurrency) (by decide) (by decide)).1 (by decide),
    (C4_save_store_error Counter.register Counter.encoder
      (memory.failing (Error.wrap "tx: " Error.coreErrConcurrency) []) ()
      Counter.counter Counter.tracked Counter.trackedBatch
      (Error.wrap "tx: " Error.coreErrConcurrency) (by decide) (by decide)).2.2.1⟩

theorem encodeEvents_unregistered (reg : internal.register π) (enc : Encoder π)
    (events : List (Event π)) (h : ∃ u ∈ events, registered reg u = false) :
    (∃ err, encodeEvents reg enc events = .error err)
    ∧ ((∀ e ∈ upToFirstUnregistered reg events, serializes enc e = true) →
        ∃ err, encodeEvents reg enc events = .error err
          ∧ Error.Is err Error.ErrEventNotRegistered = true) := by
  induction events with
  | nil => simp at h
  | cons e rest ih =>
    cases hd : enc.SerializeData e.Data with
    | error err₁ =>
      refine ⟨⟨err₁, by simp [encodeEvents, hd]⟩, fun hs => ?_⟩
      have := hs e (by simp [upToFirstUnregistered])
      simp [serializes, hd, Except.toBool] at this
    | ok data =>
      cases hm : enc.SerializeMetadata e.Metadata with
      | error err₂ =>
        refine ⟨⟨err₂, by simp [encodeEvents, hd, hm]⟩, fun hs => ?_⟩
        have := hs e (by simp [upToFirstUnregistered])
        simp [serializes, hm, Except.toBool] at this
      | ok metadata =>
        cases hr : registered reg e with
        | false =>
          have hlook : reg.eventsF.lookup (e.AggregateType ++ "_" ++ e.Reason) = none := by
            simpa [registered] using hr
          have hres : encodeEvents reg enc (e :: rest)
              = .error (Error.wrap (e.Reason ++ " ") Error.ErrEventNotRegistered) := by
            simp [encodeEvents, hd, hm, internal.register.EventRegistered, hlook]
          exact ⟨⟨_, hres⟩, fun _ => ⟨_, hres, by simp [Error.Is]⟩⟩
        | true =>
          obtain ⟨f, hf⟩ : ∃ f, reg.eventsF.lookup (e.AggregateType ++ "_" ++ e.Reason)
              = some f := by
            simpa [registered, Option.isSome_iff_exists] using hr
          have hrest : ∃ u ∈ rest, registered reg u = false := by
            obtain ⟨u, hu, hun⟩ := h
            rcases List.mem_cons.mp hu with rfl | hu'
            · rw [hr] at hun
              exact absurd hun (by simp)
            · exact ⟨u, hu', hun⟩
          obtain ⟨⟨err, herr⟩, ih₂⟩ := ih hrest
          refine ⟨⟨err, by simp [encodeEvents, hd, hm, internal.register.EventRegistered, hf,
            herr]⟩, fun hs => ?_⟩
          have hs' : ∀ x ∈ upToFirstUnregistered reg rest, serializes enc x = true := by
            intro x hx
            apply hs x
            simp only [upToFirstUnregistered, List.takeWhile_cons, hr, if_true,
              List.length_cons, List.take_succ_cons, List.mem_cons]
            exact Or.inr hx
          obtain ⟨err', herr', his⟩ := ih₂ hs'
          exact ⟨err', by simp [encodeEvents, hd, hm, internal.register.EventRegistered, hf,
            herr'], his⟩

/-- When the encoder refuses an event among those up to and including the first
unregistered one, the loop of `saveEvents` ends with the error the encoder returned for
the first event it refuses. -/
theorem encodeEvents_refused (reg : internal.register π) (enc : Encoder π)
    (events : List (Event π)) (x : Event π)
    (h : (upToFirstUnregistered reg events).find? (fun e => !serializes enc e) = some x) :
    ∃ err, refusal enc x = some err ∧ encodeEvents reg enc events = .error err := by
  induction events with
  | nil => simp [upToFirstUnregistered] at h
  | cons e rest ih =>
    have hup : upToFirstUnregistered reg (e :: rest)
        = e :: (if registered reg e then upToFirstUnregistered reg rest else []) := by
      cases hr : registered reg e <;>
        simp [upToFirstUnregistered, List.takeWhile_cons, hr]
    rw [hup, List.find?_cons] at h
    cases hd : enc.SerializeData e.Data with
    | error err₁ =>
      have hs : serializes enc e = false := by simp [serializes, hd, Except.toBool]
      simp only [hs, Bool.not_false, Option.some.injEq] at h
      subst h
      exact ⟨err₁, by simp [refusal, hd], by simp [encodeEvents, hd]⟩
    | ok data =>
      cases hm : enc.SerializeMetadata e.Metadata with
      | error err₂ =>
        have hs : serializes enc e = false := by simp [serializes, hd, hm, Except.toBool]
        simp only [hs, Bool.not_false, Option.some.injEq] at h
        subst h
        exact ⟨err₂, by simp [refusal, hd, hm], by simp [encodeEvents, hd, hm]⟩
      | ok metadata =>
        have hs : serializes enc e = true := by simp [serializes, hd, hm, Except.toBool]
        simp only [hs, Bool.not_true] at h
        cases hr : registered reg e with
        | false =>
          rw [hr] at h
          simp at h
        | true =>
          rw [hr] at h
          simp only [if_true] at h
          obtain ⟨f, hf⟩ : ∃ f, reg.eventsF.lookup (e.AggregateType ++ "_" ++ e.Reason)
              = some f := by
            simpa [registered, Option.isSome_iff_exists] using hr
          obtain ⟨err, herr, hrest⟩ := ih h
          exact ⟨err, herr, by
            simp [encodeEvents, hd, hm, internal.register.EventRegistered, hf, hrest]⟩

/-- C5, as the code has it: for a registered aggregate whose buffer contains an event
whose (aggregate type, reason) is not in the register, Save fails, the event store's
Save is never invoked, and the aggregate (buffer, committed version, global version)
and the store are unchanged; the error matches `ErrEventNotRegistered` when the encoder
accepts the data and metadata of every event up to and including the first
unregistered one; otherwise it is the error the encoder returned, for the data or else
the metadata, of the first of these events that it refuses. -/
theorem C5_save_event_not_registered (reg : internal.register π) (enc : Encoder π)
    (es : core.EventStore S) (s : S) (c : Class σ π) (a : Aggregate σ π)
    (hreg : reg.AggregateRegistered c.typeName = true)
    (hun : ∃ u ∈ a.root.events, registered reg u = false) :
    (∃ err, (Save reg enc es s c a).err = some err)
    ∧ ((∀ e ∈ upToFirstUnregistered reg a.root.events, serializes enc e = true) →
        ∃ err, (Save reg enc es s c a).err = some err
          ∧ Error.Is err Error.ErrEventNotRegistered = true)
    ∧ (∀ x, (upToFirstUnregistered reg a.root.events).find? (fun e => !serializes enc e)
          = some x →
        refusal enc x ≠ none ∧ (Save reg enc es s c a).err = refusal enc x)
    ∧ (Save reg enc es s c a).calls = []
    ∧ (Save reg enc es s c a).store = s
    ∧ (Save reg enc es s c a).a = a
    ∧ (Save reg enc es s c a).a.root.events = a.root.events
    ∧ (Save reg enc es s c a).a.root.version = a.root.version
    ∧ (Save reg enc es s c a).a.root.globalVersion = a.root.globalVersion := by
  have hne : a.root.events ≠ [] := by
    obtain ⟨u, hu, -⟩ := hun
    exact List.ne_nil_of_mem hu
  obtain ⟨⟨err, herr⟩, hsnd⟩ := encodeEvents_unregistered reg enc a.root.events hun
  rw [Save_encode_error reg enc es s c a hne hreg err herr]
  refine ⟨⟨err, rfl⟩, fun hs => ?_, fun x hx => ?_, rfl, rfl, rfl, rfl, rfl, rfl⟩
  · obtain ⟨err', herr', his⟩ := hsnd hs
    rw [herr] at herr'
    simp only [Except.error.injEq] at herr'
    exact ⟨err, rfl, herr' ▸ his⟩
  · obtain ⟨err', hrefused, herr'⟩ := encodeEvents_refused reg enc a.root.events x hx
    rw [herr] at herr'
    simp only [Except.error.injEq] at herr'
    rw [hrefused, herr']
    exact ⟨by simp, rfl⟩

/-- C5 at concrete inputs: a registered `Counter` whose buffer holds one change of the
unregistered type `Removed`; and the same with a metadata map that the encoder refuses,
where the error of Save is the one the encoder returned for that event. -/
theorem C5_save_event_not_registered_witness :
    Counter.register.AggregateRegistered Counter.counter.typeName = true
    ∧ (∃ u ∈ (trackAll Counter.counter Counter.fresh
          [{ Counter.added 1 10 with data := { typeName := "Removed", value := 1 } }]).root.events,
        registered Counter.register u = false)
    ∧ (Save Counter.register Counter.encoder memory.Create [] Counter.counter
        (trackAll Counter.counter Counter.fresh
          [{ Counter.added 1 10 with data := { typeName := "Removed", value := 1 } }])).calls
        = []
    ∧ (∃ u ∈ Counter.trackedRemoved.root.events, registered Counter.register u = false)
    ∧ (∃ x, (upToFirstUnregistered Counter.register Counter.trackedRemoved.root.events).find?
          (fun e => !serializes Counter.encoder e) = some x
        ∧ refusal Counter.encoder x = some (Error.backend 2)
        ∧ (Save Counter.register Counter.encoder memory.Create [] Counter.counter
            Counter.trackedRemoved).err = refusal Counter.encoder x) :=
  ⟨by decide, by decide,
    (C5_save_event_not_registered Counter.register Counter.encoder memory.Create []
      Counter.counter
      (trackAll Counter.counter Counter.fresh
        [{ Counter.added 1 10 with data := { typeName := "Removed", value := 1 } }])
      (by decide) (by decide)).2.2.2.1,
    by decide,
    ⟨_, rfl, rfl,
      ((C5_save_event_not_registered Counter.register Counter.encoder memory.Create []
        Counter.counter Counter.trackedRemoved (by decide) (by decide)).2.2.1 _ rfl).2⟩⟩

/-- C5 as stated fails: the buffer of a registered `Counter` holds an unregistered
event whose metadata the encoder refuses; `saveEvents` serializes before it consults the
register, so Save returns the encoder's error, which does not match
`ErrEventNotRegistered`. -/
theorem C5_encoder_error_comes_first :
    Counter.register.AggregateRegistered Counter.counter.typeName = true
    ∧ (∃ u ∈ Counter.trackedRemoved.root.events, registered Counter.register u = false)
    ∧ (Save Counter.register Counter.encoder memory.Create [] Counter.counter
        Counter.trackedRemoved).err = some (Error.backend 2)
    ∧ Error.Is (Error.backend 2) Error.ErrEventNotRegistered = false := by
  decide

/-! ## Load -/

theorem Error.not_found_not_from_backend (e : Error) (h : e.fromBackend = true) :
    e ≠ Error.ErrAggregateNotFound ∧ Error.Is e Error.ErrAggregateNotFound = false := by
  induction e with
  | wrap text inner ih =>
    simp only [Error.fromBackend] at h
    simp [Error.Is, (ih h).2]
  | _ => first | (simp [Error.fromBackend] at h; done) | simp [Error.Is]

theorem Load_ptr (reg : internal.register π) (enc : Encoder π) (ctx : Context)
    (es : core.EventStore S) (s : S) (id : String) (c : Class σ π) (a : Aggregate σ π)
    (iterator : core.Iterator)
    (hget : es.Get s ctx id c.typeName a.root.Version = .ok iterator) :
    Load reg enc reflect.Kind.Ptr ctx es s id c a =
      { err :=
          match (loadLoop reg enc ctx c 0 iterator a).1 with
          | some err => some err
          | none =>
            if (loadLoop reg enc ctx c 0 iterator a).2.root.Version = 0 then
              some Error.ErrAggregateNotFound
            else none
        a := (loadLoop reg enc ctx c 0 iterator a).2
        gets := [{ id := id, aggregateType := c.typeName, afterVersion := a.root.Version }] } := by
  simp only [Load, getEvents, hget, ne_eq, not_true_eq_false, if_false]
  rcases hl : loadLoop reg enc ctx c 0 iterator a with ⟨_ | err, a'⟩
  · simp only
    split <;> rfl
  · rfl

/-- C8: Load of a fresh aggregate (committed version 0, empty buffer), passed as a
pointer, from a store whose Get for the requested id yields an exhausted iterator
without error: it returns exactly `ErrAggregateNotFound`, an error that no back-end error
equals or wraps, after having asked the store once, and leaves the aggregate (id,
version, global version, state) unchanged. -/
theorem C8_load_not_found (reg : internal.register π) (enc : Encoder π) (ctx : Context)
    (es : core.EventStore S) (s : S) (id : String) (c : Class σ π) (a : Aggregate σ π)
    (hv : a.root.version = 0) (hb : a.root.events = [])
    (hget : es.Get s ctx id c.typeName 0 = .ok []) :
    (Load reg enc reflect.Kind.Ptr ctx es s id c a).err = some Error.ErrAggregateNotFound
    ∧ (Load reg enc reflect.Kind.Ptr ctx es s id c a).a = a
    ∧ (Load reg enc reflect.Kind.Ptr ctx es s id c a).gets
        = [{ id := id, aggregateType := c.typeName, afterVersion := 0 }]
    ∧ (∀ e : Error, e.fromBackend = true →
        e ≠ Error.ErrAggregateNotFound ∧ Error.Is e Error.ErrAggregateNotFound = false) := by
  have hver : a.root.Version = 0 := by rw [Root.Version_nil a.root hb, hv]
  rw [Load_ptr reg enc ctx es s id c a [] (by rw [hver]; exact hget)]
  simp only [loadLoop, hver, if_true]
  exact ⟨trivial, trivial, trivial, Error.not_found_not_from_backend⟩

/-- C8 at a concrete input: a zero-value `Counter` loaded from the empty in-memory
store. -/
theorem C8_load_not_found_witness :
    Counter.fresh.root.version = 0 ∧ Counter.fresh.root.events = []
    ∧ memory.Create.Get [] Context.Background "none_existing" Counter.counter.typeName 0 = .ok []
    ∧ (Load Counter.register Counter.encoder reflect.Kind.Ptr Context.Background
        memory.Create [] "none_existing" Counter.counter Counter.fresh).err
        = some Error.ErrAggregateNotFound :=
  ⟨rfl, rfl, rfl,
    (C8_load_not_found Counter.register Counter.encoder Context.Background memory.Create []
      "none_existing" Counter.counter Counter.fresh rfl rfl rfl).1⟩

theorem buildFromHistory_append (c : Class σ π) (a : Aggregate σ π)
    (xs ys : List (Event π)) :
    buildFromHistory c a (xs ++ ys) = buildFromHistory c (buildFromHistory c a xs) ys := by
  simp [buildFromHistory, List.foldl_append]

/-- With a Transition that does not read the root, the state `buildFromHistory` leaves
is the plain fold of Transition over the events. -/
theorem buildFromHistory_state (c : Class σ π) (hblind : RootBlind c) (r : Root π)
    (a : Aggregate σ π) (events : List (Event π)) :
    (buildFromHistory c a events).state = events.foldl (c.Transition r) a.state := by
  induction events generalizing a with
  | nil => rfl
  | cons e rest ih =>
    have h := ih (buildFromHistory c a [e])
    simp only [buildFromHistory, List.foldl_cons, List.foldl_nil] at h ⊢
    rw [h, hblind a.root r]

theorem buildFromHistory_events (c : Class σ π) (a : Aggregate σ π)
    (events : List (Event π)) :
    (buildFromHistory c a events).root.events = a.root.events := by
  induction events generalizing a with
  | nil => rfl
  | cons e rest ih =>
    have h := ih (buildFromHistory c a [e])
    simp only [buildFromHistory, List.foldl_cons, List.foldl_nil] at h ⊢
    exact h

theorem buildFromHistory_last (c : Class σ π) (a : Aggregate σ π) (events : List (Event π))
    (last : Event π) (h : events.getLast? = some last) :
    (buildFromHistory c a events).root =
      { id := last.AggregateID, version := last.Version, globalVersion := last.GlobalVersion,
        events := a.root.events } := by
  rcases List.eq_nil_or_concat events with hnil | ⟨init, x, hcons⟩
  · simp [hnil] at h
  · subst hcons
    simp only [List.concat_eq_append, List.getLast?_append, List.getLast?_singleton,
      Option.or_some, Option.some.injEq] at h
    rw [List.concat_eq_append, buildFromHistory_append]
    have hev := buildFromHistory_events c a init
    simp only [buildFromHistory, List.foldl_cons, List.foldl_nil] at hev ⊢
    simp [hev, ← h]

theorem loadLoop_all (reg : internal.register π) (enc : Encoder π) (ctx : Context)
    (c : Class σ π) (hctx : ctx.cancelledFrom = none)
    (raws : List core.Event) (decs : List (Event π))
    (hdec : List.Forall₂ (fun raw dec => Iterator.Value reg enc (.ok raw) = .ok dec) raws decs)
    (poll : Nat) (a : Aggregate σ π) :
    loadLoop reg enc ctx c poll (raws.map .ok) a = (none, buildFromHistory c a decs) := by
  induction hdec generalizing poll a with
  | nil => rfl
  | cons hhead _ ih =>
    simp only [List.map_cons, loadLoop, Context.done, hctx, hhead]
    rw [ih]
    simp [buildFromHistory]

theorem Iterator.Value_event (reg : internal.register π) (enc : Encoder π) (raw : core.Event)
    (dec : Event π) (h : Iterator.Value reg enc (.ok raw) = .ok dec) : dec.event = raw := by
  simp only [Iterator.Value] at h
  split at h
  · exact absurd h (by simp)
  · split at h
    · exact absurd h (by simp)
    · split at h
      · simp only [Except.ok.injEq] at h
        rw [← h]
      · split at h
        · exact absurd h (by simp)
        · simp only [Except.ok.injEq] at h
          rw [← h]

theorem Forall₂_getLast? {α β : Type} {R : α → β → Prop} {xs : List α} {ys : List β}
    (h : List.Forall₂ R xs ys) (x : α) (hx : xs.getLast? = some x) :
    ∃ y, ys.getLast? = some y ∧ R x y := by
  induction h with
  | nil => simp at hx
  | @cons a b as bs hab hrest ih =>
    cases hrest with
    | nil =>
      simp only [List.getLast?_singleton, Option.some.injEq] at hx
      exact ⟨b, by simp, hx ▸ hab⟩
    | @cons a₂ b₂ as₂ bs₂ h₂ hrest₂ =>
      rw [List.getLast?_cons_cons] at hx
      obtain ⟨y, hy, hR⟩ := ih hx
      exact ⟨y, by rw [List.getLast?_cons_cons]; exact hy, hR⟩

theorem Load_eq_buildFromHistory (reg : internal.register π) (enc : Encoder π) (ctx : Context)
    (es : core.EventStore S) (s : S) (id : String) (c : Class σ π) (a : Aggregate σ π)
    (raws : List core.Event) (decs : List (Event π))
    (hctx : ctx.cancelledFrom = none)
    (hget : es.Get s ctx id c.typeName a.root.Version = .ok (raws.map .ok))
    (hdec : List.Forall₂ (fun raw dec => Iterator.Value reg enc (.ok raw) = .ok dec) raws decs)
    (hver : (buildFromHistory c a decs).root.Version ≠ 0) :
    Load reg enc reflect.Kind.Ptr ctx es s id c a =
      { err := none, a := buildFromHistory c a decs,
        gets := [{ id := id, aggregateType := c.typeName, afterVersion := a.root.Version }] } := by
  rw [Load_ptr reg enc ctx es s id c a (raws.map .ok) hget,
    loadLoop_all reg enc ctx c hctx raws decs hdec 0 a]
  simp only [hver, if_false]

theorem Forall₂_map_event (reg : internal.register π) (enc : Encoder π)
    (raws : List core.Event) (decs : List (Event π))
    (hdec : List.Forall₂ (fun raw dec => Iterator.Value reg enc (.ok raw) = .ok dec) raws decs) :
    decs.map (fun dec => dec.event) = raws := by
  induction hdec with
  | nil => rfl
  | cons hhead _ ih => rw [List.map_cons, ih, Iterator.Value_event reg enc _ _ hhead]

/-- C9: Load is the fold of Transition over the stored history. For an aggregate, passed
as a pointer, with an empty buffer at committed version `v`, an uncancelled context and
a store whose `Get(id, type, v)` yields the decodable events `e1..en`, `n ≥ 1`, of a
version above `v` as the contract of Get has it: Load returns nil after one Get for the
versions after `v`; the aggregate is the prior one after Transition was folded over the
decoded `e1..en`, in that order, from the prior state (for every state type and every
Transition, so each event is applied exactly once), each call finding the root as the
event before left it, with id, version and global version set from that event after the
call; `ID()`, `Version()` and `GlobalVersion()` are the aggregate id, version and global
version of `en`, and the buffer is still empty. -/
theorem C9_load_folds_history (reg : internal.register π) (enc : Encoder π) (ctx : Context)
    (es : core.EventStore S) (s : S) (id : String) (c : Class σ π) (a : Aggregate σ π)
    (raws : List core.Event) (decs : List (Event π)) (en : core.Event)
    (hb : a.root.events = [])
    (hctx : ctx.cancelledFrom = none)
    (hget : es.Get s ctx id c.typeName a.root.version = .ok (raws.map .ok))
    (hdec : List.Forall₂ (fun raw dec => Iterator.Value reg enc (.ok raw) = .ok dec) raws decs)
    (hlast : raws.getLast? = some en)
    (hver : a.root.version < en.Version) :
    (Load reg enc reflect.Kind.Ptr ctx es s id c a).err = none
    ∧ (Load reg enc reflect.Kind.Ptr ctx es s id c a).gets
        = [{ id := id, aggregateType := c.typeName, afterVersion := a.root.version }]
    ∧ (Load reg enc reflect.Kind.Ptr ctx es s id c a).a
        = decs.foldl
            (fun acc e =>
              { state := c.Transition acc.root acc.state e
                root := { acc.root with
                  id := e.AggregateID
                  version := e.Version
                  globalVersion := e.GlobalVersion } })
            a
    ∧ decs.map (fun dec => dec.event) = raws
    ∧ (Load reg enc reflect.Kind.Ptr ctx es s id c a).a.root.ID = en.AggregateID
    ∧ (Load reg enc reflect.Kind.Ptr ctx es s id c a).a.root.Version = en.Version
    ∧ (Load reg enc reflect.Kind.Ptr ctx es s id c a).a.root.GlobalVersion = en.GlobalVersion
    ∧ (Load reg enc reflect.Kind.Ptr ctx es s id c a).a.root.events = [] := by
  have hV : a.root.Version = a.root.version := Root.Version_nil a.root hb
  obtain ⟨dn, hdn, hval⟩ := Forall₂_getLast? hdec en hlast
  have hdne : dn.event = en := Iterator.Value_event reg enc en dn hval
  have hroot := buildFromHistory_last c a decs dn hdn
  have hVer : (buildFromHistory c a decs).root.Version = en.Version := by
    rw [hroot]
    simp [Root.Version, hb, Event.Version, hdne]
  have hne : (buildFromHistory c a decs).root.Version ≠ 0 := by
    rw [hVer]
    exact fun h0 => absurd hver (by rw [h0]; exact Nat.not_lt_zero _)
  rw [Load_eq_buildFromHistory reg enc ctx es s id c a raws decs hctx (by rw [hV]; exact hget)
    hdec hne]
  refine ⟨rfl, by rw [hV], rfl,
    Forall₂_map_event reg enc raws decs hdec, ?_, hVer, ?_, ?_⟩
  · rw [hroot]
    simp [Root.ID, Event.AggregateID, hdne]
  · rw [hroot]
    simp [Root.GlobalVersion, Event.GlobalVersion, hdne]
  · rw [hroot]
    exact hb

/-- C9 at a concrete input: a zero-value `Counter` loaded from a store that holds the
one saved event of `Counter.tracked`. -/
theorem C9_load_folds_history_witness :
    Counter.fresh.root.events = []
    ∧ Context.Background.cancelledFrom = none
    ∧ memory.Create.Get Counter.storedBatch Context.Background "c-1" Counter.counter.typeName
        Counter.fresh.root.version = .ok (Counter.storedBatch.map .ok)
    ∧ (Load Counter.register Counter.encoder reflect.Kind.Ptr Context.Background
        memory.Create Counter.storedBatch "c-1" Counter.counter Counter.fresh).err = none
    ∧ (Load Counter.register Counter.encoder reflect.Kind.Ptr Context.Background
        memory.Create Counter.storedBatch "c-1" Counter.counter Counter.fresh).a
        = Counter.decodedBatch.foldl
            (fun acc e =>
              { state := Counter.counter.Transition acc.root acc.state e
                root := { acc.root with
                  id := e.AggregateID
                  version := e.Version
                  globalVersion := e.GlobalVersion } })
            Counter.fresh :=
  ⟨rfl, rfl, rfl,
    (C9_load_folds_history Counter.register Counter.encoder Context.Background memory.Create
      Counter.storedBatch "c-1" Counter.counter Counter.fresh Counter.storedBatch
      Counter.decodedBatch Counter.storedEvent rfl rfl rfl
      (List.Forall₂.cons rfl List.Forall₂.nil) rfl (by decide)).1,
    (C9_load_folds_history Counter.register Counter.encoder Context.Background memory.Create
      Counter.storedBatch "c-1" Counter.counter Counter.fresh Counter.storedBatch
      Counter.decodedBatch Counter.storedEvent rfl rfl rfl
      (List.Forall₂.cons rfl List.Forall₂.nil) rfl (by decide)).2.2.1⟩

/-! ## Save followed by Load -/

theorem TrackChangeWithMetadata_state (c : Class σ π) (newID : String) (now : Nat)
    (a : Aggregate σ π) (data : Dyn π) (metadata : Metadata) :
    ∃ e : Event π,
      (TrackChangeWithMetadata c newID now a data metadata).root.events = a.root.events ++ [e]
      ∧ (TrackChangeWithMetadata c newID now a data metadata).state
          = c.Transition (TrackChangeWithMetadata c newID now a data metadata).root a.state e
      ∧ (TrackChangeWithMetadata c newID now a data metadata).root.id = e.AggregateID := by
  unfold TrackChangeWithMetadata
  dsimp only
  split
  · exact ⟨_, rfl, rfl, rfl⟩
  · exact ⟨_, rfl, rfl, rfl⟩

theorem trackAll_state (c : Class σ π) (hblind : RootBlind c) (r : Root π)
    (a : Aggregate σ π) (changes : List (Change π)) :
    ∃ evs : List (Event π),
      (trackAll c a changes).root.events = a.root.events ++ evs
      ∧ (trackAll c a changes).state = evs.foldl (c.Transition r) a.state
      ∧ evs.length = changes.length
      ∧ (∀ last, evs.getLast? = some last → (trackAll c a changes).root.id = last.AggregateID) := by
  induction changes using List.reverseRecOn with
  | nil => exact ⟨[], by simp [trackAll], rfl, rfl, by simp⟩
  | append_singleton init x ih =>
    obtain ⟨evs, hev, hst, hlen, -⟩ := ih
    obtain ⟨e, he, hs, hid⟩ :=
      TrackChangeWithMetadata_state c x.newID x.now (trackAll c a init) x.data x.metadata
    rw [trackAll_append]
    refine ⟨evs ++ [e], ?_, ?_, ?_, ?_⟩
    · rw [he, hev, List.append_assoc]
    · rw [hs, hst, List.foldl_append, hblind _ r]
      rfl
    · simp [hlen]
    · intro last hlast
      simp only [List.getLast?_append, List.getLast?_singleton, Option.or_some,
        Option.some.injEq] at hlast
      rw [hid, hlast]

/-- The raw event `saveEvents` builds from a buffered event, as a relation. -/
theorem encodeEvents_forall₂ (reg : internal.register π) (enc : Encoder π)
    (events : List (Event π)) (batch : List core.Event)
    (h : encodeEvents reg enc events = .ok batch) :
    List.Forall₂
      (fun (e : Event π) (b : core.Event) =>
        b.AggregateID = e.AggregateID ∧ b.Version = e.Version
        ∧ b.AggregateType = e.AggregateType ∧ b.Timestamp = e.Timestamp
        ∧ b.Reason = e.Reason ∧ enc.SerializeData e.Data = .ok b.Data
        ∧ enc.SerializeMetadata e.Metadata = .ok b.Metadata)
      events batch := by
  induction events generalizing batch with
  | nil =>
    simp only [encodeEvents, Except.ok.injEq] at h
    rw [← h]
    exact List.Forall₂.nil
  | cons e rest ih =>
    simp only [encodeEvents] at h
    split at h
    · exact absurd h (by simp)
    · rename_i data hd
      split at h
      · exact absurd h (by simp)
      · rename_i metadata hm
        split at h
        · exact absurd h (by simp)
        · split at h
          · exact absurd h (by simp)
          · rename_i esEvents hrest
            simp only [Except.ok.injEq] at h
            rw [← h]
            exact List.Forall₂.cons ⟨rfl, rfl, rfl, rfl, rfl, hd, hm⟩ (ih esEvents hrest)

theorem Iterator.Value_of_encoded (reg : internal.register π) (enc : Encoder π)
    (hinv : Inverts enc) (e : Event π) (r : core.Event) (hc : constructs reg e = true)
    (hty : r.AggregateType = e.AggregateType) (hre : r.Reason = e.Reason)
    (hd : enc.SerializeData e.Data = .ok r.Data)
    (hm : enc.SerializeMetadata e.Metadata = .ok r.Metadata) :
    Iterator.Value reg enc (.ok r) = .ok { event := r, data := e.data, metadata := e.metadata } := by
  obtain ⟨hdata, hmeta, hnil⟩ := hinv
  simp only [constructs] at hc
  split at hc
  · rename_i f hf
    simp only [decide_eq_true_eq] at hc
    have hdec := hdata e.Data f r.Data hd hc
    simp only [Iterator.Value, internal.register.EventRegistered, hty, hre, hf, hdec]
    cases hmd : r.Metadata with
    | none =>
      rw [hmd] at hm
      have := hnil e.Metadata hm
      simp only [Event.Metadata] at this
      simp [this, Event.Data]
    | some bytes =>
      rw [hmd] at hm
      have := hmeta e.Metadata bytes hm
      simp [this, Event.Data, Event.Metadata]
  · exact absurd hc (by simp)

theorem decode_stored (reg : internal.register π) (enc : Encoder π) (hinv : Inverts enc)
    (evs : List (Event π)) (batch stored : List core.Event)
    (hcons : ∀ e ∈ evs, constructs reg e = true)
    (henc : List.Forall₂
      (fun (e : Event π) (b : core.Event) =>
        b.AggregateID = e.AggregateID ∧ b.Version = e.Version
        ∧ b.AggregateType = e.AggregateType ∧ b.Timestamp = e.Timestamp
        ∧ b.Reason = e.Reason ∧ enc.SerializeData e.Data = .ok b.Data
        ∧ enc.SerializeMetadata e.Metadata = .ok b.Metadata)
      evs batch)
    (hstored : List.Forall₂ storedAs batch stored) :
    ∃ decs : List (Event π),
      List.Forall₂ (fun raw dec => Iterator.Value reg enc (.ok raw) = .ok dec) stored decs
      ∧ List.Forall₂
          (fun (e dec : Event π) =>
            e.Data = dec.Data ∧ e.Metadata = dec.Metadata ∧ e.AggregateID = dec.AggregateID
            ∧ e.AggregateType = dec.AggregateType ∧ e.Version = dec.Version
            ∧ e.Timestamp = dec.Timestamp)
          evs decs := by
  induction henc generalizing stored with
  | nil =>
    cases hstored
    exact ⟨[], List.Forall₂.nil, List.Forall₂.nil⟩
  | @cons e b evs' batch' hhead _ ih =>
    cases hstored with
    | @cons _ r _ stored' hr hrest =>
      obtain ⟨decs, h₁, h₂⟩ := ih _ (fun x hx => hcons x (List.mem_cons_of_mem _ hx)) hrest
      obtain ⟨hid, hver, hty, hts, hre, hd, hm⟩ := hhead
      have hrb : { r with GlobalVersion := b.GlobalVersion } = b := hr
      have e1 : r.AggregateID = b.AggregateID := by rw [← hrb]
      have e2 : r.Version = b.Version := by rw [← hrb]
      have e3 : r.AggregateType = b.AggregateType := by rw [← hrb]
      have e4 : r.Timestamp = b.Timestamp := by rw [← hrb]
      have e5 : r.Reason = b.Reason := by rw [← hrb]
      have e6 : r.Data = b.Data := by rw [← hrb]
      have e7 : r.Metadata = b.Metadata := by rw [← hrb]
      have hval := Iterator.Value_of_encoded reg enc hinv e r (hcons e (List.mem_cons_self _ _))
        (by rw [e3, hty]) (by rw [e5, hre]) (by rw [e6]; exact hd) (by rw [e7]; exact hm)
      refine ⟨_ :: decs, List.Forall₂.cons hval h₁, List.Forall₂.cons ?_ h₂⟩
      refine ⟨rfl, rfl, ?_, ?_, ?_, ?_⟩
      · simp only [Event.AggregateID, e1]
        exact hid.symm
      · simp only [Event.AggregateType, e3]
        exact hty.symm
      · simp only [Event.Version, e2]
        exact hver.symm
      · simp only [Event.Timestamp, e4]
        exact hts.symm

theorem foldl_Transition_congr (c : Class σ π) (htrans : ReadsContent c)
    (evs decs : List (Event π))
    (h : List.Forall₂
      (fun (e dec : Event π) =>
        e.Data = dec.Data ∧ e.Metadata = dec.Metadata ∧ e.AggregateID = dec.AggregateID
        ∧ e.AggregateType = dec.AggregateType ∧ e.Version = dec.Version
        ∧ e.Timestamp = dec.Timestamp)
      evs decs) (r : Root π) (z : σ) :
    evs.foldl (c.Transition r) z = decs.foldl (c.Transition r) z := by
  induction h generalizing z with
  | nil => rfl
  | cons hhead _ ih =>
    obtain ⟨h1, h2, h3, h4, h5, h6⟩ := hhead
    rw [List.foldl_cons, List.foldl_cons, htrans r z _ _ h1 h2 h3 h4 h5 h6, ih]

/-- C1, as the code has it: Save followed by Load is a round trip. For a registered
aggregate on which at least one change was tracked, by TrackChange from a zero-value
instance, every tracked event type being registered with a constructor of its own type;
an event codec whose Deserialize inverts Serialize; a Transition that reads the event's
data, metadata, aggregate id, aggregate type, version and timestamp, not its global
version, and that does not read the embedded root; an uncancelled context; and an event
store that accepts the batch and whose Get for the aggregate's id then yields the events
of the batch, in order, with whatever global versions it assigned: Save succeeds, Load of the same id into a fresh zero-value
instance, passed as a pointer, succeeds, and the fresh instance has the same `ID()`,
`Version()` and state as the original, before and after its Save. -/
theorem C1_save_load_round_trip (reg : internal.register π) (enc : Encoder π) (ctx : Context)
    (es : core.EventStore S) (s : S) (c : Class σ π) (zero : σ) (changes : List (Change π))
    (batch stored : List core.Event)
    (hreg : reg.AggregateRegistered c.typeName = true)
    (hne : changes ≠ [])
    (hcons : ∀ e ∈ (trackAll c (zeroValue zero) changes).root.events, constructs reg e = true)
    (hinv : Inverts enc)
    (htrans : ReadsContent c)
    (hblind : RootBlind c)
    (hctx : ctx.cancelledFrom = none)
    (hcall : (Save reg enc es s c (trackAll c (zeroValue zero) changes)).calls = [batch])
    (hok : (es.Save s batch).2.2 = none)
    (hget : es.Get (es.Save s batch).1 ctx (trackAll c (zeroValue zero) changes).root.ID
      c.typeName 0 = .ok (stored.map .ok))
    (hstored : List.Forall₂ storedAs batch stored) :
    (Save reg enc es s c (trackAll c (zeroValue zero) changes)).err = none
    ∧ (Load reg enc reflect.Kind.Ptr ctx es
        (Save reg enc es s c (trackAll c (zeroValue zero) changes)).store
        (trackAll c (zeroValue zero) changes).root.ID c (zeroValue zero)).err = none
    ∧ (Load reg enc reflect.Kind.Ptr ctx es
        (Save reg enc es s c (trackAll c (zeroValue zero) changes)).store
        (trackAll c (zeroValue zero) changes).root.ID c (zeroValue zero)).a.root.ID
        = (trackAll c (zeroValue zero) changes).root.ID
    ∧ (Load reg enc reflect.Kind.Ptr ctx es
        (Save reg enc es s c (trackAll c (zeroValue zero) changes)).store
        (trackAll c (zeroValue zero) changes).root.ID c (zeroValue zero)).a.root.Version
        = (trackAll c (zeroValue zero) changes).root.Version
    ∧ (Load reg enc reflect.Kind.Ptr ctx es
        (Save reg enc es s c (trackAll c (zeroValue zero) changes)).store
        (trackAll c (zeroValue zero) changes).root.ID c (zeroValue zero)).a.state
        = (trackAll c (zeroValue zero) changes).state
    ∧ (Save reg enc es s c (trackAll c (zeroValue zero) changes)).a.root.ID
        = (trackAll c (zeroValue zero) changes).root.ID
    ∧ (Save reg enc es s c (trackAll c (zeroValue zero) changes)).a.root.Version
        = (trackAll c (zeroValue zero) changes).root.Version
    ∧ (Save reg enc es s c (trackAll c (zeroValue zero) changes)).a.state
        = (trackAll c (zeroValue zero) changes).state := by
  have _ := hreg
  obtain ⟨evs, hev, hst, hlen, hid⟩ :=
    trackAll_state c hblind (zeroValue zero).root (zeroValue zero) changes
  obtain ⟨hC, -⟩ := trackAll_consecutive c (zeroValue zero) changes rfl
  generalize trackAll c (zeroValue zero) changes = orig at *
  simp only [zeroValue, List.nil_append] at hev hst hC
  -- the buffer is not empty and ends with an event of a non-zero version
  have hevne : orig.root.events ≠ [] := by
    rw [hev]
    intro hnil
    rw [hnil] at hlen
    exact hne (List.length_eq_zero.mp hlen.symm)
  obtain ⟨last, hlast⟩ := getLast?_isSome_of_ne_nil _ hevne
  have hV : orig.root.Version = last.Version := by simp [Root.Version, hlast]
  have hVpos : last.Version ≠ 0 := by
    have h1 : orig.root.Version = 0 + orig.root.events.length := hC.rootVersion
    rw [hV] at h1
    intro h0
    rw [h0, Nat.zero_add] at h1
    exact hevne (List.length_eq_zero.mp h1.symm)
  have hidl : orig.root.id = last.AggregateID := hid last (by rw [← hev]; exact hlast)
  -- Save
  obtain ⟨-, hreg', henc⟩ := Save_calls reg enc es s c orig batch hcall
  rw [Save_store_ok reg enc es s c orig last hlast hreg' batch henc hok]
  -- the stored events decode to the tracked content
  obtain ⟨decs, hdec, hsame⟩ := decode_stored reg enc hinv orig.root.events batch stored hcons
    (encodeEvents_forall₂ reg enc _ _ henc) hstored
  obtain ⟨dlast, hdlast, hl1, hl2, hl3, hl4, hl5, hl6⟩ := Forall₂_getLast? hsame last hlast
  have hroot := buildFromHistory_last c (zeroValue zero) decs dlast hdlast
  have hLV : (buildFromHistory c (zeroValue zero) decs).root.Version = dlast.Version := by
    rw [hroot]
    simp [Root.Version, zeroValue]
  rw [Load_eq_buildFromHistory reg enc ctx es _ orig.root.ID c (zeroValue zero) stored decs hctx
    (by simpa [zeroValue, Root.Version] using hget) hdec (by rw [hLV, ← hl5]; exact hVpos)]
  refine ⟨rfl, rfl, ?_, ?_, ?_, rfl, ?_, rfl⟩
  · rw [hroot]
    simp only [Root.ID]
    rw [hidl, hl3]
  · rw [hLV, hV, hl5]
  · rw [buildFromHistory_state c hblind (zeroValue zero).root, hst]
    rw [hev] at hsame
    exact (foldl_Transition_congr c htrans _ _ hsame _ zero).symm
  · simp only [Root.Version, hlast, List.getLast?_nil]

theorem Counter.encoder_inverts : Inverts Counter.encoder := by
  refine ⟨?_, ?_, ?_⟩
  · intro d sink bytes h hty
    simp only [Counter.encoder, Except.ok.injEq] at h
    subst h
    cases d
    cases sink
    simp only [Dyn.sameType] at hty
    simp [Counter.encoder, hty.1, hty.2]
  · intro m bytes h
    rcases m with _ | _ | ⟨kv, rest⟩
    · simp only [Counter.encoder, Except.ok.injEq, Option.some.injEq] at h
      subst h
      rfl
    · simp only [Counter.encoder, Except.ok.injEq, Option.some.injEq] at h
      subst h
      rfl
    · simp [Counter.encoder] at h
  · intro m h
    rcases m with _ | _ | ⟨kv, rest⟩ <;> simp [Counter.encoder] at h

theorem Counter.counter_reads_content : ReadsContent Counter.counter := by
  intro r s e e' hd _ _ _ _ _
  simp only [Counter.counter, hd]

theorem Counter.counter_root_blind : RootBlind Counter.counter := by
  intro r r' s e
  rfl

/-- C1, amended, at a concrete input: a registered `Counter`, one tracked change, the
in-memory store. -/
theorem C1_save_load_round_trip_witness :
    Counter.register.AggregateRegistered Counter.counter.typeName = true
    ∧ [Counter.added 1 10] ≠ []
    ∧ (∀ e ∈ (trackAll Counter.counter (zeroValue 0) [Counter.added 1 10]).root.events,
        constructs Counter.register e = true)
    ∧ Inverts Counter.encoder
    ∧ ReadsContent Counter.counter
    ∧ RootBlind Counter.counter
    ∧ (Save Counter.register Counter.encoder memory.Create [] Counter.counter
        (trackAll Counter.counter (zeroValue 0) [Counter.added 1 10])).calls
        = [Counter.trackedBatch]
    ∧ (memory.Create.Save [] Counter.trackedBatch).2.2 = none
    ∧ memory.Create.Get (memory.Create.Save [] Counter.trackedBatch).1 Context.Background
        (trackAll Counter.counter (zeroValue 0) [Counter.added 1 10]).root.ID
        Counter.counter.typeName 0 = .ok (Counter.storedBatch.map .ok)
    ∧ List.Forall₂ storedAs Counter.trackedBatch Counter.storedBatch
    ∧ (Load Counter.register Counter.encoder reflect.Kind.Ptr Context.Background memory.Create
        (Save Counter.register Counter.encoder memory.Create [] Counter.counter
          (trackAll Counter.counter (zeroValue 0) [Counter.added 1 10])).store
        (trackAll Counter.counter (zeroValue 0) [Counter.added 1 10]).root.ID Counter.counter
        (zeroValue 0)).a.state
        = (trackAll Counter.counter (zeroValue 0) [Counter.added 1 10]).state :=
  ⟨by decide, by simp, by decide, Counter.encoder_inverts, Counter.counter_reads_content,
    Counter.counter_root_blind,
    by decide, by decide, rfl, List.Forall₂.cons rfl List.Forall₂.nil,
    (C1_save_load_round_trip Counter.register Counter.encoder Context.Background memory.Create
      [] Counter.counter 0 [Counter.added 1 10] Counter.trackedBatch Counter.storedBatch
      (by decide) (by simp) (by decide) Counter.encoder_inverts Counter.counter_reads_content
      Counter.counter_root_blind
      rfl (by decide) (by decide) rfl (List.Forall₂.cons rfl List.Forall₂.nil)).2.2.2.2.1⟩

/-- C1 as stated fails: `auditor` is registered, its one event was produced by
TrackChange from a zero-value instance and is registered, the codec inverts, the
in-memory store accepts the batch and its Get returns exactly the saved event, Save and
Load both succeed, `ID()` and `Version()` agree; but the states differ. TrackChange hands
Transition an event whose global version is 0, Load hands it the stored event whose
global version the store assigned, here 1. -/
theorem C1_state_differs_when_transition_reads_global_version :
    Counter.register.AggregateRegistered Counter.auditor.typeName = true
    ∧ (∀ e ∈ Counter.audited.root.events, constructs Counter.register e = true)
    ∧ (Save Counter.register Counter.encoder memory.Create [] Counter.auditor
        Counter.audited).err = none
    ∧ (Save Counter.register Counter.encoder memory.Create [] Counter.auditor
        Counter.audited).calls = [Counter.trackedBatch]
    ∧ memory.Create.Get
        (Save Counter.register Counter.encoder memory.Create [] Counter.auditor
          Counter.audited).store Context.Background Counter.audited.root.ID
        Counter.auditor.typeName 0 = .ok (Counter.storedBatch.map .ok)
    ∧ (Load Counter.register Counter.encoder reflect.Kind.Ptr Context.Background memory.Create
        (Save Counter.register Counter.encoder memory.Create [] Counter.auditor
          Counter.audited).store Counter.audited.root.ID Counter.auditor
        Counter.fresh).err = none
    ∧ (Load Counter.register Counter.encoder reflect.Kind.Ptr Context.Background memory.Create
        (Save Counter.register Counter.encoder memory.Create [] Counter.auditor
          Counter.audited).store Counter.audited.root.ID Counter.auditor
        Counter.fresh).a.root.Version
        = (Save Counter.register Counter.encoder memory.Create [] Counter.auditor
            Counter.audited).a.root.Version
    ∧ (Save Counter.register Counter.encoder memory.Create [] Counter.auditor
        Counter.audited).a.state = 0
    ∧ Counter.audited.state = 0
    ∧ (Load Counter.register Counter.encoder reflect.Kind.Ptr Context.Background memory.Create
        (Save Counter.register Counter.encoder memory.Create [] Counter.auditor
          Counter.audited).store Counter.audited.root.ID Counter.auditor
        Counter.fresh).a.state = 1 :=
  ⟨by decide, by decide, by decide, by decide, rfl, by decide, by decide, by decide, by decide,
    by decide⟩

/-- The round trip also fails for a Transition that reads the embedded root. `versioned`
keeps what `Version()` returns when Transition is called; it is registered, its one
event was produced by TrackChange from a zero-value instance, Save and Load both
succeed and `ID()` and `Version()` agree; but the states differ. TrackChange calls
Transition after the event was appended to the buffer, so `Version()` is 1; Load calls
it before the version of the root is set from the event, so `Version()` is 0. -/
theorem C1_state_differs_when_transition_reads_the_root :
    Counter.register.AggregateRegistered Counter.versioned.typeName = true
    ∧ ReadsContent Counter.versioned
    ∧ (∀ e ∈ Counter.versionedOnce.root.events, constructs Counter.register e = true)
    ∧ (Save Counter.register Counter.encoder memory.Create [] Counter.versioned
        Counter.versionedOnce).err = none
    ∧ (Save Counter.register Counter.encoder memory.Create [] Counter.versioned
        Counter.versionedOnce).calls = [Counter.trackedBatch]
    ∧ (Load Counter.register Counter.encoder reflect.Kind.Ptr Context.Background memory.Create
        (Save Counter.register Counter.encoder memory.Create [] Counter.versioned
          Counter.versionedOnce).store Counter.versionedOnce.root.ID Counter.versioned
        Counter.fresh).err = none
    ∧ (Load Counter.register Counter.encoder reflect.Kind.Ptr Context.Background memory.Create
        (Save Counter.register Counter.encoder memory.Create [] Counter.versioned
          Counter.versionedOnce).store Counter.versionedOnce.root.ID Counter.versioned
        Counter.fresh).a.root.Version
        = (Save Counter.register Counter.encoder memory.Create [] Counter.versioned
            Counter.versionedOnce).a.root.Version
    ∧ Counter.versionedOnce.state = 1
    ∧ (Save Counter.register Counter.encoder memory.Create [] Counter.versioned
        Counter.versionedOnce).a.state = 1
    ∧ (Load Counter.register Counter.encoder reflect.Kind.Ptr Context.Background memory.Create
        (Save Counter.register Counter.encoder memory.Create [] Counter.versioned
          Counter.versionedOnce).store Counter.versionedOnce.root.ID Counter.versioned
        Counter.fresh).a.state = 0 :=
  ⟨by decide, fun _ _ _ _ _ _ _ _ _ _ => rfl, by decide, by decide, by decide, by decide,
    by decide, by decide, by decide, by decide⟩

/-! ## Load from a snapshot -/

theorem filter_after_eq_drop (raws : List core.Event) (first : Nat) (v : Nat)
    (h : raws.map (fun r => r.Version) = List.range' first raws.length) :
    raws.filter (fun r => decide (v < r.Version)) = raws.drop (v + 1 - first) := by
  induction raws generalizing first with
  | nil => simp
  | cons x xs ih =>
    simp only [List.map_cons, List.length_cons, List.range'_succ, List.cons.injEq] at h
    obtain ⟨hx, hxs⟩ := h
    have hih := ih (first + 1) hxs
    have hx' : (x.Version : Nat) = first := hx
    by_cases hlt : v < first
    · have h0 : v + 1 - first = 0 := by omega
      have h1 : v + 1 - (first + 1) = 0 := by omega
      rw [h1, List.drop_zero] at hih
      rw [h0, List.drop_zero, List.filter_cons, hih]
      simp [hx', hlt]
    · have h1 : v + 1 - first = (v + 1 - (first + 1)) + 1 := by omega
      rw [h1, List.drop_succ_cons, List.filter_cons, hih]
      simp [hx', hlt]

theorem SaveSnapshot_saves (ss : core.SnapshotStore T) (t : T) (c : Class σ π)
    (a : Aggregate σ π) (snap : core.Snapshot) (h : (SaveSnapshot ss t c a).saves = [snap]) :
    a.root.events = []
    ∧ c.SerializeSnapshot a.state = .ok snap.State
    ∧ snap.ID = a.root.ID ∧ snap.Typ = c.typeName ∧ snap.Version = a.root.Version
    ∧ snap.GlobalVersion = a.root.GlobalVersion := by
  simp only [SaveSnapshot, Root.Events_eq] at h
  split at h
  · simp at h
  · rename_i hlen
    split at h
    · simp at h
    · rename_i state hser
      simp only [List.cons.injEq, and_true] at h
      subst h
      exact ⟨List.length_eq_zero.mp (by omega), hser, rfl, rfl, rfl, rfl⟩

theorem LoadSnapshot_ok (ctx : Context) (ss : core.SnapshotStore T) (t : T) (id : String)
    (c : Class σ π) (a : Aggregate σ π) (snap : core.Snapshot) (state : σ)
    (hget : ss.Get t ctx id c.typeName = .ok snap)
    (hde : c.DeserializeSnapshot a.state snap.State = (state, none)) :
    LoadSnapshot reflect.Kind.Ptr ctx ss t id c a =
      { err := none
        a := { state := state
               root := { id := snap.ID, version := snap.Version,
                         globalVersion := snap.GlobalVersion, events := a.root.events } }
        gets := [{ id := id, aggregateType := c.typeName }]
        deserialized := [snap.State] } := by
  simp [LoadSnapshot, getSnapshot, hget, hde]

theorem buildFromHistory_Version (c : Class σ π) (a : Aggregate σ π)
    (events : List (Event π)) (h : a.root.events = []) :
    (buildFromHistory c a events).root.Version
      = ((events.getLast?).map Event.Version).getD a.root.version
    ∧ (buildFromHistory c a events).root.ID
      = ((events.getLast?).map Event.AggregateID).getD a.root.id := by
  cases hl : events.getLast? with
  | none =>
    rw [List.getLast?_eq_none_iff.mp hl]
    simp [buildFromHistory, Root.Version, Root.ID, h]
  | some last =>
    rw [buildFromHistory_last c a events last hl]
    simp [Root.Version, Root.ID, h]

theorem getLast?_drop_of_lt {α : Type} (l : List α) (n : Nat) (x : α)
    (hx : l.getLast? = some x) (hn : n < l.length) : (l.drop n).getLast? = some x := by
  have hsplit : l = l.take n ++ l.drop n := (List.take_append_drop n l).symm
  rw [hsplit, List.getLast?_append] at hx
  have hne : l.drop n ≠ [] := by
    intro h0
    have := congrArg List.length h0
    simp only [List.length_drop, List.length_nil] at this
    omega
  obtain ⟨y, hy⟩ := getLast?_isSome_of_ne_nil _ hne
  rw [hy] at hx ⊢
  simpa using hx

theorem last_version_of_range (raws : List core.Event) (en : core.Event)
    (hver : raws.map (fun r => r.Version) = List.range' 1 raws.length)
    (hlast : raws.getLast? = some en) : en.Version = raws.length ∧ raws.length ≠ 0 := by
  have hne : raws.length ≠ 0 := by
    intro h0
    rw [List.length_eq_zero.mp h0] at hlast
    simp at hlast
  have h := congrArg List.getLast? hver
  rw [List.getLast?_map, hlast, List.getLast?_range'] at h
  simp only [Option.map_some', hne, if_false, Option.some.injEq] at h
  exact ⟨h.trans (Nat.add_sub_cancel_left 1 raws.length), hne⟩

/-- C10, as the code has it: the snapshot fast path is equivalent to a full load. For an
aggregate with no unsaved events at version `v` whose state is the state Load folds
from the events `1..v` of its stream (as it is when the aggregate was loaded, or built
by TrackChange with a Transition that does not read the global version); a snapshot of
it taken by SaveSnapshot, that the snapshot store returns and DeserializeSnapshot
restores into a zero-value instance; a stream then holding the decodable events of the
versions `1..w`, `w ≥ 1`, `w ≥ v`, all carrying the aggregate's id, of which the event
store's Get yields those above the version asked for; and an uncancelled context:
LoadFromSnapshot into a zero-value instance asks the event store once, for the events
with a version above `v`, applies exactly those to the restored aggregate, and ends
without error with the same `ID()` and the same `Version()`, `w`, as Load of all the
events into a zero-value instance; and with the same state, for a Transition that does
not read the embedded root, and for any Transition when the root that Load leaves after
the events `1..v` is the root the snapshot restores, so that the first call of
Transition after the snapshot finds the same root on both paths. -/
theorem C10_snapshot_fast_path (reg : internal.register π) (enc : Encoder π) (ctx : Context)
    (es : core.EventStore S) (s : S) (ss : core.SnapshotStore T) (t t' : T)
    (c : Class σ π) (zero : σ) (p : Aggregate σ π) (snap : core.Snapshot)
    (raws : List core.Event) (decs : List (Event π)) (en : core.Event)
    (hsaved : (SaveSnapshot ss t c p).err = none)
    (hsnap : (SaveSnapshot ss t c p).saves = [snap])
    (hssget : ss.Get t' ctx p.root.ID c.typeName = .ok snap)
    (hrestore : c.DeserializeSnapshot zero snap.State = (p.state, none))
    (hctx : ctx.cancelledFrom = none)
    (hget : ∀ after : Version, es.Get s ctx p.root.ID c.typeName after
      = .ok ((raws.filter (fun r => decide (after < r.Version))).map .ok))
    (hdec : List.Forall₂ (fun raw dec => Iterator.Value reg enc (.ok raw) = .ok dec) raws decs)
    (hver : raws.map (fun r => r.Version) = List.range' 1 raws.length)
    (hids : ∀ r ∈ raws, r.AggregateID = p.root.ID)
    (hlast : raws.getLast? = some en)
    (hvw : p.root.version ≤ raws.length)
    (hstate : p.state
      = (buildFromHistory c (zeroValue zero) (decs.take p.root.version)).state) :
    (LoadFromSnapshot reg enc reflect.Kind.Ptr ctx es s ss t' p.root.ID c (zeroValue zero)).gets
        = [{ id := p.root.ID, aggregateType := c.typeName, afterVersion := p.root.version }]
    ∧ (LoadFromSnapshot reg enc reflect.Kind.Ptr ctx es s ss t' p.root.ID c
        (zeroValue zero)).err = none
    ∧ (Load reg enc reflect.Kind.Ptr ctx es s p.root.ID c (zeroValue zero)).err = none
    ∧ (LoadFromSnapshot reg enc reflect.Kind.Ptr ctx es s ss t' p.root.ID c
        (zeroValue zero)).a
        = buildFromHistory c
            { state := p.state
              root := { id := p.root.ID, version := p.root.version,
                        globalVersion := p.root.GlobalVersion, events := [] } }
            (decs.drop p.root.version)
    ∧ ((RootBlind c
          ∨ (buildFromHistory c (zeroValue zero) (decs.take p.root.version)).root
              = { id := p.root.ID, version := p.root.version,
                  globalVersion := p.root.GlobalVersion, events := [] }) →
        (LoadFromSnapshot reg enc reflect.Kind.Ptr ctx es s ss t' p.root.ID c
          (zeroValue zero)).a.state
          = (Load reg enc reflect.Kind.Ptr ctx es s p.root.ID c (zeroValue zero)).a.state)
    ∧ (LoadFromSnapshot reg enc reflect.Kind.Ptr ctx es s ss t' p.root.ID c
        (zeroValue zero)).a.root.ID
        = (Load reg enc reflect.Kind.Ptr ctx es s p.root.ID c (zeroValue zero)).a.root.ID
    ∧ (LoadFromSnapshot reg enc reflect.Kind.Ptr ctx es s ss t' p.root.ID c
        (zeroValue zero)).a.root.Version = raws.length
    ∧ (Load reg enc reflect.Kind.Ptr ctx es s p.root.ID c (zeroValue zero)).a.root.Version
        = raws.length := by
  have _ := hsaved
  obtain ⟨hpb, -, hsid, -, hsver, hsgv⟩ := SaveSnapshot_saves ss t c p snap hsnap
  have hpV : p.root.Version = p.root.version := Root.Version_nil p.root hpb
  rw [hpV] at hsver
  obtain ⟨henv, hlen0⟩ := last_version_of_range raws en hver hlast
  obtain ⟨dn, hdn, hval⟩ := Forall₂_getLast? hdec en hlast
  have hdne : dn.event = en := Iterator.Value_event reg enc en dn hval
  have hlenEq : decs.length = raws.length := (List.Forall₂.length_eq hdec).symm
  -- the plain load
  have hall : raws.filter (fun r => decide (0 < r.Version)) = raws := by
    rw [filter_after_eq_drop raws 1 0 hver]
    rfl
  have hplainV := buildFromHistory_Version c (zeroValue zero) decs rfl
  rw [hdn] at hplainV
  simp only [Option.map_some', Option.getD_some, Event.Version, Event.AggregateID, hdne]
    at hplainV
  have hplain := Load_eq_buildFromHistory reg enc ctx es s p.root.ID c (zeroValue zero) raws
    decs hctx (by rw [← hall]; exact hget 0) hdec
    (by rw [hplainV.1, henv]; exact hlen0)
  -- the load from the snapshot
  have hsnapLoad := LoadSnapshot_ok ctx ss t' p.root.ID c (zeroValue zero) snap p.state
    hssget hrestore
  have hfast : LoadFromSnapshot reg enc reflect.Kind.Ptr ctx es s ss t' p.root.ID c
      (zeroValue zero)
      = Load reg enc reflect.Kind.Ptr ctx es s p.root.ID c
          { state := p.state
            root := { id := snap.ID, version := snap.Version,
                      globalVersion := snap.GlobalVersion, events := [] } } := by
    simp only [LoadFromSnapshot, hsnapLoad]
    rfl
  have hafter : raws.filter (fun r => decide (p.root.version < r.Version))
      = raws.drop p.root.version := by
    rw [filter_after_eq_drop raws 1 p.root.version hver]
    rfl
  have hfastV := buildFromHistory_Version c
    ({ state := p.state
       root := { id := snap.ID, version := snap.Version,
                 globalVersion := snap.GlobalVersion, events := [] } } : Aggregate σ π)
    (decs.drop p.root.version) rfl
  have hlastDrop : ((decs.drop p.root.version).getLast?.map Event.Version).getD snap.Version
        = raws.length
      ∧ ((decs.drop p.root.version).getLast?.map Event.AggregateID).getD snap.ID
        = p.root.ID := by
    by_cases hlt : p.root.version < decs.length
    · rw [getLast?_drop_of_lt decs _ dn hdn hlt]
      simp only [Option.map_some', Option.getD_some, Event.Version, Event.AggregateID, hdne]
      exact ⟨henv, hids en (List.mem_of_getLast?_eq_some hlast)⟩
    · have hge : decs.length ≤ p.root.version := Nat.le_of_not_lt hlt
      have hnil : decs.drop p.root.version = [] := List.drop_eq_nil_of_le hge
      rw [hnil]
      simp only [List.getLast?_nil, Option.map_none', Option.getD_none]
      refine ⟨?_, hsid⟩
      rw [hsver]
      exact Nat.le_antisymm hvw (hlenEq ▸ hge)
  rw [hlastDrop.1, hlastDrop.2] at hfastV
  have hfastLoad := Load_eq_buildFromHistory reg enc ctx es s p.root.ID c
    ({ state := p.state
       root := { id := snap.ID, version := snap.Version,
                 globalVersion := snap.GlobalVersion, events := [] } } : Aggregate σ π)
    (raws.drop p.root.version) (decs.drop p.root.version) hctx
    (by
      have h1 := hget p.root.version
      rw [hafter] at h1
      simpa [Root.Version, hsver] using h1)
    (List.forall₂_drop _ hdec)
    (by rw [hfastV.1]; exact hlen0)
  rw [hfast, hfastLoad, hplain]
  have hsplit : buildFromHistory c (zeroValue zero) decs
      = buildFromHistory c (buildFromHistory c (zeroValue zero) (decs.take p.root.version))
          (decs.drop p.root.version) := by
    rw [← buildFromHistory_append, List.take_append_drop]
  refine ⟨?_, rfl, rfl, ?_, fun hroot => ?_, ?_, hfastV.1, ?_⟩
  · simp [Root.Version, hsver]
  · rw [hsid, hsver, hsgv]
  · show (buildFromHistory c _ (decs.drop p.root.version)).state
      = (buildFromHistory c (zeroValue zero) decs).state
    rw [hsplit]
    rcases hroot with hblind | hsame
    · rw [buildFromHistory_state c hblind p.root, buildFromHistory_state c hblind p.root,
        ← hstate]
    · have hrestored : buildFromHistory c (zeroValue zero) (decs.take p.root.version)
          = { state := p.state
              root := { id := snap.ID, version := snap.Version,
                        globalVersion := snap.GlobalVersion, events := [] } } := by
        rw [hsid, hsver, hsgv, ← hsame, hstate]
      rw [hrestored]
  · rw [hfastV.2, hplainV.2]
    exact (hids en (List.mem_of_getLast?_eq_some hlast)).symm
  · rw [hplainV.1]
    exact henv

theorem Counter.get_storedTwo (after : Version) :
    memory.Create.Get Counter.storedTwo Context.Background Counter.saved.root.ID
      Counter.counter.typeName after
      = .ok ((Counter.storedTwo.filter (fun r => decide (after < r.Version))).map .ok) := by
  have hid : Counter.saved.root.ID = "c-1" := by decide
  rw [hid]
  simp only [memory.Create, memory.Get, Counter.storedTwo, Counter.storedEvent,
    Counter.counter, Except.ok.injEq]
  congr 1
  simp [List.filter_cons]

/-- C10, amended, at a concrete input: a `Counter` saved at version 1 and snapshotted,
then saved through version 2, loaded through the snapshot and in full. -/
theorem C10_snapshot_fast_path_witness :
    (SaveSnapshot snapshotstore.Create [] Counter.counter Counter.saved).err = none
    ∧ (SaveSnapshot snapshotstore.Create [] Counter.counter Counter.saved).saves
        = [Counter.savedSnapshot]
    ∧ snapshotstore.Create.Get [Counter.savedSnapshot] Context.Background
        Counter.saved.root.ID Counter.counter.typeName = .ok Counter.savedSnapshot
    ∧ Counter.counter.DeserializeSnapshot 0 Counter.savedSnapshot.State
        = (Counter.saved.state, none)
    ∧ Counter.saved.root.version ≤ Counter.storedTwo.length
    ∧ Counter.saved.state
        = (buildFromHistory Counter.counter (zeroValue 0)
            (Counter.decodedTwo.take Counter.saved.root.version)).state
    ∧ RootBlind Counter.counter
    ∧ (LoadFromSnapshot Counter.register Counter.encoder reflect.Kind.Ptr Context.Background
        memory.Create Counter.storedTwo snapshotstore.Create [Counter.savedSnapshot]
        Counter.saved.root.ID Counter.counter (zeroValue 0)).gets
        = [{ id := Counter.saved.root.ID, aggregateType := Counter.counter.typeName,
             afterVersion := Counter.saved.root.version }]
    ∧ (LoadFromSnapshot Counter.register Counter.encoder reflect.Kind.Ptr Context.Background
        memory.Create Counter.storedTwo snapshotstore.Create [Counter.savedSnapshot]
        Counter.saved.root.ID Counter.counter (zeroValue 0)).a.state
        = (Load Counter.register Counter.encoder reflect.Kind.Ptr Context.Background
            memory.Create Counter.storedTwo Counter.saved.root.ID Counter.counter
            (zeroValue 0)).a.state :=
  ⟨by decide, by decide, rfl, by decide, by decide, by decide, Counter.counter_root_blind,
    (C10_snapshot_fast_path Counter.register Counter.encoder Context.Background memory.Create
      Counter.storedTwo snapshotstore.Create [] [Counter.savedSnapshot] Counter.counter 0
      Counter.saved Counter.savedSnapshot Counter.storedTwo Counter.decodedTwo
      { AggregateID := "c-1", Version := 2, GlobalVersion := 2, AggregateType := "Counter",
        Timestamp := 20, Reason := "Added", Data := [2], Metadata := some [0] }
      (by decide) (by decide) rfl (by decide) rfl Counter.get_storedTwo
      (List.Forall₂.cons rfl (List.Forall₂.cons rfl List.Forall₂.nil)) (by decide)
      (by decide) rfl (by decide) (by decide)).1,
    (C10_snapshot_fast_path Counter.register Counter.encoder Context.Background memory.Create
      Counter.storedTwo snapshotstore.Create [] [Counter.savedSnapshot] Counter.counter 0
      Counter.saved Counter.savedSnapshot Counter.storedTwo Counter.decodedTwo
      { AggregateID := "c-1", Version := 2, GlobalVersion := 2, AggregateType := "Counter",
        Timestamp := 20, Reason := "Added", Data := [2], Metadata := some [0] }
      (by decide) (by decide) rfl (by decide) rfl Counter.get_storedTwo
      (List.Forall₂.cons rfl (List.Forall₂.cons rfl List.Forall₂.nil)) (by decide)
      (by decide) rfl (by decide) (by decide)).2.2.2.2.1 (Or.inl Counter.counter_root_blind)⟩

/-- C10 as stated fails: `auditor` is tracked once, saved through version 1 and
snapshotted there; DeserializeSnapshot restores the captured state; nothing more is
saved, so `w = v = 1`. LoadFromSnapshot and Load into zero-value instances both succeed
with `Version()` 1, but the states differ: the snapshot holds the state TrackChange
produced from an event of global version 0, Load folds the stored event, whose global
version is 1. -/
theorem C10_snapshot_state_differs_from_full_load :
    Counter.auditedSaved.root.events = []
    ∧ Counter.auditedSaved.root.version = 1
    ∧ (SaveSnapshot snapshotstore.Create [] Counter.auditor Counter.auditedSaved).err = none
    ∧ (SaveSnapshot snapshotstore.Create [] Counter.auditor Counter.auditedSaved).saves
        = [Counter.auditedSnapshot]
    ∧ Counter.auditor.DeserializeSnapshot 0 Counter.auditedSnapshot.State
        = (Counter.auditedSaved.state, none)
    ∧ (LoadFromSnapshot Counter.register Counter.encoder reflect.Kind.Ptr Context.Background
        memory.Create Counter.storedBatch snapshotstore.Create
        (SaveSnapshot snapshotstore.Create [] Counter.auditor Counter.auditedSaved).store
        "c-1" Counter.auditor Counter.fresh).err = none
    ∧ (Load Counter.register Counter.encoder reflect.Kind.Ptr Context.Background
        memory.Create Counter.storedBatch "c-1" Counter.auditor Counter.fresh).err = none
    ∧ (LoadFromSnapshot Counter.register Counter.encoder reflect.Kind.Ptr Context.Background
        memory.Create Counter.storedBatch snapshotstore.Create
        (SaveSnapshot snapshotstore.Create [] Counter.auditor Counter.auditedSaved).store
        "c-1" Counter.auditor Counter.fresh).a.root.Version = 1
    ∧ (Load Counter.register Counter.encoder reflect.Kind.Ptr Context.Background
        memory.Create Counter.storedBatch "c-1" Counter.auditor Counter.fresh).a.root.Version
        = 1
    ∧ (LoadFromSnapshot Counter.register Counter.encoder reflect.Kind.Ptr Context.Background
        memory.Create Counter.storedBatch snapshotstore.Create
        (SaveSnapshot snapshotstore.Create [] Counter.auditor Counter.auditedSaved).store
        "c-1" Counter.auditor Counter.fresh).a.state = 0
    ∧ (Load Counter.register Counter.encoder reflect.Kind.Ptr Context.Background
        memory.Create Counter.storedBatch "c-1" Counter.auditor Counter.fresh).a.state = 1 :=
  ⟨by decide, by decide, by decide, by decide, by decide, by decide, by decide, by decide,
    by decide, by decide, by decide⟩

/-- The first call of Transition after a snapshot can find another root than on the
plain path. `preset` has the id `c-1` and the version 0; its snapshot is taken and
restored without error; the stream of `c-1` then holds one event. LoadFromSnapshot and
Load into zero-value instances both succeed with `Version()` 1, but with the Transition
of `named`, which reads `ID()`, the states differ: after the snapshot the root carries
the id `c-1` when the event is applied, on the plain path it carries no id yet. -/
theorem LoadFromSnapshot_state_differs_when_transition_reads_the_root :
    Counter.preset.root.events = []
    ∧ Counter.preset.root.version = 0
    ∧ Counter.preset.state
        = (buildFromHistory Counter.named (zeroValue 0)
            (Counter.decodedBatch.take Counter.preset.root.version)).state
    ∧ (SaveSnapshot snapshotstore.Create [] Counter.named Counter.preset).err = none
    ∧ (LoadFromSnapshot Counter.register Counter.encoder reflect.Kind.Ptr Context.Background
        memory.Create Counter.storedBatch snapshotstore.Create
        (SaveSnapshot snapshotstore.Create [] Counter.named Counter.preset).store
        "c-1" Counter.named Counter.fresh).err = none
    ∧ (Load Counter.register Counter.encoder reflect.Kind.Ptr Context.Background
        memory.Create Counter.storedBatch "c-1" Counter.named Counter.fresh).err = none
    ∧ (LoadFromSnapshot Counter.register Counter.encoder reflect.Kind.Ptr Context.Background
        memory.Create Counter.storedBatch snapshotstore.Create
        (SaveSnapshot snapshotstore.Create [] Counter.named Counter.preset).store
        "c-1" Counter.named Counter.fresh).a.root.Version = 1
    ∧ (Load Counter.register Counter.encoder reflect.Kind.Ptr Context.Background
        memory.Create Counter.storedBatch "c-1" Counter.named Counter.fresh).a.root.Version
        = 1
    ∧ (LoadFromSnapshot Counter.register Counter.encoder reflect.Kind.Ptr Context.Background
        memory.Create Counter.storedBatch snapshotstore.Create
        (SaveSnapshot snapshotstore.Create [] Counter.named Counter.preset).store
        "c-1" Counter.named Counter.fresh).a.state = 3
    ∧ (Load Counter.register Counter.encoder reflect.Kind.Ptr Context.Background
        memory.Create Counter.storedBatch "c-1" Counter.named Counter.fresh).a.state = 0 :=
  ⟨by decide, by decide, by decide, by decide, by decide, by decide, by decide, by decide,
    by decide, by decide⟩

/-! ## Snapshots -/

theorem getSnapshot_get_error (ctx : Context) (ss : core.SnapshotStore T) (t : T) (id : String)
    (c : Class σ π) (a : Aggregate σ π) (e : Error)
    (hget : ss.Get t ctx id c.typeName = .error e) :
    getSnapshot ctx ss t id c a =
      { err := some e, a := a, gets := [{ id := id, aggregateType := c.typeName }],
        deserialized := [] } := by
  simp [getSnapshot, hget]

theorem getSnapshot_decode_error (ctx : Context) (ss : core.SnapshotStore T) (t : T)
    (id : String) (c : Class σ π) (a : Aggregate σ π) (snap : core.Snapshot) (state : σ)
    (e : Error) (hget : ss.Get t ctx id c.typeName = .ok snap)
    (hde : c.DeserializeSnapshot a.state snap.State = (state, some e)) :
    getSnapshot ctx ss t id c a =
      { err := some e, a := { a with state := state },
        gets := [{ id := id, aggregateType := c.typeName }], deserialized := [snap.State] } := by
  simp [getSnapshot, hget, hde]

theorem getSnapshot_ok (ctx : Context) (ss : core.SnapshotStore T) (t : T)
    (id : String) (c : Class σ π) (a : Aggregate σ π) (snap : core.Snapshot) (state : σ)
    (hget : ss.Get t ctx id c.typeName = .ok snap)
    (hde : c.DeserializeSnapshot a.state snap.State = (state, none)) :
    getSnapshot ctx ss t id c a =
      { err := none
        a := { state := state
               root := { id := snap.ID, version := snap.Version,
                         globalVersion := snap.GlobalVersion, events := a.root.events } }
        gets := [{ id := id, aggregateType := c.typeName }], deserialized := [snap.State] } := by
  simp [getSnapshot, hget, hde]

theorem LoadSnapshot_of_error (ctx : Context) (ss : core.SnapshotStore T) (t : T)
    (id : String) (c : Class σ π) (a : Aggregate σ π) (e : Error)
    (h : (getSnapshot ctx ss t id c a).err = some e) :
    LoadSnapshot reflect.Kind.Ptr ctx ss t id c a =
      { getSnapshot ctx ss t id c a with
        err := some (if Error.Is e Error.coreErrSnapshotNotFound then Error.ErrAggregateNotFound
          else e) } := by
  simp only [LoadSnapshot, ne_eq, not_true_eq_false, if_false, h]
  by_cases hm : Error.Is e Error.coreErrSnapshotNotFound = true
  · simp [hm]
  · cases hg : getSnapshot ctx ss t id c a with
    | mk err a' gets des =>
      rw [hg] at h
      simp only at h
      subst h
      simp [hm]

/-- C11: snapshot round trip. For an aggregate of which SaveSnapshot saved a snapshot,
returning nil (so it has no uncommitted events and SerializeSnapshot produced the bytes
of the snapshot), and a snapshot store whose Get returns that snapshot, the last one
saved, for (id, type): LoadSnapshot into a zero-value instance, passed as a pointer,
hands DeserializeSnapshot exactly the bytes SerializeSnapshot produced, once; when the
load succeeds, DeserializeSnapshot returning nil, LoadSnapshot returns nil and the
instance has the `ID()`, `Version()` and `GlobalVersion()` of the original. The round
trip ends in an error only when DeserializeSnapshot refuses these bytes: LoadSnapshot
then returns that error (as `ErrAggregateNotFound` when it matches
`ErrSnapshotNotFound`) and id, version and global version of the instance stay as they
were. -/
theorem C11_snapshot_round_trip (ctx : Context) (ss : core.SnapshotStore T) (t t' : T)
    (c : Class σ π) (p : Aggregate σ π) (zero : σ) (snap : core.Snapshot)
    (hsaved : (SaveSnapshot ss t c p).err = none)
    (hsnap : (SaveSnapshot ss t c p).saves = [snap])
    (hget : ss.Get t' ctx p.root.ID c.typeName = .ok snap) :
    p.root.events = []
    ∧ c.SerializeSnapshot p.state = .ok snap.State
    ∧ (LoadSnapshot reflect.Kind.Ptr ctx ss t' p.root.ID c (zeroValue zero)).deserialized
        = [snap.State]
    ∧ ((c.DeserializeSnapshot zero snap.State).2 = none →
        (LoadSnapshot reflect.Kind.Ptr ctx ss t' p.root.ID c (zeroValue zero)).err = none
        ∧ (LoadSnapshot reflect.Kind.Ptr ctx ss t' p.root.ID c (zeroValue zero)).a.root.ID
            = p.root.ID
        ∧ (LoadSnapshot reflect.Kind.Ptr ctx ss t' p.root.ID c (zeroValue zero)).a.root.Version
            = p.root.Version
        ∧ (LoadSnapshot reflect.Kind.Ptr ctx ss t' p.root.ID c
            (zeroValue zero)).a.root.GlobalVersion = p.root.GlobalVersion
        ∧ (LoadSnapshot reflect.Kind.Ptr ctx ss t' p.root.ID c (zeroValue zero)).a.state
            = (c.DeserializeSnapshot zero snap.State).1)
    ∧ (∀ e, (c.DeserializeSnapshot zero snap.State).2 = some e →
        (LoadSnapshot reflect.Kind.Ptr ctx ss t' p.root.ID c (zeroValue zero)).err
          = some (if Error.Is e Error.coreErrSnapshotNotFound then Error.ErrAggregateNotFound
              else e)
        ∧ (LoadSnapshot reflect.Kind.Ptr ctx ss t' p.root.ID c (zeroValue zero)).a.root
            = (zeroValue zero : Aggregate σ π).root) := by
  have _ := hsaved
  obtain ⟨hpb, hser, hsid, -, hsver, hsgv⟩ := SaveSnapshot_saves ss t c p snap hsnap
  rcases hde : c.DeserializeSnapshot zero snap.State with ⟨state, _ | e⟩
  · have hg := getSnapshot_ok ctx ss t' p.root.ID c (zeroValue zero) snap state hget hde
    have hl : LoadSnapshot reflect.Kind.Ptr ctx ss t' p.root.ID c (zeroValue zero)
        = getSnapshot ctx ss t' p.root.ID c (zeroValue zero) := by
      simp [LoadSnapshot, hg]
    rw [hl, hg]
    refine ⟨hpb, hser, rfl, fun _ => ⟨rfl, hsid, ?_, hsgv, rfl⟩, fun e he => ?_⟩
    · simp [Root.Version, zeroValue, hsver, hpb]
    · simp at he
  · have hg := getSnapshot_decode_error ctx ss t' p.root.ID c (zeroValue zero) snap state e
      hget hde
    rw [LoadSnapshot_of_error ctx ss t' p.root.ID c (zeroValue zero) e (by rw [hg]), hg]
    refine ⟨hpb, hser, rfl, fun h => ?_, fun e' he' => ?_⟩
    · simp at h
    · simp only [Option.some.injEq] at he'
      subst he'
      exact ⟨rfl, rfl⟩

/-- C11 at a concrete input: the saved `Counter`, snapshotted to the in-memory snapshot
store and loaded into a zero-value instance. -/
theorem C11_snapshot_round_trip_witness :
    (SaveSnapshot snapshotstore.Create [] Counter.counter Counter.saved).err = none
    ∧ (SaveSnapshot snapshotstore.Create [] Counter.counter Counter.saved).saves
        = [Counter.savedSnapshot]
    ∧ snapshotstore.Create.Get
        (SaveSnapshot snapshotstore.Create [] Counter.counter Counter.saved).store
        Context.Background Counter.saved.root.ID Counter.counter.typeName
        = .ok Counter.savedSnapshot
    ∧ (LoadSnapshot reflect.Kind.Ptr Context.Background snapshotstore.Create
        (SaveSnapshot snapshotstore.Create [] Counter.counter Counter.saved).store
        Counter.saved.root.ID Counter.counter (zeroValue 0)).deserialized
        = [Counter.savedSnapshot.State]
    ∧ (LoadSnapshot reflect.Kind.Ptr Context.Background snapshotstore.Create
        (SaveSnapshot snapshotstore.Create [] Counter.counter Counter.saved).store
        Counter.saved.root.ID Counter.counter (zeroValue 0)).a.root.Version
        = Counter.saved.root.Version :=
  ⟨by decide, by decide, rfl,
    (C11_snapshot_round_trip Context.Background snapshotstore.Create []
      (SaveSnapshot snapshotstore.Create [] Counter.counter Counter.saved).store
      Counter.counter Counter.saved 0 Counter.savedSnapshot (by decide) (by decide) rfl).2.2.1,
    ((C11_snapshot_round_trip Context.Background snapshotstore.Create []
      (SaveSnapshot snapshotstore.Create [] Counter.counter Counter.saved).store
      Counter.counter Counter.saved 0 Counter.savedSnapshot (by decide) (by decide)
      rfl).2.2.2.1 (by decide)).2.2.1⟩

/-- The failing branch of the snapshot round trip at a concrete input: `relaidOut` has no
uncommitted events, SaveSnapshot succeeds, the store's Get returns the snapshot it saved,
and LoadSnapshot hands DeserializeSnapshot exactly the bytes SerializeSnapshot produced;
DeserializeSnapshot refuses them, so `getSnapshot` returns before it sets the root:
LoadSnapshot fails and the fresh instance keeps the empty id and the version 0. -/
theorem LoadSnapshot_root_not_set_when_deserialize_fails :
    Counter.saved.root.events = []
    ∧ (SaveSnapshot snapshotstore.Create [] Counter.relaidOut Counter.saved).err = none
    ∧ (SaveSnapshot snapshotstore.Create [] Counter.relaidOut Counter.saved).saves
        = [Counter.savedSnapshot]
    ∧ Counter.relaidOut.SerializeSnapshot Counter.saved.state = .ok [1]
    ∧ snapshotstore.Create.Get
        (SaveSnapshot snapshotstore.Create [] Counter.relaidOut Counter.saved).store
        Context.Background Counter.saved.root.ID Counter.relaidOut.typeName
        = .ok Counter.savedSnapshot
    ∧ (LoadSnapshot reflect.Kind.Ptr Context.Background snapshotstore.Create
        (SaveSnapshot snapshotstore.Create [] Counter.relaidOut Counter.saved).store
        Counter.saved.root.ID Counter.relaidOut Counter.fresh).deserialized = [[1]]
    ∧ (LoadSnapshot reflect.Kind.Ptr Context.Background snapshotstore.Create
        (SaveSnapshot snapshotstore.Create [] Counter.relaidOut Counter.saved).store
        Counter.saved.root.ID Counter.relaidOut Counter.fresh).err = some (Error.backend 5)
    ∧ (LoadSnapshot reflect.Kind.Ptr Context.Background snapshotstore.Create
        (SaveSnapshot snapshotstore.Create [] Counter.relaidOut Counter.saved).store
        Counter.saved.root.ID Counter.relaidOut Counter.fresh).a.root.ID = ""
    ∧ Counter.saved.root.ID = "c-1"
    ∧ (LoadSnapshot reflect.Kind.Ptr Context.Background snapshotstore.Create
        (SaveSnapshot snapshotstore.Create [] Counter.relaidOut Counter.saved).store
        Counter.saved.root.ID Counter.relaidOut Counter.fresh).a.root.Version = 0
    ∧ Counter.saved.root.Version = 1 :=
  ⟨by decide, by decide, by decide, rfl, rfl, by decide, by decide, by decide, by decide,
    by decide, by decide⟩

/-- C12, as the code has it. With at least one uncommitted event SaveSnapshot returns
`ErrUnsavedEvents`, calls neither SerializeSnapshot nor the store's Save, and leaves the
aggregate and the store unchanged. With an empty buffer it calls SerializeSnapshot once;
when that returns the state bytes, it hands the store's Save one snapshot, made of
`ID()`, the type name, `Version()`, `GlobalVersion()` and those bytes, and returns what
the store returns; when SerializeSnapshot fails, it returns that error and the store is
not called. -/
theorem C12_save_snapshot (ss : core.SnapshotStore T) (t : T) (c : Class σ π)
    (a : Aggregate σ π) :
    (a.root.events ≠ [] →
      (SaveSnapshot ss t c a).err = some Error.ErrUnsavedEvents
      ∧ (SaveSnapshot ss t c a).serialized = 0
      ∧ (SaveSnapshot ss t c a).saves = []
      ∧ (SaveSnapshot ss t c a).a = a
      ∧ (SaveSnapshot ss t c a).store = t)
    ∧ (a.root.events = [] →
      (SaveSnapshot ss t c a).serialized = 1
      ∧ (SaveSnapshot ss t c a).a = a
      ∧ (∀ state, c.SerializeSnapshot a.state = .ok state →
          (SaveSnapshot ss t c a).saves
            = [{ ID := a.root.ID, Typ := c.typeName, Version := a.root.Version,
                 GlobalVersion := a.root.GlobalVersion, State := state }]
          ∧ (SaveSnapshot ss t c a).err
            = (ss.Save t { ID := a.root.ID, Typ := c.typeName, Version := a.root.Version,
                           GlobalVersion := a.root.GlobalVersion, State := state }).2
          ∧ (SaveSnapshot ss t c a).store
            = (ss.Save t { ID := a.root.ID, Typ := c.typeName, Version := a.root.Version,
                           GlobalVersion := a.root.GlobalVersion, State := state }).1)
      ∧ (∀ e, c.SerializeSnapshot a.state = .error e →
          (SaveSnapshot ss t c a).err = some e
          ∧ (SaveSnapshot ss t c a).saves = []
          ∧ (SaveSnapshot ss t c a).store = t)) := by
  constructor
  · intro hne
    have hlen : a.root.events.length > 0 := List.length_pos.mpr hne
    simp [SaveSnapshot, hlen]
  · intro hnil
    cases hser : c.SerializeSnapshot a.state with
    | error e =>
      refine ⟨?_, ?_, fun state hs => ?_, fun e' he' => ?_⟩
      · simp [SaveSnapshot, hnil, hser]
      · simp [SaveSnapshot, hnil, hser]
      · simp at hs
      · simp only [Except.error.injEq] at he'
        subst he'
        simp [SaveSnapshot, hnil, hser]
    | ok state =>
      refine ⟨?_, ?_, fun state' hs => ?_, fun e he => ?_⟩
      · simp [SaveSnapshot, hnil, hser]
      · simp [SaveSnapshot, hnil, hser]
      · simp only [Except.ok.injEq] at hs
        subst hs
        simp [SaveSnapshot, hnil, hser]
      · simp at he

/-- C12, amended, at concrete inputs: a `Counter` with one unsaved change, and the saved
`Counter`. -/
theorem C12_save_snapshot_witness :
    Counter.tracked.root.events ≠ []
    ∧ (SaveSnapshot snapshotstore.Create [] Counter.counter Counter.tracked).err
        = some Error.ErrUnsavedEvents
    ∧ (SaveSnapshot snapshotstore.Create [] Counter.counter Counter.tracked).serialized = 0
    ∧ Counter.saved.root.events = []
    ∧ (SaveSnapshot snapshotstore.Create [] Counter.counter Counter.saved).serialized = 1 :=
  ⟨by decide,
    ((C12_save_snapshot snapshotstore.Create [] Counter.counter Counter.tracked).1
      (by decide)).1,
    ((C12_save_snapshot snapshotstore.Create [] Counter.counter Counter.tracked).1
      (by decide)).2.1,
    by decide,
    ((C12_save_snapshot snapshotstore.Create [] Counter.counter Counter.saved).2
      (by decide)).1⟩

/-- C12 as stated fails in its second half: `unserializable` has an empty buffer, but its
SerializeSnapshot returns an error; SaveSnapshot returns that error before it builds the
snapshot, and nothing is written to the store. -/
theorem C12_nothing_written_when_serialize_fails :
    Counter.saved.root.events = []
    ∧ (SaveSnapshot snapshotstore.Create [] Counter.unserializable Counter.saved).err
        = some (Error.backend 6)
    ∧ (SaveSnapshot snapshotstore.Create [] Counter.unserializable Counter.saved).saves = []
    ∧ (SaveSnapshot snapshotstore.Create [] Counter.unserializable Counter.saved).store = [] :=
  ⟨by decide, by decide, by decide, by decide⟩

/-- C13, as the code has it, for an aggregate passed as a pointer. When the snapshot
store's Get fails with `e`: LoadSnapshot returns `ErrAggregateNotFound` if `e` matches
`ErrSnapshotNotFound` and `e` itself otherwise, DeserializeSnapshot is not called and the
aggregate (id, version, global version, state) is left unchanged. When Get succeeds and
DeserializeSnapshot fails with `e`: the same translation applies to `e`, so an error of
DeserializeSnapshot that matches `ErrSnapshotNotFound` comes back as
`ErrAggregateNotFound` too, and id, version and global version are left unchanged. When
both succeed LoadSnapshot returns nil. -/
theorem C13_load_snapshot_errors (ctx : Context) (ss : core.SnapshotStore T) (t : T)
    (id : String) (c : Class σ π) (a : Aggregate σ π) :
    (∀ e, ss.Get t ctx id c.typeName = .error e →
      (LoadSnapshot reflect.Kind.Ptr ctx ss t id c a).err
        = some (if Error.Is e Error.coreErrSnapshotNotFound then Error.ErrAggregateNotFound
            else e)
      ∧ (LoadSnapshot reflect.Kind.Ptr ctx ss t id c a).a = a
      ∧ (LoadSnapshot reflect.Kind.Ptr ctx ss t id c a).deserialized = [])
    ∧ (∀ snap state e, ss.Get t ctx id c.typeName = .ok snap →
      c.DeserializeSnapshot a.state snap.State = (state, some e) →
      (LoadSnapshot reflect.Kind.Ptr ctx ss t id c a).err
        = some (if Error.Is e Error.coreErrSnapshotNotFound then Error.ErrAggregateNotFound
            else e)
      ∧ (LoadSnapshot reflect.Kind.Ptr ctx ss t id c a).a.root = a.root
      ∧ (LoadSnapshot reflect.Kind.Ptr ctx ss t id c a).a.state = state)
    ∧ (∀ snap state, ss.Get t ctx id c.typeName = .ok snap →
      c.DeserializeSnapshot a.state snap.State = (state, none) →
      (LoadSnapshot reflect.Kind.Ptr ctx ss t id c a).err = none)
    ∧ ((LoadSnapshot reflect.Kind.Ptr ctx ss t id c a).err = some Error.ErrAggregateNotFound ↔
      ∃ e, (getSnapshot ctx ss t id c a).err = some e
        ∧ (Error.Is e Error.coreErrSnapshotNotFound = true ∨ e = Error.ErrAggregateNotFound)) := by
  refine ⟨fun e hget => ?_, fun snap state e hget hde => ?_, fun snap state hget hde => ?_, ?_⟩
  · have hg := getSnapshot_get_error ctx ss t id c a e hget
    rw [LoadSnapshot_of_error ctx ss t id c a e (by rw [hg]), hg]
    exact ⟨rfl, rfl, rfl⟩
  · have hg := getSnapshot_decode_error ctx ss t id c a snap state e hget hde
    rw [LoadSnapshot_of_error ctx ss t id c a e (by rw [hg]), hg]
    exact ⟨rfl, rfl, rfl⟩
  · rw [LoadSnapshot_ok ctx ss t id c a snap state hget hde]
  · cases herr : (getSnapshot ctx ss t id c a).err with
    | none =>
      have hl : (LoadSnapshot reflect.Kind.Ptr ctx ss t id c a).err = none := by
        simp [LoadSnapshot, herr]
      rw [hl]
      simp
    | some e =>
      rw [LoadSnapshot_of_error ctx ss t id c a e herr]
      by_cases hm : Error.Is e Error.coreErrSnapshotNotFound = true
      · simp [hm]
      · simp [hm]

/-- C13, amended, at a concrete input: a zero-value `Counter` and the empty in-memory
snapshot store, whose Get reports `ErrSnapshotNotFound`. -/
theorem C13_load_snapshot_errors_witness :
    snapshotstore.Create.Get [] Context.Background "none_existing_id"
        Counter.counter.typeName = .error Error.coreErrSnapshotNotFound
    ∧ (LoadSnapshot reflect.Kind.Ptr Context.Background snapshotstore.Create []
        "none_existing_id" Counter.counter Counter.fresh).err
        = some Error.ErrAggregateNotFound
    ∧ (LoadSnapshot reflect.Kind.Ptr Context.Background snapshotstore.Create []
        "none_existing_id" Counter.counter Counter.fresh).a = Counter.fresh :=
  ⟨rfl,
    ((C13_load_snapshot_errors Context.Background snapshotstore.Create []
      "none_existing_id" Counter.counter Counter.fresh).1 Error.coreErrSnapshotNotFound rfl).1,
    ((C13_load_snapshot_errors Context.Background snapshotstore.Create []
      "none_existing_id" Counter.counter Counter.fresh).1 Error.coreErrSnapshotNotFound
      rfl).2.1⟩

/-- C13 as stated fails: the snapshot store holds the snapshot and its Get succeeds, yet
LoadSnapshot returns `ErrAggregateNotFound`, because the error DeserializeSnapshot returns
matches `ErrSnapshotNotFound` and LoadSnapshot translates whatever `getSnapshot` returns;
that error of DeserializeSnapshot is not returned unchanged. -/
theorem C13_not_found_without_a_store_miss :
    snapshotstore.Create.Get [Counter.savedSnapshot] Context.Background "c-1"
        Counter.nested.typeName = .ok Counter.savedSnapshot
    ∧ Counter.nested.DeserializeSnapshot Counter.fresh.state Counter.savedSnapshot.State
        = (0, some (Error.wrap "nested body: " Error.coreErrSnapshotNotFound))
    ∧ (LoadSnapshot reflect.Kind.Ptr Context.Background snapshotstore.Create
        [Counter.savedSnapshot] "c-1" Counter.nested Counter.fresh).err
        = some Error.ErrAggregateNotFound
    ∧ Error.ErrAggregateNotFound ≠ Error.wrap "nested body: " Error.coreErrSnapshotNotFound :=
  ⟨rfl, by decide, by decide, by decide⟩

end aggregate

/-! ## Decoding iterator -/

namespace Iterator

variable {π : Type}

theorem ValueLogged_fst (reg : internal.register π) (enc : Encoder π)
    (item : Except Error core.Event) : (ValueLogged reg enc item).1 = Value reg enc item := by
  unfold ValueLogged Value
  split
  · rfl
  · split
    · rfl
    · split
      · rfl
      · split
        · rfl
        · split <;> rfl

/-- C20: when the wrapped core iterator yields a raw event without error and the
register has no entry for its (aggregate type, reason), `Iterator.Value` returns an error
matching `ErrEventNotRegistered` after the one lookup in the register, without a call of
the codec, whatever the codec; when the core iterator's `Value` itself fails, that error
is returned unchanged, and neither the register nor the codec is consulted. -/
theorem C20_value_not_registered (reg : internal.register π) (enc : Encoder π) :
    (∀ event : core.Event, reg.EventRegistered event = none →
      (∃ err, Value reg enc (.ok event) = .error err
        ∧ Error.Is err Error.ErrEventNotRegistered = true)
      ∧ (ValueLogged reg enc (.ok event)).2
          = [Call.EventRegistered event.AggregateType event.Reason]
      ∧ (∀ bytes, Call.DeserializeData bytes ∉ (ValueLogged reg enc (.ok event)).2)
      ∧ (∀ bytes, Call.DeserializeMetadata bytes ∉ (ValueLogged reg enc (.ok event)).2))
    ∧ (∀ err : Error, Value reg enc (.error err) = .error err
      ∧ (ValueLogged reg enc (.error err)).2 = []) := by
  constructor
  · intro event hmiss
    have hlog : (ValueLogged reg enc (.ok event)).2
        = [Call.EventRegistered event.AggregateType event.Reason] := by
      simp [ValueLogged, hmiss]
    have hval : Value reg enc (.ok event)
        = .error (Error.wrap
            ("event not registered, aggregate type: " ++ event.AggregateType ++ ", reason: "
              ++ event.Reason ++ ", global version: " ++ toString event.GlobalVersion ++ ", ")
            Error.ErrEventNotRegistered) := by
      simp only [Value, hmiss]
    refine ⟨⟨_, hval, by simp [Error.Is]⟩, hlog, ?_, ?_⟩
    · intro bytes
      rw [hlog]
      simp
    · intro bytes
      rw [hlog]
      simp
  · intro err
    exact ⟨rfl, rfl⟩

/-- C20 at a concrete input: the register of `Counter` and a raw event of the reason
`Removed`, which is not registered. -/
theorem C20_value_not_registered_witness :
    Counter.register.EventRegistered (internal.register.probe "Counter" "Removed") = none
    ∧ (ValueLogged Counter.register Counter.encoder
        (.ok (internal.register.probe "Counter" "Removed"))).2
        = [Call.EventRegistered "Counter" "Removed"] :=
  ⟨by decide,
    ((C20_value_not_registered Counter.register Counter.encoder).1
      (internal.register.probe "Counter" "Removed") (by decide)).2.1⟩

end Iterator

/-! ## Type register -/

namespace internal

namespace register

variable {π : Type}

theorem String.append_left_cancel (a x y : String) (h : a ++ x = a ++ y) : x = y := by
  have hd := congrArg String.data h
  simp only [String.data_append] at hd
  exact String.ext (List.append_cancel_left hd)

theorem foldl_insert (aggregateType : String) (fs : List (Dyn π)) (acc : register π) :
    (fs.foldl
      (fun r f => { r with eventsF := (aggregateType ++ "_" ++ f.typeName, f) :: r.eventsF })
      acc).eventsF
      = (fs.reverse.map (fun f => (aggregateType ++ "_" ++ f.typeName, f))) ++ acc.eventsF
    ∧ (fs.foldl
      (fun r f => { r with eventsF := (aggregateType ++ "_" ++ f.typeName, f) :: r.eventsF })
      acc).aggregates = acc.aggregates := by
  induction fs generalizing acc with
  | nil => simp
  | cons f rest ih =>
    obtain ⟨h1, h2⟩ := ih { acc with eventsF := (aggregateType ++ "_" ++ f.typeName, f) :: acc.eventsF }
    simp only [List.foldl_cons]
    refine ⟨?_, h2⟩
    rw [h1]
    simp

theorem Register_eventsF [Inhabited π] (r : register π) (aggregateType : String)
    (exemplars : List (Dyn π)) :
    (r.Register aggregateType exemplars).eventsF
      = (exemplars.reverse.map
          (fun e => (aggregateType ++ "_" ++ e.typeName, eventToFunc e))) ++ r.eventsF
    ∧ (r.Register aggregateType exemplars).aggregates = aggregateType :: r.aggregates := by
  obtain ⟨h1, h2⟩ := foldl_insert aggregateType (exemplars.map eventToFunc)
    { r with aggregates := aggregateType :: r.aggregates }
  refine ⟨?_, h2⟩
  simp only [Register]
  rw [h1]
  simp [List.map_reverse, eventToFunc, Function.comp_def]

theorem lookup_new_key [Inhabited π] (aggregateType : String) (exemplars : List (Dyn π))
    (e : Dyn π) (he : e ∈ exemplars) :
    ∃ e' ∈ exemplars, e'.typeName = e.typeName
      ∧ (exemplars.reverse.map
          (fun x => (aggregateType ++ "_" ++ x.typeName, eventToFunc x))).lookup
          (aggregateType ++ "_" ++ e.typeName) = some (eventToFunc e') := by
  have hsome : ((exemplars.reverse.map
      (fun x => (aggregateType ++ "_" ++ x.typeName, eventToFunc x))).lookup
      (aggregateType ++ "_" ++ e.typeName)).isSome = true := by
    rw [List.lookup_isSome_iff]
    exact ⟨(aggregateType ++ "_" ++ e.typeName, eventToFunc e),
      List.mem_map.mpr ⟨e, List.mem_reverse.mpr he, rfl⟩, by simp⟩
  obtain ⟨f, hf⟩ := Option.isSome_iff_exists.mp hsome
  obtain ⟨l₁, l₂, hsplit, -⟩ := List.lookup_eq_some_iff.mp hf
  have hmem : (aggregateType ++ "_" ++ e.typeName, f)
      ∈ exemplars.reverse.map
          (fun x => (aggregateType ++ "_" ++ x.typeName, eventToFunc x)) := by
    rw [hsplit]
    simp
  obtain ⟨e', he', heq⟩ := List.mem_map.mp hmem
  simp only [Prod.mk.injEq] at heq
  refine ⟨e', List.mem_reverse.mp he', ?_, ?_⟩
  · exact String.append_left_cancel _ _ _ heq.1
  · rw [hf, heq.2]

/-- What `Register(a)` does on any register: `AggregateRegistered(a)` is true afterwards;
for every exemplar `e` the callback lists, `EventRegistered` of a raw event with `a`'s
type name and `e`'s type name returns a constructor of a new zero value of the type of
a listed exemplar with `e`'s name, which is `e`'s dynamic type when all listed exemplars
of that name are of one type; the aggregate types registered before stay registered,
and an event registration made before is still found when its key differs from the keys
the call assigns. On a new register both lookups fail for every input. -/
theorem Register_lookups [Inhabited π] (r : register π) (aggregateType : String)
    (exemplars : List (Dyn π)) :
    (r.Register aggregateType exemplars).AggregateRegistered aggregateType = true
    ∧ (∀ e ∈ exemplars, ∀ event : core.Event, event.AggregateType = aggregateType →
        event.Reason = e.typeName →
        ∃ f, (r.Register aggregateType exemplars).EventRegistered event = some f
          ∧ f.typeName = e.typeName ∧ f.value = default
          ∧ (∃ e' ∈ exemplars, e'.typeName = e.typeName ∧ f.sameType e')
          ∧ ((∀ e' ∈ exemplars, e'.typeName = e.typeName → e'.pkgPath = e.pkgPath) →
              f.sameType e))
    ∧ (∀ t, r.AggregateRegistered t = true →
        (r.Register aggregateType exemplars).AggregateRegistered t = true)
    ∧ (∀ (event : core.Event) (f : Dyn π), r.EventRegistered event = some f →
        (∀ e ∈ exemplars, event.AggregateType ++ "_" ++ event.Reason
          ≠ aggregateType ++ "_" ++ e.typeName) →
        (r.Register aggregateType exemplars).EventRegistered event = some f)
    ∧ (∀ t, (newRegister : register π).AggregateRegistered t = false)
    ∧ (∀ event, (newRegister : register π).EventRegistered event = none) := by
  obtain ⟨hev, hagg⟩ := Register_eventsF r aggregateType exemplars
  refine ⟨?_, ?_, ?_, ?_, ?_, ?_⟩
  · simp [AggregateRegistered, hagg]
  · intro e he event hty hre
    obtain ⟨e', he', hname, hlook⟩ := lookup_new_key aggregateType exemplars e he
    refine ⟨eventToFunc e', ?_, hname, rfl, ⟨e', he', hname, rfl, rfl⟩, fun hsame => ?_⟩
    · simp only [EventRegistered, hev, hty, hre, List.lookup_append, hlook, Option.or_some]
    · exact ⟨hname, hsame e' he' hname⟩
  · intro t ht
    simp only [AggregateRegistered, hagg] at ht ⊢
    have hmem : t ∈ r.aggregates := by simpa using ht
    simp [hmem]
  · intro event f hf hkeys
    have hnone : (exemplars.reverse.map
        (fun x => (aggregateType ++ "_" ++ x.typeName, eventToFunc x))).lookup
        (event.AggregateType ++ "_" ++ event.Reason) = none := by
      rw [List.lookup_eq_none_iff]
      intro p hp
      obtain ⟨x, hx, rfl⟩ := List.mem_map.mp hp
      simpa using hkeys x (List.mem_reverse.mp hx)
    simp only [EventRegistered] at hf
    simp only [EventRegistered, hev, List.lookup_append, hnone, Option.none_or, hf]
  · intro t
    rfl
  · intro event
    rfl

/-- Two exemplars of one name: the aggregate `Order` lists two exemplars named `Created`,
declared in two packages; the key is built from the name alone, the second assignment
replaces the first, and the lookup returns a constructor of the second exemplar's
type. -/
theorem Register_same_name_exemplars :
    ((newRegister : register Nat).Register "Order"
        [{ typeName := "Created", value := 0, pkgPath := "shop/orders" },
         { typeName := "Created", value := 0, pkgPath := "shop/billing" }]).EventRegistered
        (probe "Order" "Created")
      = some { typeName := "Created", value := 0, pkgPath := "shop/billing" }
    ∧ ¬ Dyn.sameType
        ({ typeName := "Created", value := 0, pkgPath := "shop/billing" } : Dyn Nat)
        { typeName := "Created", value := 0, pkgPath := "shop/orders" } :=
  ⟨by decide, by decide⟩

/-- C19: the code at the failing input. The register holds one registration, made by
`Register` of the aggregate `Order`, which lists the event type `Line_Added`: the lookup
for (`Order`, `Line_Added`) returns the constructor of `Line_Added`. Then `Register` of
the aggregate `Order_Line`, which lists the event type `Added`, assigns the same key,
`Order_Line_Added`. The earlier registration is not kept: the lookup for (`Order`,
`Line_Added`) now returns the constructor of `Added`, a value of another type. -/
theorem C19_earlier_registration_is_replaced :
    ((newRegister : register Nat).Register "Order"
        [{ typeName := "Line_Added", value := 0 }]).EventRegistered
        (probe "Order" "Line_Added") = some { typeName := "Line_Added", value := 0 }
    ∧ "Order_Line" ++ "_" ++ "Added" = "Order" ++ "_" ++ "Line_Added"
    ∧ (((newRegister : register Nat).Register "Order"
        [{ typeName := "Line_Added", value := 0 }]).Register "Order_Line"
        [{ typeName := "Added", value := 0 }]).EventRegistered
        (probe "Order" "Line_Added") = some { typeName := "Added", value := 0 }
    ∧ ¬ Dyn.sameType
        ({ typeName := "Added", value := 0 } : Dyn Nat)
        { typeName := "Line_Added", value := 0 } := by
  refine ⟨?_, ?_, ?_, ?_⟩ <;> decide

end register

end internal

/-! ## The bbolt event store -/

namespace bbolt

theorem Save_error_unchanged (db : DB) (events : List core.Event) (e : Error)
    (h : (Save db events).2.2 = some e) :
    (Save db events).1 = db ∧ (Save db events).2.1 = events := by
  cases events with
  | nil => simp [Save] at h
  | cons first rest =>
    simp only [Save] at h ⊢
    split at h
    · exact ⟨by simp [*], by simp [*]⟩
    · rename_i hver
      split at h
      · rename_i hg
        simp only [hver, if_false, hg]
        exact ⟨trivial, trivial⟩
      · simp at h

theorem Save_conflict_iff (db : DB) (first : core.Event) (rest : List core.Event) :
    (Save db (first :: rest)).2.2 = some Error.coreErrConcurrency ↔
      (match ((match db.Bucket (bucketRef first.AggregateType first.AggregateID) with
          | none => db.CreateBucketIfNotExists (bucketRef first.AggregateType first.AggregateID)
          | some _ => db).Bucket (bucketRef first.AggregateType first.AggregateID)).bind
          Bucket.Last with
        | some (_, lastEvent) => lastEvent.Version
        | none => 0) + 1 ≠ first.Version := by
  simp only [Save]
  split
  · rename_i hver
    simp only [true_iff]
    exact hver
  · rename_i hver
    constructor
    · intro h
      split at h <;> simp at h
    · intro h
      exact absurd h hver

/-- C14 at the failing input: the database holds one event, of the aggregate of type
`Order_eu` and id `7`; for the aggregate of type `Order` and id `eu_7` no event is
stored, so `c = 0`, and the slice to save starts at version `c + 1 = 1`; yet Save fails
with `core.ErrConcurrency`, because both aggregates have the bucket `Order_eu_7`. -/
theorem C14_conflict_without_stored_event :
    (Save New [rawEvent "Order_eu" "7" 1 "Created"]).2.2 = none
    ∧ storedFor afterOrderEu "Order" "eu_7" = []
    ∧ storedVersion afterOrderEu "Order" "eu_7" = 0
    ∧ (rawEvent "Order" "eu_7" 1 "Created").Version
        = storedVersion afterOrderEu "Order" "eu_7" + 1
    ∧ bucketRef "Order" "eu_7" = bucketRef "Order_eu" "7"
    ∧ (Save afterOrderEu [rawEvent "Order" "eu_7" 1 "Created"]).2.2
        = some Error.coreErrConcurrency :=
  ⟨by decide, by decide, by decide, by decide, by decide, by decide⟩

/-- C15 at the failing input: in the same database, built from empty by one successful
Save, no event is stored for the aggregate of type `Order` and id `eu_7`; yet the
iterator of `Get("eu_7", "Order", 0)` yields an event, the one of the aggregate of type
`Order_eu` and id `7`. -/
theorem C15_get_yields_another_aggregate :
    (Save New [rawEvent "Order_eu" "7" 1 "Created"]).2.2 = none
    ∧ storedFor afterOrderEu "Order" "eu_7" = []
    ∧ ((Iterator.drain 10 (Get afterOrderEu Context.Background "eu_7" "Order" 0)).map
        (fun r => streamPositions r.2)) = some [("Order_eu", "7", 1)] :=
  ⟨by decide, by decide, by decide⟩

/-- C16 at the failing input: the first event ever saved to a new database, which holds
`G = 0` events, is an event of the aggregate of type `global` and id `event_order`; its
bucket is the bucket of the global event order itself, both `NextSequence` calls count
on the same bucket, and the global version written back is 2, not 1; the event sits in
that bucket twice, under 1 and under 2. -/
theorem C16_first_global_version_is_two :
    bucketRef "global" "event_order" = globalEventOrderBucketName
    ∧ (Save New [rawEvent "global" "event_order" 1 "Created"]).2.2 = none
    ∧ (Save New [rawEvent "global" "event_order" 1 "Created"]).2.1.map
        (fun e => e.GlobalVersion) = [2]
    ∧ ((afterGlobal.Bucket globalEventOrderBucketName).map
        (fun b => b.pairs.map (fun kv => (kv.1, kv.2.GlobalVersion)))) = some [(1, 2), (2, 2)] :=
  ⟨by decide, by decide, by decide, by decide⟩

/-- C17 at the failing input: after that one successful Save, the first invocation of
the fetcher of `All(0)`, read to exhaustion, yields the one stored event twice, with the
global versions 2 and 2. -/
theorem C17_event_yielded_twice :
    (Save New [rawEvent "global" "event_order" 1 "Created"]).2.2 = none
    ∧ (((All 0).fetch 10 afterGlobal).map (fun r => globalVersions r.2)) = some [2, 2]
    ∧ (((All 0).fetch 10 afterGlobal).map (fun r => streamPositions r.2))
        = some [("global", "event_order", 1), ("global", "event_order", 1)] :=
  ⟨by decide, by decide, by decide⟩

/-- C18 at the failing input: the database holds three events, with the global versions
1, 2 and 3; the first invocation of the fetcher of `All(1)` seeks the key
`position(1) = 2` and yields the events 2 and 3, not the event with the global version
1, which is greater than or equal to the start value. -/
theorem C18_start_is_exclusive :
    ((afterThree.Bucket globalEventOrderBucketName).map
        (fun b => b.pairs.map (fun kv => kv.2.GlobalVersion))) = some [1, 2, 3]
    ∧ position 1 = 2
    ∧ (((All 1).fetch 10 afterThree).map (fun r => globalVersions r.2)) = some [2, 3] :=
  ⟨by decide, by decide, by decide⟩

theorem Iterator.drain_positioned (rest pairs : List (Nat × boltEvent)) (sp : Nat)
    (v : boltEvent) (g : Version) (fuel : Nat) (h : rest.length < fuel) :
    (Iterator.drain fuel
      { cursor := some { pairs := pairs, rest := rest }, startPosition := sp, value := some v,
        CurrentGlobalVersion := g }).map (fun r => (r.1.value, r.2))
      = some (none, rest.map (fun kv => .ok (Iterator.decode kv.2))) := by
  induction rest generalizing fuel v g with
  | nil =>
    cases fuel with
    | zero => simp at h
    | succ n => simp [Iterator.drain, Iterator.Next, Cursor.Next]
  | cons kv rest ih =>
    cases fuel with
    | zero => simp at h
    | succ n =>
      have hn : rest.length < n := by simpa using h
      have := ih kv.2 kv.2.GlobalVersion n hn
      simp only [Iterator.drain, Iterator.Next, Cursor.Next, Option.isNone_some, Bool.false_eq_true,
        if_false, Option.isSome_some, if_true, Iterator.Value, List.map_cons]
      cases hd : Iterator.drain n
          { cursor := some { pairs := pairs, rest := rest }, startPosition := sp,
            value := some kv.2, CurrentGlobalVersion := kv.2.GlobalVersion } with
      | none =>
        rw [hd] at this
        simp at this
      | some r =>
        rw [hd] at this
        simp only [Option.map_some', Option.some.injEq, Prod.mk.injEq] at this
        simp [this.1, this.2, Iterator.decode]

/-- Reading an iterator that was not read before, or was read to exhaustion, with
enough fuel: `Next` seeks the start position and the loop yields the values from there
to the end of the bucket, in key order, and leaves `value` nil. -/
theorem Iterator.drain_from_start (pairs rest : List (Nat × boltEvent)) (sp : Nat)
    (g : Version) (fuel : Nat) (h : pairs.length + 1 < fuel) :
    (Iterator.drain fuel
      { cursor := some { pairs := pairs, rest := rest }, startPosition := sp, value := none,
        CurrentGlobalVersion := g }).map (fun r => (r.1.value, r.2))
      = some (none,
          (pairs.dropWhile (fun kv => decide (kv.1 < sp))).map
            (fun kv => .ok (Iterator.decode kv.2))) := by
  cases fuel with
  | zero => simp at h
  | succ n =>
    cases hdw : pairs.dropWhile (fun kv => decide (kv.1 < sp)) with
    | nil => simp [Iterator.drain, Iterator.Next, Cursor.Seek, hdw]
    | cons kv tail =>
      have hlen : tail.length < n := by
        have h1 : (pairs.dropWhile (fun kv => decide (kv.1 < sp))).length ≤ pairs.length :=
          (List.dropWhile_sublist _).length_le
        rw [hdw, List.length_cons] at h1
        omega
      have := Iterator.drain_positioned tail pairs sp kv.2 kv.2.GlobalVersion n hlen
      simp only [Iterator.drain, Iterator.Next, Cursor.Seek, hdw, Option.isNone_none, if_true,
        Option.isSome_some, Iterator.Value, List.map_cons]
      cases hd : Iterator.drain n
          { cursor := some { pairs := pairs, rest := tail }, startPosition := sp,
            value := some kv.2, CurrentGlobalVersion := kv.2.GlobalVersion } with
      | none =>
        rw [hd] at this
        simp at this
      | some r =>
        rw [hd] at this
        simp only [Option.map_some', Option.some.injEq, Prod.mk.injEq] at this
        simp [this.1, this.2, Iterator.decode]

/-- What the first invocation of the fetcher of `All(start)` yields when read to
exhaustion: the values of the bucket of the global event order from the key
`position(start)`, which is `start + 1`, to the end. -/
theorem All_first_fetch (start : Version) (db : DB) (bucket : Bucket) (fuel : Nat)
    (hb : db.Bucket globalEventOrderBucketName = some bucket)
    (hf : bucket.pairs.length + 1 < fuel) :
    ((All start).fetch fuel db).map (fun r => r.2)
      = some ((bucket.pairs.dropWhile (fun kv => decide (kv.1 < position start))).map
          (fun kv => .ok (Iterator.decode kv.2))) := by
  have h := Iterator.drain_from_start bucket.pairs [] (position start) 0 fuel hf
  simp only [Fetcher.fetch, Fetcher.call, hb, All, Iterator.zero, ne_eq, not_true_eq_false,
    if_false]
  cases hd : Iterator.drain fuel
      { cursor := some { pairs := bucket.pairs, rest := [] }, startPosition := position start,
        value := none, CurrentGlobalVersion := 0 } with
  | none =>
    rw [hd] at h
    simp at h
  | some r =>
    rw [hd] at h
    simp only [Option.map_some', Option.some.injEq, Prod.mk.injEq] at h
    simp [h.2]

/-- What the iterator of `Get(id, aggregateType, afterVersion)` yields when read to
exhaustion: nothing when the bucket `aggregateType_id` does not exist, otherwise the
values of that bucket from the key `position(afterVersion)` to the end. -/
theorem Get_drain (db : DB) (ctx : Context) (id aggregateType : String)
    (afterVersion : Version) (fuel : Nat) :
    (db.Bucket (bucketRef aggregateType id) = none →
      (Iterator.drain (fuel + 1) (Get db ctx id aggregateType afterVersion)).map (fun r => r.2)
        = some [])
    ∧ (∀ bucket, db.Bucket (bucketRef aggregateType id) = some bucket →
      bucket.pairs.length + 1 < fuel →
      (Iterator.drain fuel (Get db ctx id aggregateType afterVersion)).map (fun r => r.2)
        = some ((bucket.pairs.dropWhile
            (fun kv => decide (kv.1 < position afterVersion))).map
              (fun kv => .ok (Iterator.decode kv.2)))) := by
  constructor
  · intro hnone
    simp [Get, hnone, Iterator.drain, Iterator.Next, Iterator.zero]
  · intro bucket hb hf
    have h := Iterator.drain_from_start bucket.pairs [] (position afterVersion) 0 fuel hf
    simp only [Get, hb]
    cases hd : Iterator.drain fuel
        { cursor := some { pairs := bucket.pairs, rest := [] },
          startPosition := position afterVersion, value := none,
          CurrentGlobalVersion := 0 } with
    | none =>
      rw [hd] at h
      simp at h
    | some r =>
      rw [hd] at h
      simp only [Option.map_some', Option.some.injEq, Prod.mk.injEq] at h
      simp [h.2]

end bbolt

/-! ## Metadata of a decoded event -/

namespace Iterator

variable {π : Type}

/-- C21, amended: for a registered raw event whose data payload decodes, `Iterator.Value`
looks at the metadata payload only to tell a nil slice from a non-nil one. With a nil
slice it succeeds, the decoded event's `Metadata()` is the empty map, and the codec is
asked to decode the data payload only. With a non-nil slice, the one of length zero
included, the codec is asked to decode the metadata bytes after the data, and Value
returns the codec's error when it fails and the event with the decoded map when it
succeeds. -/
theorem C21_value_metadata (reg : internal.register π) (enc : Encoder π) (event : core.Event)
    (f data : Dyn π)
    (hreg : reg.EventRegistered event = some f)
    (hdata : enc.DeserializeData event.Data f = .ok data) :
    (event.Metadata = none →
      ValueLogged reg enc (.ok event)
        = (.ok { event := event, data := data, metadata := some [] },
           [Call.EventRegistered event.AggregateType event.Reason,
            Call.DeserializeData event.Data])
      ∧ (∀ bytes, Call.DeserializeMetadata bytes ∉ (ValueLogged reg enc (.ok event)).2))
    ∧ (∀ bytes, event.Metadata = some bytes →
      (ValueLogged reg enc (.ok event)).2
        = [Call.EventRegistered event.AggregateType event.Reason,
           Call.DeserializeData event.Data, Call.DeserializeMetadata bytes]
      ∧ (∀ err, enc.DeserializeMetadata bytes (some []) = .error err →
          Value reg enc (.ok event) = .error err)
      ∧ (∀ metadata, enc.DeserializeMetadata bytes (some []) = .ok metadata →
          Value reg enc (.ok event)
            = .ok { event := event, data := data, metadata := metadata })) := by
  constructor
  · intro hnil
    have hlog : ValueLogged reg enc (.ok event)
        = (.ok { event := event, data := data, metadata := some [] },
           [Call.EventRegistered event.AggregateType event.Reason,
            Call.DeserializeData event.Data]) := by
      simp only [ValueLogged, hreg, hdata, hnil]
    refine ⟨hlog, ?_⟩
    intro bytes
    rw [hlog]
    simp
  · intro bytes hsome
    refine ⟨?_, ?_, ?_⟩
    · cases hmeta : enc.DeserializeMetadata bytes (some []) with
      | error err => simp only [ValueLogged, hreg, hdata, hsome, hmeta]
      | ok metadata => simp only [ValueLogged, hreg, hdata, hsome, hmeta]
    · intro err hmeta
      simp only [Value, hreg, hdata, hsome, hmeta]
    · intro metadata hmeta
      simp only [Value, hreg, hdata, hsome, hmeta]

/-- C21, amended, at a concrete input: the stored event of `Counter` with a nil metadata
payload decodes to an event whose metadata is the empty map. -/
theorem C21_value_metadata_witness :
    Counter.register.EventRegistered Counter.nilMetadata
      = some { typeName := "Added", value := 0 }
    ∧ Counter.encoder.DeserializeData Counter.nilMetadata.Data { typeName := "Added", value := 0 }
      = .ok { typeName := "Added", value := 1 }
    ∧ ValueLogged Counter.register Counter.encoder (.ok Counter.nilMetadata)
        = (.ok { event := Counter.nilMetadata, data := { typeName := "Added", value := 1 },
                 metadata := some [] },
           [Call.EventRegistered "Counter" "Added", Call.DeserializeData [1]]) :=
  ⟨rfl, rfl,
    ((C21_value_metadata Counter.register Counter.encoder Counter.nilMetadata
      { typeName := "Added", value := 0 } { typeName := "Added", value := 1 } rfl rfl).1 rfl).1⟩

/-- C21 as stated fails for a metadata payload that is an empty slice but not a nil one:
the event is registered, its data payload decodes and its metadata payload has length
zero, yet the codec is asked to decode the empty metadata bytes, and as this codec
refuses them `Iterator.Value` fails. -/
theorem C21_empty_slice_is_handed_to_the_codec :
    (Counter.register.EventRegistered Counter.emptyMetadata).isSome = true
    ∧ Counter.encoder.DeserializeData Counter.emptyMetadata.Data
        { typeName := "Added", value := 0 } = .ok { typeName := "Added", value := 1 }
    ∧ Counter.emptyMetadata.Metadata.map List.length = some 0
    ∧ Call.DeserializeMetadata []
        ∈ (ValueLogged Counter.register Counter.encoder (.ok Counter.emptyMetadata)).2
    ∧ Value Counter.register Counter.encoder (.ok Counter.emptyMetadata)
        = .error (Error.backend 4) := by
  refine ⟨rfl, rfl, rfl, ?_, rfl⟩
  decide

end Iterator

/-! ## Setting the aggregate id -/

namespace aggregate

variable {π : Type}

/-- C25, amended: for every Root that has no id, every non-empty string `a` and every
string `b`, `SetID(a)` succeeds and makes `ID()` return `a`, and a following `SetID(b)`
fails with `ErrAggregateAlreadyExists` and leaves `ID()` equal to `a`; neither call
touches the versions or the buffer. -/
theorem C25_set_id_once (ar : Root π) (a b : String)
    (hno : ar.id = emptyID) (ha : a ≠ emptyID) :
    (ar.SetID a).2 = none
    ∧ (ar.SetID a).1.ID = a
    ∧ ((ar.SetID a).1.SetID b).2 = some Error.ErrAggregateAlreadyExists
    ∧ ((ar.SetID a).1.SetID b).1.ID = a
    ∧ ((ar.SetID a).1.SetID b).1 = { ar with id := a } := by
  have hfirst : ar.SetID a = ({ ar with id := a }, none) := by
    simp [Root.SetID, hno]
  have hsecond : Root.SetID { ar with id := a } b
      = ({ ar with id := a }, some Error.ErrAggregateAlreadyExists) := by
    simp [Root.SetID, ha]
  rw [hfirst]
  refine ⟨rfl, rfl, ?_, ?_, ?_⟩
  · show (Root.SetID { ar with id := a } b).2 = _
    rw [hsecond]
  · show (Root.SetID { ar with id := a } b).1.ID = _
    rw [hsecond]
    rfl
  · show (Root.SetID { ar with id := a } b).1 = _
    rw [hsecond]

/-- C25, amended, at a concrete input: the root of a zero-value `Counter`, `SetID("c-1")`
and then `SetID("c-2")`. -/
theorem C25_set_id_once_witness :
    Counter.fresh.root.id = emptyID
    ∧ "c-1" ≠ emptyID
    ∧ ((Counter.fresh.root.SetID "c-1").1.SetID "c-2").2 = some Error.ErrAggregateAlreadyExists
    ∧ ((Counter.fresh.root.SetID "c-1").1.SetID "c-2").1.ID = "c-1" :=
  ⟨rfl, by decide,
    (C25_set_id_once Counter.fresh.root "c-1" "c-2" rfl (by decide)).2.2.1,
    (C25_set_id_once Counter.fresh.root "c-1" "c-2" rfl (by decide)).2.2.2.1⟩

/-- C25 as stated fails for the empty string: on a Root without an id `SetID("")`
succeeds and `ID()` returns the empty string, but the Root still counts as having no id,
so the following `SetID("c-2")` succeeds as well and `ID()` becomes `"c-2"`. -/
theorem C25_empty_id_can_be_set_again :
    Counter.fresh.root.id = emptyID
    ∧ (Counter.fresh.root.SetID "").2 = none
    ∧ (Counter.fresh.root.SetID "").1.ID = ""
    ∧ ((Counter.fresh.root.SetID "").1.SetID "c-2").2 = none
    ∧ ((Counter.fresh.root.SetID "").1.SetID "c-2").1.ID = "c-2" := by
  refine ⟨rfl, ?_, ?_, ?_, ?_⟩ <;> decide

end aggregate

/-! ## Projections -/

namespace Projection

variable {φ κ π : Type}

theorem getLast?_toList_append_cons {α : Type} (last : Option α) (x : α) (xs : List α) :
    (last.toList ++ x :: xs).getLast? = ((some x).toList ++ xs).getLast? := by
  cases last with
  | none => rfl
  | some y =>
    show ([y] ++ x :: xs).getLast? = ([x] ++ xs).getLast?
    rw [List.getLast?_append_of_ne_nil _ (by simp)]
    rfl

/-- The calls of the callback in one pass of the loop of `RunOnce`: a run of calls that
returned nil, followed by at most one call that returned an error, which is then the
error of the result; the last handled event is the last event of the run, or the one
handled before the pass. -/
theorem RunOnce.loop_handled (reg : internal.register π) (enc : Encoder π)
    (p : Projection φ κ π) (items : List (Except Error core.Event)) :
    ∀ (st : State φ κ π) (ran : Bool) (last : Option (Event π)),
    ∃ oks : List (Event π),
      (RunOnce.loop reg enc p items st ran last).2.2.LastHandledEvent
        = (last.toList ++ oks).getLast?
      ∧ ((RunOnce.loop reg enc p items st ran last).1.handled
            = st.handled ++ oks.map (fun e => (e, none))
        ∨ ∃ e err, (RunOnce.loop reg enc p items st ran last).1.handled
              = st.handled ++ oks.map (fun e => (e, none)) ++ [(e, some err)]
            ∧ (RunOnce.loop reg enc p items st ran last).2.2.Error = some err
            ∧ (RunOnce.loop reg enc p items st ran last).2.1 = false) := by
  induction items with
  | nil =>
    intro st ran last
    refine ⟨[], ?_, Or.inl (by simp [RunOnce.loop])⟩
    cases last <;> rfl
  | cons item rest ih =>
    intro st ran last
    cases hv : Iterator.Value reg enc item with
    | error verr =>
      by_cases his : Error.Is verr Error.ErrEventNotRegistered = true
      · by_cases hs : p.Strict = true
        · refine ⟨[], ?_, Or.inl (by simp [RunOnce.loop, hv, his, hs])⟩
          simp only [RunOnce.loop, hv, his, hs, if_true]
          cases last <;> rfl
        · obtain ⟨oks, hlast, hh⟩ := ih st true last
          refine ⟨oks, ?_, ?_⟩
          · simpa only [RunOnce.loop, hv, his, hs, if_true, if_false] using hlast
          · simpa only [RunOnce.loop, hv, his, hs, if_true, if_false] using hh
      · refine ⟨[], ?_, Or.inl (by simp [RunOnce.loop, hv, his])⟩
        simp only [RunOnce.loop, hv, his, if_false]
        cases last <;> rfl
    | ok event =>
      rcases hc : p.callbackF st.callback event with ⟨k, _ | cerr⟩
      · obtain ⟨oks, hlast, hh⟩ := ih
          { st with callback := k, handled := st.handled ++ [(event, none)] } true (some event)
        refine ⟨event :: oks, ?_, ?_⟩
        · simp only [RunOnce.loop, hv, hc]
          rw [hlast, getLast?_toList_append_cons]
        · simp only [RunOnce.loop, hv, hc]
          rcases hh with hh | ⟨e, err, hh, herr, hran⟩
          · exact Or.inl (by rw [hh]; simp)
          · exact Or.inr ⟨e, err, by rw [hh]; simp, herr, hran⟩
      · refine ⟨[], ?_, Or.inr ⟨event, cerr, ?_, ?_, ?_⟩⟩
        · simp only [RunOnce.loop, hv, hc]
          cases last <;> rfl
        · simp [RunOnce.loop, hv, hc]
        · simp [RunOnce.loop, hv, hc]
        · simp [RunOnce.loop, hv, hc]

/-- C23: in every `RunOnce`, whatever the fetcher yields: if the callback returns an
error on the call number `i` (counted from 0) that this RunOnce makes, RunOnce returns
exactly that error, that call is the last one, every call before it returned nil, and
`LastHandledEvent` is the event of the call before it, the zero event when there is
none; when RunOnce returns no error, every call of the callback returned nil and
`LastHandledEvent` is the event of the last call, the zero event if there was none. -/
theorem C23_run_once_callback_error (reg : internal.register π) (enc : Encoder π)
    (p : Projection φ κ π) (st : State φ κ π) :
    (∀ (i : Nat) (e : Event π) (err : Error),
      (RunOnce.calls reg enc p st)[i]? = some (e, some err) →
        (RunOnce reg enc p st).2.2.Error = some err
        ∧ (RunOnce.calls reg enc p st).length = i + 1
        ∧ (∀ entry ∈ (RunOnce.calls reg enc p st).take i, entry.2 = none)
        ∧ (RunOnce reg enc p st).2.2.LastHandledEvent
            = (((RunOnce.calls reg enc p st).take i).getLast?).map Prod.fst)
    ∧ ((RunOnce reg enc p st).2.2.Error = none →
        (∀ entry ∈ RunOnce.calls reg enc p st, entry.2 = none)
        ∧ (RunOnce reg enc p st).2.2.LastHandledEvent
            = ((RunOnce.calls reg enc p st).getLast?).map Prod.fst) := by
  rcases hf : p.fetchF st.fetch with ⟨fetch, ferr | coreIterator⟩
  · have hcalls : RunOnce.calls reg enc p st = [] := by
      simp [RunOnce.calls, RunOnce, hf]
    rw [hcalls]
    refine ⟨fun i e err h => by simp at h, fun h => ?_⟩
    simp [RunOnce, hf] at h
  · obtain ⟨oks, hlast, hh⟩ := RunOnce.loop_handled reg enc p coreIterator
      { st with fetch := fetch, fetches := st.fetches + 1 } false none
    have hrun : RunOnce reg enc p st
        = RunOnce.loop reg enc p coreIterator
            { st with fetch := fetch, fetches := st.fetches + 1 } false none := by
      simp only [RunOnce, hf]
    have hlast' : (RunOnce reg enc p st).2.2.LastHandledEvent = oks.getLast? := by
      rw [hrun, hlast]
      rfl
    rcases hh with hh | ⟨e', err', hh, herr, _⟩
    · have hcalls : RunOnce.calls reg enc p st = oks.map (fun e => (e, none)) := by
        simp only [RunOnce.calls, hrun, hh]
        exact List.drop_left _ _
      rw [hcalls, hlast']
      refine ⟨fun i e err h => ?_, fun _ => ⟨?_, ?_⟩⟩
      · rw [List.getElem?_map] at h
        cases hoi : oks[i]? with
        | none => simp [hoi] at h
        | some x => simp [hoi] at h
      · intro entry hentry
        obtain ⟨x, _, hx⟩ := List.mem_map.mp hentry
        rw [← hx]
      · rw [List.getLast?_map]
        cases oks.getLast? <;> rfl
    · have hcalls : RunOnce.calls reg enc p st
          = oks.map (fun e => (e, none)) ++ [(e', some err')] := by
        simp only [RunOnce.calls, hrun, hh, List.append_assoc]
        exact List.drop_left _ _
      have herr' : (RunOnce reg enc p st).2.2.Error = some err' := by rw [hrun, herr]
      rw [hcalls, hlast', herr']
      refine ⟨fun i e err h => ?_, fun h => by simp at h⟩
      have hi : i = oks.length := by
        rcases Nat.lt_trichotomy i oks.length with hlt | heq | hgt
        · rw [List.getElem?_append_left (by simpa using hlt), List.getElem?_map] at h
          cases hoi : oks[i]? with
          | none => simp [hoi] at h
          | some x => simp [hoi] at h
        · exact heq
        · rw [List.getElem?_eq_none (by simp; omega)] at h
          simp at h
      subst hi
      have htake : (oks.map (fun e => ((e, none) : Event π × Option Error))
          ++ [(e', some err')]).take oks.length = oks.map (fun e => (e, none)) := by
        rw [List.take_append_of_le_length (by simp)]
        exact List.take_of_length_le (by simp)
      rw [htake]
      have hentry : (e, some err) = (e', some err') := by
        rw [List.getElem?_append_right (by simp)] at h
        simpa using h.symm
      refine ⟨?_, by simp, ?_, ?_⟩
      · rw [(Prod.mk.inj hentry).2]
      · intro entry hentry
        obtain ⟨x, _, hx⟩ := List.mem_map.mp hentry
        rw [← hx]
      · rw [List.getLast?_map]
        cases oks.getLast? <;> rfl

/-- C23 at a concrete input: the stream of `c-1` holds `Added{1}` and `Added{2}`, the
callback refuses the amount 2: RunOnce returns the error of the callback and reports the
first event as the last handled one. -/
theorem C23_run_once_callback_error_witness :
    (RunOnce.calls Counter.register Counter.encoder (Counter.projection true Counter.refusingTwo)
        (State.init [Counter.addedEvent 1 1 1, Counter.addedEvent 2 2 2] []))[1]?
      = some (Counter.addedDecoded 2 2 2, some (Error.errorf "amount 2 refused"))
    ∧ (RunOnce Counter.register Counter.encoder (Counter.projection true Counter.refusingTwo)
        (State.init [Counter.addedEvent 1 1 1, Counter.addedEvent 2 2 2] [])).2.2.Error
      = some (Error.errorf "amount 2 refused")
    ∧ (RunOnce Counter.register Counter.encoder (Counter.projection true Counter.refusingTwo)
        (State.init [Counter.addedEvent 1 1 1, Counter.addedEvent 2 2 2] [])).2.2.LastHandledEvent
      = some (Counter.addedDecoded 1 1 1) :=
  ⟨by decide,
    ((C23_run_once_callback_error Counter.register Counter.encoder
      (Counter.projection true Counter.refusingTwo)
      (State.init [Counter.addedEvent 1 1 1, Counter.addedEvent 2 2 2] [])).1 1
      (Counter.addedDecoded 2 2 2) (Error.errorf "amount 2 refused") (by decide)).1,
    by decide⟩

end Projection

namespace Projection

variable {φ κ π : Type}

theorem Value_not_registered (reg : internal.register π) (enc : Encoder π) (raw : core.Event)
    (h : reg.EventRegistered raw = none) :
    ∃ err, Iterator.Value reg enc (.ok raw) = .error err
      ∧ Error.Is err Error.ErrEventNotRegistered = true := by
  refine ⟨Error.wrap
    ("event not registered, aggregate type: " ++ raw.AggregateType ++ ", reason: "
      ++ raw.Reason ++ ", global version: " ++ toString raw.GlobalVersion ++ ", ")
    Error.ErrEventNotRegistered, ?_, ?_⟩
  · simp only [Iterator.Value, h]
  · simp [Error.Is]

theorem Value_ok_registered (reg : internal.register π) (enc : Encoder π) (raw : core.Event)
    (dec : Event π) (h : Iterator.Value reg enc (.ok raw) = .ok dec) :
    (reg.EventRegistered raw).isSome = true := by
  cases hreg : reg.EventRegistered raw with
  | none =>
    obtain ⟨err, herr, _⟩ := Value_not_registered reg enc raw hreg
    rw [herr] at h
    cases h
  | some f => rfl

/-- A lenient pass over raw events whose registered members decode, with a callback that
never fails: the callback is called on the decoded registered events, in order. -/
theorem RunOnce.loop_lenient (reg : internal.register π) (enc : Encoder π)
    (p : Projection φ κ π) (hstrict : p.Strict = false)
    (hcb : ∀ k e, (p.callbackF k e).2 = none) (raws : List core.Event)
    (hdec : ∀ raw ∈ raws, (reg.EventRegistered raw).isSome = true →
      ∃ dec, Iterator.Value reg enc (.ok raw) = .ok dec) :
    ∀ (st : State φ κ π) (ran : Bool) (last : Option (Event π)),
    ∃ decs : List (Event π),
      (RunOnce.loop reg enc p (raws.map .ok) st ran last).2.2
        = { Error := none, Name := p.Name, LastHandledEvent := (last.toList ++ decs).getLast? }
      ∧ (RunOnce.loop reg enc p (raws.map .ok) st ran last).1.handled
        = st.handled ++ decs.map (fun e => (e, none))
      ∧ decs.map (fun dec => dec.event)
        = raws.filter (fun raw => (reg.EventRegistered raw).isSome)
      ∧ (raws ≠ [] → (RunOnce.loop reg enc p (raws.map .ok) st ran last).2.1 = true)
      ∧ (raws = [] → (RunOnce.loop reg enc p (raws.map .ok) st ran last).2.1 = ran) := by
  induction raws with
  | nil =>
    intro st ran last
    refine ⟨[], ?_, by simp [RunOnce.loop], rfl, fun h => absurd rfl h, fun _ => rfl⟩
    simp only [List.map_nil, RunOnce.loop, List.append_nil]
    cases last <;> rfl
  | cons raw rest ih =>
    intro st ran last
    have hrest : ∀ r ∈ rest, (reg.EventRegistered r).isSome = true →
        ∃ dec, Iterator.Value reg enc (.ok r) = .ok dec :=
      fun r hr => hdec r (List.mem_cons_of_mem _ hr)
    cases hreg : reg.EventRegistered raw with
    | none =>
      obtain ⟨err, herr, his⟩ := Value_not_registered reg enc raw hreg
      obtain ⟨decs, hres, hh, hev, hran, hran0⟩ := ih hrest st true last
      have hstep : RunOnce.loop reg enc p ((raw :: rest).map .ok) st ran last
          = RunOnce.loop reg enc p (rest.map .ok) st true last := by
        simp only [List.map_cons, RunOnce.loop, herr, his, hstrict, if_true]
        rfl
      rw [hstep]
      refine ⟨decs, hres, hh, ?_, fun _ => ?_, fun h => by cases h⟩
      · rw [hev, List.filter_cons_of_neg (by simp [hreg])]
      · by_cases hnil : rest = []
        · exact hran0 hnil
        · exact hran hnil
    | some f =>
      obtain ⟨dec, hval⟩ := hdec raw (List.mem_cons_self _ _) (by rw [hreg]; rfl)
      have hc : p.callbackF st.callback dec = ((p.callbackF st.callback dec).1, none) := by
        rw [← hcb st.callback dec]
      obtain ⟨decs, hres, hh, hev, hran, hran0⟩ := ih hrest
        { st with callback := (p.callbackF st.callback dec).1,
                  handled := st.handled ++ [(dec, none)] } true (some dec)
      have hstep : RunOnce.loop reg enc p ((raw :: rest).map .ok) st ran last
          = RunOnce.loop reg enc p (rest.map .ok)
              { st with callback := (p.callbackF st.callback dec).1,
                        handled := st.handled ++ [(dec, none)] } true (some dec) := by
        simp only [List.map_cons, RunOnce.loop, hval]
        rw [hc]
      rw [hstep]
      refine ⟨dec :: decs, ?_, ?_, ?_, fun _ => ?_, fun h => by cases h⟩
      · rw [hres, getLast?_toList_append_cons]
      · rw [hh]
        simp
      · rw [List.map_cons, hev, List.filter_cons_of_pos (by simp [hreg]),
          aggregate.Iterator.Value_event reg enc raw dec hval]
      · by_cases hnil : rest = []
        · exact hran0 hnil
        · exact hran hnil

/-- A strict pass over raw events of which `u` is the first unregistered one, the events
before it decoding and the callback not failing: the callback is called on the decoded
events before `u`, and the pass returns the error of the register miss. -/
theorem RunOnce.loop_strict (reg : internal.register π) (enc : Encoder π)
    (p : Projection φ κ π) (hstrict : p.Strict = true)
    (hcb : ∀ k e, (p.callbackF k e).2 = none) (pre : List core.Event) (u : core.Event)
    (post : List core.Event)
    (hpre : ∀ raw ∈ pre, ∃ dec, Iterator.Value reg enc (.ok raw) = .ok dec)
    (hu : reg.EventRegistered u = none) :
    ∀ (st : State φ κ π) (ran : Bool) (last : Option (Event π)),
    ∃ (decs : List (Event π)) (err : Error),
      (RunOnce.loop reg enc p ((pre ++ u :: post).map .ok) st ran last).2.2
        = { Error := some err, Name := p.Name,
            LastHandledEvent := (last.toList ++ decs).getLast? }
      ∧ Error.Is err Error.ErrEventNotRegistered = true
      ∧ (RunOnce.loop reg enc p ((pre ++ u :: post).map .ok) st ran last).1.handled
        = st.handled ++ decs.map (fun e => (e, none))
      ∧ decs.map (fun dec => dec.event) = pre
      ∧ (RunOnce.loop reg enc p ((pre ++ u :: post).map .ok) st ran last).2.1 = false := by
  induction pre with
  | nil =>
    intro st ran last
    obtain ⟨err, herr, his⟩ := Value_not_registered reg enc u hu
    refine ⟨[], err, ?_, his, ?_, rfl, ?_⟩
    · simp only [List.nil_append, List.map_cons, RunOnce.loop, herr, his, hstrict, if_true,
        List.append_nil]
      cases last <;> rfl
    · simp [RunOnce.loop, herr, his, hstrict]
    · simp [RunOnce.loop, herr, his, hstrict]
  | cons raw rest ih =>
    intro st ran last
    obtain ⟨dec, hval⟩ := hpre raw (List.mem_cons_self _ _)
    have hc : p.callbackF st.callback dec = ((p.callbackF st.callback dec).1, none) := by
      rw [← hcb st.callback dec]
    obtain ⟨decs, err, hres, his, hh, hev, hran⟩ :=
      ih (fun r hr => hpre r (List.mem_cons_of_mem _ hr))
        { st with callback := (p.callbackF st.callback dec).1,
                  handled := st.handled ++ [(dec, none)] } true (some dec)
    have hstep : RunOnce.loop reg enc p ((raw :: rest ++ u :: post).map .ok) st ran last
        = RunOnce.loop reg enc p ((rest ++ u :: post).map .ok)
            { st with callback := (p.callbackF st.callback dec).1,
                      handled := st.handled ++ [(dec, none)] } true (some dec) := by
      simp only [List.cons_append, List.map_cons, RunOnce.loop, hval]
      rw [hc]
      rfl
    rw [hstep]
    refine ⟨dec :: decs, err, ?_, his, ?_, ?_, hran⟩
    · rw [hres, getLast?_toList_append_cons]
    · rw [hh]
      simp
    · rw [List.map_cons, hev, aggregate.Iterator.Value_event reg enc raw dec hval]

theorem RunOnce_of_fetch (reg : internal.register π) (enc : Encoder π) (p : Projection φ κ π)
    (st : State φ κ π) (fetch : φ) (coreIterator : core.Iterator)
    (hfetch : p.fetchF st.fetch = (fetch, .ok coreIterator)) :
    RunOnce reg enc p st
      = RunOnce.loop reg enc p coreIterator
          { st with fetch := fetch, fetches := st.fetches + 1 } false none := by
  simp only [RunOnce, hfetch]

/-- C22, amended: strict versus lenient projections. For every sequence of raw events
yielded by the fetcher in which each registered event decodes, and a callback that never
fails: with `Strict = false`, RunOnce returns no error and has called the callback, in
stream order, on exactly the events whose (aggregate type, reason) is registered, the
unregistered ones being skipped and the events after them still processed; with
`Strict = true`, when `u` is the first unregistered event of the sequence, RunOnce
returns an error matching `ErrEventNotRegistered` and has called the callback on the
events before `u`, in order, and on no event at or after it. -/
theorem C22_strict_and_lenient (reg : internal.register π) (enc : Encoder π)
    (p : Projection φ κ π) (st : State φ κ π) (fetch : φ) (raws : List core.Event)
    (hfetch : p.fetchF st.fetch = (fetch, .ok (raws.map .ok)))
    (hdec : ∀ raw ∈ raws, (reg.EventRegistered raw).isSome = true →
      ∃ dec, Iterator.Value reg enc (.ok raw) = .ok dec)
    (hcb : ∀ k e, (p.callbackF k e).2 = none) :
    (p.Strict = false →
      (RunOnce reg enc p st).2.2.Error = none
      ∧ (RunOnce.calls reg enc p st).map (fun call => call.1.event)
          = raws.filter (fun raw => (reg.EventRegistered raw).isSome)
      ∧ (∀ call ∈ RunOnce.calls reg enc p st, call.2 = none))
    ∧ (p.Strict = true → ∀ (pre : List core.Event) (u : core.Event) (post : List core.Event),
        raws = pre ++ u :: post →
        (∀ raw ∈ pre, (reg.EventRegistered raw).isSome = true) →
        reg.EventRegistered u = none →
        (∃ err, (RunOnce reg enc p st).2.2.Error = some err
          ∧ Error.Is err Error.ErrEventNotRegistered = true)
        ∧ (RunOnce.calls reg enc p st).map (fun call => call.1.event) = pre
        ∧ (∀ call ∈ RunOnce.calls reg enc p st, call.2 = none)) := by
  have hrun := RunOnce_of_fetch reg enc p st fetch (raws.map .ok) hfetch
  constructor
  · intro hstrict
    obtain ⟨decs, hres, hh, hev, _, _⟩ := RunOnce.loop_lenient reg enc p hstrict hcb raws hdec
      { st with fetch := fetch, fetches := st.fetches + 1 } false none
    have hcalls : RunOnce.calls reg enc p st = decs.map (fun e => (e, none)) := by
      simp only [RunOnce.calls, hrun, hh]
      exact List.drop_left _ _
    rw [hcalls, hrun, hres]
    refine ⟨rfl, ?_, ?_⟩
    · rw [List.map_map, ← hev]
      rfl
    · intro call hcall
      obtain ⟨x, _, hx⟩ := List.mem_map.mp hcall
      rw [← hx]
  · intro hstrict pre u post hraws hpre hu
    subst hraws
    have hpre' : ∀ raw ∈ pre, ∃ dec, Iterator.Value reg enc (.ok raw) = .ok dec :=
      fun raw hraw => hdec raw (List.mem_append_left _ hraw) (hpre raw hraw)
    obtain ⟨decs, err, hres, his, hh, hev, _⟩ :=
      RunOnce.loop_strict reg enc p hstrict hcb pre u post hpre' hu
        { st with fetch := fetch, fetches := st.fetches + 1 } false none
    have hcalls : RunOnce.calls reg enc p st = decs.map (fun e => (e, none)) := by
      simp only [RunOnce.calls, hrun, hh]
      exact List.drop_left _ _
    rw [hcalls, hrun, hres]
    refine ⟨⟨err, rfl, his⟩, ?_, ?_⟩
    · rw [List.map_map, ← hev]
      rfl
    · intro call hcall
      obtain ⟨x, _, hx⟩ := List.mem_map.mp hcall
      rw [← hx]

theorem Counter.Value_addedEvent (version globalVersion : Version) (amount : Nat) :
    Iterator.Value Counter.register Counter.encoder
        (.ok (Counter.addedEvent version globalVersion amount))
      = .ok (Counter.addedDecoded version globalVersion amount) := rfl

theorem Counter.removedEvent_not_registered (version globalVersion : Version) :
    Counter.register.EventRegistered (Counter.removedEvent version globalVersion) = none := by
  have h : Counter.register.eventsF.lookup "Counter_Removed" = none := by decide
  exact h

/-- C22, amended, at a concrete input: the stream `Added{1}`, `Removed`, `Added{3}` of
`c-1`, of which `Removed` is not registered, and the callback that records global
versions: the lenient projection calls the callback on the first and the third event. -/
theorem C22_strict_and_lenient_witness :
    (Counter.projection false Counter.recorder).fetchF
        [Counter.addedEvent 1 1 1, Counter.removedEvent 2 2, Counter.addedEvent 3 3 3]
      = ([], .ok ([Counter.addedEvent 1 1 1, Counter.removedEvent 2 2,
                   Counter.addedEvent 3 3 3].map .ok))
    ∧ (RunOnce Counter.register Counter.encoder (Counter.projection false Counter.recorder)
        (State.init [Counter.addedEvent 1 1 1, Counter.removedEvent 2 2,
                     Counter.addedEvent 3 3 3] [])).2.2.Error = none
    ∧ (RunOnce.calls Counter.register Counter.encoder
        (Counter.projection false Counter.recorder)
        (State.init [Counter.addedEvent 1 1 1, Counter.removedEvent 2 2,
                     Counter.addedEvent 3 3 3] [])).map (fun call => call.1.event)
      = [Counter.addedEvent 1 1 1, Counter.addedEvent 3 3 3] :=
  ⟨rfl,
    ((C22_strict_and_lenient Counter.register Counter.encoder
      (Counter.projection false Counter.recorder)
      (State.init [Counter.addedEvent 1 1 1, Counter.removedEvent 2 2,
                   Counter.addedEvent 3 3 3] []) []
      [Counter.addedEvent 1 1 1, Counter.removedEvent 2 2, Counter.addedEvent 3 3 3] rfl
      (by
        intro raw hraw hreg
        simp only [List.mem_cons, List.mem_singleton, List.not_mem_nil, or_false] at hraw
        rcases hraw with h | h | h
        · exact ⟨_, by rw [h]; exact Counter.Value_addedEvent 1 1 1⟩
        · rw [h, Counter.removedEvent_not_registered] at hreg
          cases hreg
        · exact ⟨_, by rw [h]; exact Counter.Value_addedEvent 3 3 3⟩)
      (fun _ _ => rfl)).1 rfl).1,
    by decide⟩

/-- C22 as stated fails when a registered event does not decode, and its strict half
also when the callback fails before the first unregistered event. With the callback that
never fails, the lenient projection over `Added` with a broken payload followed by
`Added{2}` returns the error of the codec and calls the callback on neither event,
though both are registered; the strict projection over the broken `Added` followed by
the unregistered `Removed` returns the error of the codec, which does not match
`ErrEventNotRegistered`. With the callback that refuses the amount 2, the strict
projection over `Added{2}` followed by `Removed` returns the error of the callback. -/
theorem C22_decode_error_aborts_either_mode :
    ((RunOnce Counter.register Counter.encoder (Counter.projection false Counter.recorder)
        (State.init [Counter.brokenEvent 1 1, Counter.addedEvent 2 2 2] [])).2.2.Error
        = some (Error.backend 3)
      ∧ RunOnce.calls Counter.register Counter.encoder
          (Counter.projection false Counter.recorder)
          (State.init [Counter.brokenEvent 1 1, Counter.addedEvent 2 2 2] []) = []
      ∧ [Counter.brokenEvent 1 1, Counter.addedEvent 2 2 2].filter
          (fun raw => (Counter.register.EventRegistered raw).isSome)
        = [Counter.brokenEvent 1 1, Counter.addedEvent 2 2 2])
    ∧ ((RunOnce Counter.register Counter.encoder (Counter.projection true Counter.recorder)
        (State.init [Counter.brokenEvent 1 1, Counter.removedEvent 2 2] [])).2.2.Error
        = some (Error.backend 3)
      ∧ Error.Is (Error.backend 3) Error.ErrEventNotRegistered = false)
    ∧ ((RunOnce Counter.register Counter.encoder (Counter.projection true Counter.refusingTwo)
        (State.init [Counter.addedEvent 1 1 2, Counter.removedEvent 2 2] [])).2.2.Error
        = some (Error.errorf "amount 2 refused")
      ∧ Error.Is (Error.errorf "amount 2 refused") Error.ErrEventNotRegistered = false) := by
  refine ⟨⟨?_, ?_, ?_⟩, ⟨?_, ?_⟩, ⟨?_, ?_⟩⟩ <;> decide

end Projection

namespace Projection

variable {φ κ π : Type}

theorem Context.done_of_uncancelled (ctx : Context) (h : ctx.cancelledFrom = none) (i : Nat) :
    ctx.done i = false := by
  simp [Context.done, h]

/-- A pass, strict or lenient, over raw events that all decode, with a callback that
never fails: the callback is called on each decoded event, in order, and the pass ends
without an error. -/
theorem RunOnce.loop_decoded (reg : internal.register π) (enc : Encoder π)
    (p : Projection φ κ π) (hcb : ∀ k e, (p.callbackF k e).2 = none)
    (raws : List core.Event) (decs : List (Event π))
    (hdec : List.Forall₂ (fun raw dec => Iterator.Value reg enc (.ok raw) = .ok dec) raws decs) :
    ∀ (st : State φ κ π) (ran : Bool) (last : Option (Event π)),
      (RunOnce.loop reg enc p (raws.map .ok) st ran last).2.2
        = { Error := none, Name := p.Name, LastHandledEvent := (last.toList ++ decs).getLast? }
      ∧ (RunOnce.loop reg enc p (raws.map .ok) st ran last).1.handled
        = st.handled ++ decs.map (fun e => (e, none))
      ∧ (RunOnce.loop reg enc p (raws.map .ok) st ran last).1.fetch = st.fetch
      ∧ (raws ≠ [] → (RunOnce.loop reg enc p (raws.map .ok) st ran last).2.1 = true)
      ∧ (raws = [] → (RunOnce.loop reg enc p (raws.map .ok) st ran last).2.1 = ran) := by
  induction hdec with
  | nil =>
    intro st ran last
    refine ⟨?_, by simp [RunOnce.loop], rfl, fun h => absurd rfl h, fun _ => rfl⟩
    simp only [List.map_nil, RunOnce.loop, List.append_nil]
    cases last <;> rfl
  | @cons raw dec rest decs hval _ ih =>
    intro st ran last
    have hc : p.callbackF st.callback dec = ((p.callbackF st.callback dec).1, none) := by
      rw [← hcb st.callback dec]
    obtain ⟨hres, hh, hf, hran, hran0⟩ := ih
      { st with callback := (p.callbackF st.callback dec).1,
                handled := st.handled ++ [(dec, none)] } true (some dec)
    have hstep : RunOnce.loop reg enc p ((raw :: rest).map .ok) st ran last
        = RunOnce.loop reg enc p (rest.map .ok)
            { st with callback := (p.callbackF st.callback dec).1,
                      handled := st.handled ++ [(dec, none)] } true (some dec) := by
      simp only [List.map_cons, RunOnce.loop, hval]
      rw [hc]
    rw [hstep]
    refine ⟨?_, ?_, hf, fun _ => ?_, fun h => by cases h⟩
    · rw [hres, getLast?_toList_append_cons]
    · rw [hh]
      simp
    · by_cases hnil : rest = []
      · exact hran0 hnil
      · exact hran hnil

/-- C24, amended: projection catch-up. For every finite global stream whose events all
decode and whose last event has a global version other than 0, a fetcher that yields the
whole stream on its first call and nothing on the next, an uncancelled context and a
callback that never fails: RunToEnd returns after two passes (any bound of at least two
passes is enough), has called the callback on every event of the stream exactly once,
in stream order, and returns a result with nil Error whose `LastHandledEvent` is the
last event of the stream. -/
theorem C24_run_to_end_catches_up (reg : internal.register π) (enc : Encoder π)
    (p : Projection φ κ π) (ctx : Context) (st : State φ κ π) (f₁ f₂ : φ)
    (raws : List core.Event) (decs : List (Event π)) (fuel : Nat)
    (hctx : ctx.cancelledFrom = none)
    (hfirst : p.fetchF st.fetch = (f₁, .ok (raws.map .ok)))
    (hnext : p.fetchF f₁ = (f₂, .ok []))
    (hdec : List.Forall₂ (fun raw dec => Iterator.Value reg enc (.ok raw) = .ok dec) raws decs)
    (hcb : ∀ k e, (p.callbackF k e).2 = none)
    (hgv : ∀ en, raws.getLast? = some en → en.GlobalVersion ≠ 0) :
    ∃ st' result, RunToEnd reg enc p ctx (fuel + 2) st none = some (st', result)
      ∧ result.Error = none
      ∧ st'.handled = st.handled ++ decs.map (fun e => (e, none))
      ∧ decs.map (fun dec => dec.event) = raws
      ∧ result.LastHandledEvent = decs.getLast? := by
  have hev := aggregate.Forall₂_map_event reg enc raws decs hdec
  have hd : ∀ i, ctx.done i = false := Context.done_of_uncancelled ctx hctx
  obtain ⟨hres, hh, hf, hran, hran0⟩ := RunOnce.loop_decoded reg enc p hcb raws decs hdec
    { st with polls := st.polls + 1, fetch := f₁, fetches := st.fetches + 1 } false none
  have hrun : RunOnce reg enc p { st with polls := st.polls + 1 }
      = RunOnce.loop reg enc p (raws.map .ok)
          { st with polls := st.polls + 1, fetch := f₁, fetches := st.fetches + 1 }
          false none :=
    RunOnce_of_fetch reg enc p _ f₁ _ hfirst
  have hlast0 : (none : Option (Event π)).toList ++ decs = decs := rfl
  rw [hlast0] at hres
  rcases hout : RunOnce.loop reg enc p (raws.map .ok)
      { st with polls := st.polls + 1, fetch := f₁, fetches := st.fetches + 1 }
      false none with ⟨st₁, ran₁, result₁⟩
  rw [hout] at hres hh hf hran hran0 hrun
  simp only at hres hh hf hran hran0
  subst hres
  by_cases hnil : raws = []
  · have hdnil : decs = [] := by
      subst hnil
      cases hdec
      rfl
    have hr := hran0 hnil
    subst hr
    refine ⟨st₁, { Error := none, Name := p.Name, LastHandledEvent := decs.getLast? }, ?_, rfl,
      hh, hev, rfl⟩
    subst hdnil
    simp [RunToEnd, hd, RunToEnd.default, hrun, ProjectionResult.lastGlobalVersion]
  · have hr := hran hnil
    subst hr
    obtain ⟨en, hen⟩ := aggregate.getLast?_isSome_of_ne_nil raws hnil
    obtain ⟨dn, hdn, hval⟩ := aggregate.Forall₂_getLast? hdec en hen
    have hdne : dn.event = en := aggregate.Iterator.Value_event reg enc en dn hval
    have hne : dn.GlobalVersion ≠ 0 := by
      show dn.event.GlobalVersion ≠ 0
      rw [hdne]
      exact hgv en hen
    have hrun₂ : RunOnce reg enc p { st₁ with polls := st₁.polls + 1 }
        = ({ st₁ with polls := st₁.polls + 1, fetch := f₂, fetches := st₁.fetches + 1 }, false,
            { Error := none, Name := p.Name, LastHandledEvent := none }) := by
      rw [RunOnce_of_fetch reg enc p _ f₂ [] (by rw [← hnext, ← hf])]
      rfl
    refine ⟨{ st₁ with polls := st₁.polls + 1, fetch := f₂, fetches := st₁.fetches + 1 },
      { Error := none, Name := p.Name, LastHandledEvent := decs.getLast? }, ?_, rfl, hh, hev,
      rfl⟩
    simp [RunToEnd, hd, RunToEnd.default, hrun, hrun₂, ProjectionResult.lastGlobalVersion, hdn,
      hne]

/-- C24, amended, at a concrete input: the stream of `c-1` holds `Added{1}` and
`Added{2}` with the global versions 1 and 2, the callback records global versions:
RunToEnd returns with nil Error, the callback has seen 1 and 2 in that order, and the last
handled event is the second one. -/
theorem C24_run_to_end_catches_up_witness :
    Context.Background.cancelledFrom = none
    ∧ (∃ st' result,
        RunToEnd Counter.register Counter.encoder (Counter.projection true Counter.recorder)
          Context.Background 2
          (State.init [Counter.addedEvent 1 1 1, Counter.addedEvent 2 2 2] []) none
          = some (st', result)
        ∧ result.Error = none
        ∧ st'.handled = (State.init [Counter.addedEvent 1 1 1, Counter.addedEvent 2 2 2]
              ([] : List Version)).handled
            ++ [Counter.addedDecoded 1 1 1, Counter.addedDecoded 2 2 2].map (fun e => (e, none))
        ∧ [Counter.addedDecoded 1 1 1, Counter.addedDecoded 2 2 2].map (fun dec => dec.event)
            = [Counter.addedEvent 1 1 1, Counter.addedEvent 2 2 2]
        ∧ result.LastHandledEvent
            = [Counter.addedDecoded 1 1 1, Counter.addedDecoded 2 2 2].getLast?)
    ∧ ((RunToEnd Counter.register Counter.encoder (Counter.projection true Counter.recorder)
          Context.Background 2
          (State.init [Counter.addedEvent 1 1 1, Counter.addedEvent 2 2 2] []) none).map
        (fun out => out.1.callback)) = some [1, 2] :=
  ⟨rfl,
    C24_run_to_end_catches_up Counter.register Counter.encoder
      (Counter.projection true Counter.recorder) Context.Background
      (State.init [Counter.addedEvent 1 1 1, Counter.addedEvent 2 2 2] []) [] []
      [Counter.addedEvent 1 1 1, Counter.addedEvent 2 2 2]
      [Counter.addedDecoded 1 1 1, Counter.addedDecoded 2 2 2] 0 rfl rfl rfl
      (List.Forall₂.cons rfl (List.Forall₂.cons rfl List.Forall₂.nil)) (fun _ _ => rfl)
      (by decide),
    by decide⟩

/-- C24 as stated fails in two ways, with an uncancelled context, every event registered
and a callback that never fails. When the one event of the stream is registered but its
payload does not decode, RunToEnd returns the error of the codec and the callback has
seen nothing. When the one event of the stream decodes but carries the global version
0, RunToEnd returns nil Error after the callback has handled the event, and
`LastHandledEvent` is the zero event. -/
theorem C24_undecodable_or_unversioned_event :
    ((Counter.register.EventRegistered (Counter.brokenEvent 1 1)).isSome = true
      ∧ (RunToEnd Counter.register Counter.encoder (Counter.projection true Counter.recorder)
          Context.Background 2 (State.init [Counter.brokenEvent 1 1] []) none).map
          (fun out => (out.2.Error, out.1.handled)) = some (some (Error.backend 3), []))
    ∧ ((Counter.register.EventRegistered (Counter.addedEvent 1 0 1)).isSome = true
      ∧ (RunToEnd Counter.register Counter.encoder (Counter.projection true Counter.recorder)
          Context.Background 2 (State.init [Counter.addedEvent 1 0 1] []) none).map
          (fun out => (out.2.Error, out.1.handled, out.2.LastHandledEvent))
        = some (none, [(Counter.addedDecoded 1 0 1, none)], none)) := by
  refine ⟨⟨?_, ?_⟩, ⟨?_, ?_⟩⟩ <;> decide

end Projection

namespace Projection

variable {φ κ π : Type}

/-- Every pass of the loop of `Run` hands out the flag of the projection the loop runs
on, and the loop makes at least one pass before it returns. -/
theorem Run.loop_seen (reg : internal.register π) (enc : Encoder π) (p : Projection φ κ π)
    (ctx : Context) (fuel : Nat) (waits : List Wake) :
    ∀ (st : State φ κ π) (seen : List Bool) (st' : State φ κ π) (err : Error)
      (seen' : List Bool),
      Run.loop reg enc p ctx fuel waits st seen = some (st', err, seen') →
      ∃ n, 0 < n ∧ seen' = seen ++ List.replicate n p.running := by
  induction waits with
  | nil =>
    intro st seen st' err seen' h
    simp only [Run.loop, Run.pass] at h
    cases hend : RunToEnd reg enc p ctx fuel st none with
    | none => simp [hend] at h
    | some out =>
      rw [hend] at h
      cases herr : out.2.Error with
      | none => simp [herr] at h
      | some e =>
        simp only [herr, Option.some.injEq, Prod.mk.injEq] at h
        exact ⟨1, Nat.one_pos, by rw [← h.2.2]; rfl⟩
  | cons wake rest ih =>
    intro st seen st' err seen' h
    simp only [Run.loop, Run.pass] at h
    cases hend : RunToEnd reg enc p ctx fuel st none with
    | none => simp [hend] at h
    | some out =>
      rw [hend] at h
      cases herr : out.2.Error with
      | some e =>
        simp only [herr, Option.some.injEq, Prod.mk.injEq] at h
        exact ⟨1, Nat.one_pos, by rw [← h.2.2]; rfl⟩
      | none =>
        simp only [herr] at h
        cases wake with
        | done =>
          simp only [Option.some.injEq, Prod.mk.injEq] at h
          exact ⟨1, Nat.one_pos, by rw [← h.2.2]; rfl⟩
        | pace =>
          obtain ⟨n, _, hn⟩ := ih _ _ _ _ _ h
          exact ⟨n + 1, Nat.succ_pos n, by
            rw [hn, List.append_assoc, List.replicate_succ]
            rfl⟩
        | trigger sync =>
          obtain ⟨n, _, hn⟩ := ih _ _ _ _ _ h
          exact ⟨n + 1, Nat.succ_pos n, by
            rw [hn, List.append_assoc, List.replicate_succ]
            rfl⟩

/-- C26: for a projection whose running flag is set, `Run` returns
`ErrProjectionAlreadyRunning` at once: the state of the fetcher and of the callback and
the record of their calls are as before, no pass of the loop was made, and the flag is
still set. A `Run` that found the flag clear has set it itself: it makes at least one
pass, the flag is set during every pass it makes, and the flag is clear whenever it
returns; and it does return, with the flag clear, as soon as a `RunToEnd` ends in an
error (that of the callback, of the fetcher, of the decoding, or of the cancelled
context), and when the `select` after a `RunToEnd` without error takes the case of the
cancelled context. -/
theorem C26_run_running_flag (reg : internal.register π) (enc : Encoder π)
    (p : Projection φ κ π) (ctx : Context) (fuel : Nat) (waits : List Wake)
    (st : State φ κ π) :
    (p.running = true →
      Run reg enc p ctx fuel waits st = some (p, st, Error.ErrProjectionAlreadyRunning, []))
    ∧ (p.running = false → ∀ p' st' err seen,
        Run reg enc p ctx fuel waits st = some (p', st', err, seen) →
        p'.running = false ∧ seen ≠ [] ∧ ∀ flag ∈ seen, flag = true)
    ∧ (p.running = false → ∀ st' result err,
        RunToEnd reg enc { p with running := true } ctx fuel st none = some (st', result) →
        result.Error = some err →
        ∃ st'', Run reg enc p ctx fuel waits st
          = some ({ p with running := false }, st'', err, [true]))
    ∧ (p.running = false → ∀ st' result rest,
        RunToEnd reg enc { p with running := true } ctx fuel st none = some (st', result) →
        result.Error = none → waits = Wake.done :: rest →
        ∃ st'', Run reg enc p ctx fuel waits st
          = some ({ p with running := false }, st'', ctx.err, [true])) := by
  refine ⟨fun hset => ?_, fun hclear p' st' err seen hrun => ?_,
    fun hclear st' result err hend herr => ?_,
    fun hclear st' result rest hend herr hwaits => ?_⟩
  · simp [Run, hset]
  · simp only [Run, hclear] at hrun
    cases hloop : Run.loop reg enc { p with running := true } ctx fuel waits st [] with
    | none => simp [hloop] at hrun
    | some out =>
      obtain ⟨n, hn, hseen⟩ :=
        Run.loop_seen reg enc { p with running := true } ctx fuel waits st [] out.1 out.2.1
          out.2.2 hloop
      simp only [hloop, Bool.false_eq_true, if_false, Option.some.injEq, Prod.mk.injEq] at hrun
      rw [← hrun.1, ← hrun.2.2.2, hseen]
      refine ⟨rfl, ?_, ?_⟩
      · cases n with
        | zero => exact absurd hn (Nat.lt_irrefl 0)
        | succ m => simp [List.replicate_succ]
      · intro flag hflag
        simp only [List.nil_append, List.mem_replicate] at hflag
        exact hflag.2
  · have hloop : Run.loop reg enc { p with running := true } ctx fuel waits st []
        = some ({ st' with answered := if st'.pending then st'.answered + 1 else st'.answered,
                           pending := false }, err, [true]) := by
      cases waits <;> simp only [Run.loop, Run.pass, hend, herr] <;> rfl
    refine ⟨{ st' with answered := if st'.pending then st'.answered + 1 else st'.answered,
                       pending := false }, ?_⟩
    simp only [Run, hclear, hloop, Bool.false_eq_true, if_false]
  · have hloop : Run.loop reg enc { p with running := true } ctx fuel waits st []
        = some ({ st' with answered := if st'.pending then st'.answered + 1 else st'.answered,
                           pending := false }, ctx.err, [true]) := by
      simp only [hwaits, Run.loop, Run.pass, hend, herr]
      rfl
    refine ⟨{ st' with answered := if st'.pending then st'.answered + 1 else st'.answered,
                       pending := false }, ?_⟩
    simp only [Run, hclear, hloop, Bool.false_eq_true, if_false]

/-- C26 at concrete inputs: a running projection over `Added{2}` refuses a second `Run`
and keeps its flag; the same projection, not running, with the callback that refuses the
amount 2, returns the error of the callback with the flag clear, after one pass during
which the flag was set. -/
theorem C26_run_running_flag_witness :
    ((Run Counter.register Counter.encoder
        Counter.started
        Context.Background 2 [] (State.init [Counter.addedEvent 1 1 2] [])).map
        (fun out => (out.1.running, out.2.1.fetches, out.2.1.handled, out.2.2))
      = some (true, 0, [], Error.ErrProjectionAlreadyRunning, []))
    ∧ (∀ p' st' err seen,
        Run Counter.register Counter.encoder (Counter.projection true Counter.refusingTwo)
          Context.Background 2 [] (State.init [Counter.addedEvent 1 1 2] [])
          = some (p', st', err, seen) →
        p'.running = false ∧ seen ≠ [] ∧ ∀ flag ∈ seen, flag = true)
    ∧ ((Run Counter.register Counter.encoder (Counter.projection true Counter.refusingTwo)
        Context.Background 2 [] (State.init [Counter.addedEvent 1 1 2] [])).map
        (fun out => (out.1.running, out.2.2))
      = some (false, Error.errorf "amount 2 refused", [true])) :=
  ⟨rfl,
    (C26_run_running_flag Counter.register Counter.encoder
      (Counter.projection true Counter.refusingTwo) Context.Background 2 []
      (State.init [Counter.addedEvent 1 1 2] [])).2.1 rfl,
    by decide⟩

end Projection

/-! ## ProjectionsRace -/

namespace Race

variable {φ κ π : Type}

theorem publish_without_cancel (index : Nat) (result : ProjectionResult π)
    (s : Shared φ κ π) :
    (publish false index result s).causingErr = s.causingErr
    ∧ (publish false index result s).results.length = s.results.length := by
  unfold publish
  cases result.Error with
  | none => simp
  | some err => simp

theorem step_without_cancel (reg : internal.register π) (enc : Encoder π)
    (s : Shared φ κ π) (index : Nat) :
    (step reg enc false s index).causingErr = s.causingErr
    ∧ (step reg enc false s index).results.length = s.results.length := by
  unfold step
  cases s.workers[index]? with
  | none => exact ⟨rfl, rfl⟩
  | some w =>
    obtain ⟨p, st, last, phase⟩ := w
    cases phase with
    | atSelect =>
      by_cases hd : (ctx s.cancelled).done st.polls = true
      · simp [hd]
      · simp [hd]
    | inDefault =>
      rcases hdef : Projection.RunToEnd.default reg enc p st last with ⟨st', result, go⟩
      cases go <;> simp [hdef]
    | returned result => exact publish_without_cancel index result s
    | done => exact ⟨rfl, rfl⟩

theorem run_without_cancel (reg : internal.register π) (enc : Encoder π)
    (schedule : List Nat) (s : Shared φ κ π) :
    (schedule.foldl (step reg enc false) s).causingErr = s.causingErr
    ∧ (schedule.foldl (step reg enc false) s).results.length = s.results.length := by
  induction schedule generalizing s with
  | nil => exact ⟨rfl, rfl⟩
  | cons index rest ih =>
    rw [List.foldl_cons]
    obtain ⟨h₁, h₂⟩ := ih (step reg enc false s index)
    obtain ⟨h₃, h₄⟩ := step_without_cancel reg enc s index
    exact ⟨h₁.trans h₃, h₂.trans h₄⟩

/-- Without `cancelOnError`, whatever the projections do and however the goroutines are
scheduled, `ProjectionsRace` returns a nil error and one result per projection. -/
theorem ProjectionsRace_without_cancel (reg : internal.register π) (enc : Encoder π)
    (projections : List (Projection φ κ π × Projection.State φ κ π)) (schedule : List Nat)
    (results : List (ProjectionResult π)) (err : Option Error)
    (h : ProjectionsRace reg enc false projections schedule = some (results, err)) :
    err = none ∧ results.length = projections.length := by
  obtain ⟨h₁, h₂⟩ := run_without_cancel reg enc schedule (start projections)
  unfold ProjectionsRace at h
  simp only [run] at h
  split at h
  · simp only [Option.some.injEq, Prod.mk.injEq] at h
    rw [← h.1, ← h.2, h₁, h₂]
    simp [start]
  · cases h

/-- C27: the code at the failing input. Two projections race with `cancelOnError`; the
callback of each refuses the one event of its stream. The goroutine of the second passes
the `select` of its `RunToEnd` first; then the first goroutine runs from start to end:
its `RunToEnd` returns the error of its callback, it cancels the context and assigns
`causingErr`; only then does the callback of the second fail, and its goroutine assigns
`causingErr` again. `ProjectionsRace` returns both results, and as error that of the
second projection, not that of the first, which failed first and cancelled the
context. -/
theorem C27_race_returns_the_later_error :
    (run Counter.register Counter.encoder true Counter.racers [1, 0, 0, 0]).cancelled = true
    ∧ (run Counter.register Counter.encoder true Counter.racers [1, 0, 0, 0]).causingErr
        = some (Error.errorf "first refuses")
    ∧ (run Counter.register Counter.encoder true Counter.racers [1, 0, 0, 0]).returns = [0]
    ∧ (run Counter.register Counter.encoder true Counter.racers [1, 0, 0, 0, 1, 1]).returns
        = [0, 1]
    ∧ ProjectionsRace Counter.register Counter.encoder true Counter.racers [1, 0, 0, 0, 1, 1]
        = some ([{ Error := some (Error.errorf "first refuses"), Name := "first",
                   LastHandledEvent := none },
                 { Error := some (Error.errorf "second refuses"), Name := "second",
                   LastHandledEvent := none }],
                some (Error.errorf "second refuses"))
    ∧ Error.Is (Error.errorf "first refuses") Error.contextCanceled = false
    ∧ Error.Is (Error.errorf "second refuses") Error.contextCanceled = false := by
  refine ⟨?_, ?_, ?_, ?_, ?_, ?_, ?_⟩ <;> decide

end Race

/-! ## The Kurrent event store -/

namespace kurrent

theorem Split.chars_no_separator (sep : Char) (b : List Char) (hb : sep ∉ b) :
    strings.Split.chars sep b = [b] := by
  induction b with
  | nil => rfl
  | cons c rest ih =>
    have hc : c ≠ sep := fun h => hb (h ▸ List.mem_cons_self _ _)
    have hrest : sep ∉ rest := fun h => hb (List.mem_cons_of_mem _ h)
    simp [strings.Split.chars, hc, ih hrest]

theorem Split.chars_first (sep : Char) (a b : List Char) (ha : sep ∉ a) :
    strings.Split.chars sep (a ++ sep :: b) = a :: strings.Split.chars sep b := by
  induction a with
  | nil => simp [strings.Split.chars]
  | cons c rest ih =>
    have hc : c ≠ sep := fun h => ha (h ▸ List.mem_cons_self _ _)
    have hrest : sep ∉ rest := fun h => ha (List.mem_cons_of_mem _ h)
    simp [strings.Split.chars, hc, ih hrest]

/-- When neither the aggregate type nor the aggregate id contains the separator, the
iterator gives both back, and the version is the event number plus one. -/
theorem Iterator.Value_without_separator (aggregateType aggregateID : String)
    (event : RecordedEvent) (hstream : event.StreamID = stream aggregateType aggregateID)
    (htype : streamSeparator ∉ aggregateType.data) (hid : streamSeparator ∉ aggregateID.data) :
    ∃ e, Iterator.Value event = some e ∧ e.AggregateType = aggregateType
      ∧ e.AggregateID = aggregateID ∧ e.Version = event.EventNumber + 1 := by
  have hsplit : strings.Split event.StreamID streamSeparator = [aggregateType, aggregateID] := by
    rw [hstream]
    simp only [strings.Split, stream, String.data_append]
    have hsep : streamSeparator.toString.data = [streamSeparator] := rfl
    rw [hsep, List.append_assoc, List.singleton_append,
      Split.chars_first _ _ _ htype, Split.chars_no_separator _ _ hid]
    rfl
  simp only [Iterator.Value, hsplit]
  exact ⟨_, rfl, rfl, rfl, rfl⟩

/-- C28: the code at the failing input. The stream of the aggregate of type `Order` with
the id `7f3a-11` is named `Order-7f3a-11`; on an event of that stream (event number 0)
the iterator returns the aggregate type `Order`, the version 1, and as aggregate id
`7f3a`, the text up to the second separator, not `7f3a-11`. Likewise the type
`Line-Item` with the id `7` is read back as the type `Line` with the id `Item`. -/
theorem C28_id_with_separator_is_cut :
    (recorded "Order" "7f3a-11" 0).StreamID = "Order-7f3a-11"
    ∧ (Iterator.Value (recorded "Order" "7f3a-11" 0)).map
        (fun e => (e.AggregateType, e.AggregateID, e.Version)) = some ("Order", "7f3a", 1)
    ∧ (Iterator.Value (recorded "Line-Item" "7" 0)).map
        (fun e => (e.AggregateType, e.AggregateID, e.Version)) = some ("Line", "Item", 1) := by
  refine ⟨?_, ?_, ?_⟩ <;> decide

end kurrent

/-! ## The SQL event stores -/

namespace sql

/-- The text written for a time depends on its whole seconds only: two instants within
the same second are written as the same text, whatever reads it back. -/
theorem FormatRFC3339_of_same_second (t u : time.Time)
    (h : t / time.second = u / time.second) :
    time.FormatRFC3339 t = time.FormatRFC3339 u := by
  unfold time.FormatRFC3339
  rw [h]

/-- C29: the code at the failing input. For an event stamped 2023-11-14T22:13:20.25Z,
`Save` stores the text `2023-11-14T22:13:20Z`, the same text as for the full second
before it; the iterator parses that text to 2023-11-14T22:13:20Z and returns an event
whose timestamp is a quarter of a second earlier than the one saved. -/
theorem C29_fraction_of_second_is_lost :
    stamped.Timestamp = 1700000000 * time.second + 250000000
    ∧ (Save.row 1 stamped).timestamp = "2023-11-14T22:13:20Z"
    ∧ (Save.row 1 stamped).timestamp
        = (Save.row 1 { stamped with Timestamp := 1700000000 * time.second }).timestamp
    ∧ (match Iterator.Value (Save.row 1 stamped) with
        | .ok event => some event.Timestamp
        | .error _ => none) = some (1700000000 * time.second)
    ∧ 1700000000 * time.second ≠ stamped.Timestamp := by
  refine ⟨?_, ?_, ?_, ?_, ?_⟩ <;> decide

end sql

/-! ## The order example -/

namespace order

open aggregate

/-- For an outstanding amount and a payment below `2^63` the guard of `Pay` compares the
two as written: it rejects the payment exactly when it exceeds the outstanding amount. -/
theorem Pay_guard_small (outstanding amount : Nat) (ho : outstanding < 2 ^ 63)
    (ha : amount < 2 ^ 63) :
    wrap (int outstanding - int amount) < 0 ↔ outstanding < amount := by
  have ho' : outstanding % 18446744073709551616 = outstanding := Nat.mod_eq_of_lt (by omega)
  have ha' : amount % 18446744073709551616 = amount := Nat.mod_eq_of_lt (by omega)
  simp only [wrap, int, bits]
  norm_num
  rw [ho', ha']
  norm_num at ho ha
  simp only [ho, ha, if_true]
  omega

theorem TrackChange_Paid_state (newID : String) (now : Nat) (o : Aggregate Order Data)
    (amount : Nat) :
    (TrackChange aggregateClass newID now o (Data.Paid amount).dyn).state
      = { o.state with
          Outstanding := uint ((o.state.Outstanding : Int) - (amount : Int))
          Paid := uint ((o.state.Paid : Int) + (amount : Int)) } := by
  unfold TrackChange TrackChangeWithMetadata
  dsimp only
  split <;> rfl

/-- In the range the example moves in, an outstanding amount and a payment below `2^63`,
`Pay` on an order that is not complete does what is expected of it: a payment above the
outstanding amount is refused and the order stays as it is; any other payment is accepted
and the outstanding amount goes down by the payment, without wrapping. -/
theorem Pay_small (newID : String) (now later : Nat) (o : Aggregate Order Data) (amount : Nat)
    (hstatus : o.state.Status ≠ Complete) (ho : o.state.Outstanding < 2 ^ 63)
    (ha : amount < 2 ^ 63) :
    (o.state.Outstanding < amount →
      Pay newID now later o amount
        = (o, some (Error.errorf "payment is higher than order total amount")))
    ∧ (amount < o.state.Outstanding →
      (Pay newID now later o amount).2 = none
      ∧ (Pay newID now later o amount).1.state.Outstanding = o.state.Outstanding - amount
      ∧ (Pay newID now later o amount).1.state.Status = o.state.Status)
    ∧ (amount = o.state.Outstanding →
      (Pay newID now later o amount).2 = none
      ∧ (Pay newID now later o amount).1.state.Outstanding = 0
      ∧ (Pay newID now later o amount).1.state.Status = Complete) := by
  have hguard := Pay_guard_small o.state.Outstanding amount ho ha
  refine ⟨?_, ?_, ?_⟩
  · intro hlt
    simp only [Pay, hstatus, if_false, hguard.mpr hlt, if_true]
  · intro hlt
    have hno : ¬ wrap (int o.state.Outstanding - int amount) < 0 :=
      fun h => absurd (hguard.mp h) (by omega)
    have hout : uint ((o.state.Outstanding : Int) - (amount : Int))
        = o.state.Outstanding - amount := by
      simp only [uint, bits]
      norm_num at ho ha ⊢
      omega
    have hne : (TrackChange aggregateClass newID now o (Data.Paid amount).dyn).state.Outstanding
        ≠ 0 := by
      rw [TrackChange_Paid_state]
      simp only [hout]
      omega
    have hpay : Pay newID now later o amount
        = (TrackChange aggregateClass newID now o (Data.Paid amount).dyn, none) := by
      simp only [Pay, hstatus, if_false, hno, hne]
    rw [hpay, TrackChange_Paid_state]
    exact ⟨rfl, hout, rfl⟩
  · intro heq
    have hno : ¬ wrap (int o.state.Outstanding - int amount) < 0 :=
      fun h => absurd (hguard.mp h) (by omega)
    have hout : uint ((o.state.Outstanding : Int) - (amount : Int)) = 0 := by
      rw [heq]
      simp [uint]
    have hzero : (TrackChange aggregateClass newID now o (Data.Paid amount).dyn).state.Outstanding
        = 0 := by
      rw [TrackChange_Paid_state]
      exact hout
    have hpay : Pay newID now later o amount
        = (TrackChange aggregateClass newID later
            (TrackChange aggregateClass newID now o (Data.Paid amount).dyn)
            Data.Completed.dyn, none) := by
      simp only [Pay, hstatus, if_false, hno, hzero, if_true]
    have hdone : ∀ a : Aggregate Order Data,
        (TrackChange aggregateClass newID later a Data.Completed.dyn).state
          = { a.state with Status := Complete } := by
      intro a
      unfold TrackChange TrackChangeWithMetadata
      dsimp only
      split <;> rfl
    rw [hpay, hdone]
    exact ⟨rfl, hzero, rfl⟩

/-- C30: the code at the failing input. The order that `Create(100)` returns is pending
with 100 outstanding. `Pay` of the largest `uint`, far more than is outstanding, returns
nil: `int(amount)` is -1, so the guard computes 100 + 1; the event `Paid` is tracked,
`Outstanding` wraps around to 101, one more than before, and `Paid` is the largest
`uint`. -/
theorem C30_pay_of_max_uint_is_accepted :
    hundred.state.Status = Pending
    ∧ hundred.state.Outstanding = 100
    ∧ hundred.state.Outstanding < maxUint
    ∧ int maxUint = -1
    ∧ (Pay "o-1" 20 30 hundred maxUint).2 = none
    ∧ (Pay "o-1" 20 30 hundred maxUint).1.root.events.map (fun e => e.Reason)
        = ["Created", "Paid"]
    ∧ (Pay "o-1" 20 30 hundred maxUint).1.state.Outstanding = 101
    ∧ (Pay "o-1" 20 30 hundred maxUint).1.state.Paid = maxUint := by
  refine ⟨?_, ?_, ?_, ?_, ?_, ?_, ?_, ?_⟩ <;> decide

end order

namespace Race

variable {φ κ π : Type}

theorem step_results_length (reg : internal.register π) (enc : Encoder π)
    (cancelOnError : Bool) (s : Shared φ κ π) (index : Nat) :
    (step reg enc cancelOnError s index).results.length = s.results.length := by
  unfold step
  cases s.workers[index]? with
  | none => rfl
  | some w =>
    obtain ⟨p, st, last, phase⟩ := w
    cases phase with
    | atSelect =>
      by_cases hd : (ctx s.cancelled).done st.polls = true
      · simp [hd]
      · simp [hd]
    | inDefault =>
      rcases hdef : Projection.RunToEnd.default reg enc p st last with ⟨st', result, go⟩
      cases go <;> simp [hdef]
    | returned result =>
      simp only [publish]
      cases result.Error with
      | none => simp
      | some err =>
        by_cases hc : (!Error.Is err Error.contextCanceled && cancelOnError) = true
        · simp [hc]
        · simp [hc]
    | done => rfl

/-- In either mode and under every schedule, the results that `ProjectionsRace` returns
are as many as the projections. -/
theorem ProjectionsRace_results_length (reg : internal.register π) (enc : Encoder π)
    (cancelOnError : Bool) (projections : List (Projection φ κ π × Projection.State φ κ π))
    (schedule : List Nat) (results : List (ProjectionResult π)) (err : Option Error)
    (h : ProjectionsRace reg enc cancelOnError projections schedule = some (results, err)) :
    results.length = projections.length := by
  have hlen : ∀ (sched : List Nat) (s : Shared φ κ π),
      (sched.foldl (step reg enc cancelOnError) s).results.length = s.results.length := by
    intro sched
    induction sched with
    | nil => intro s; rfl
    | cons index rest ih =>
      intro s
      rw [List.foldl_cons, ih, step_results_length]
  unfold ProjectionsRace at h
  simp only [run] at h
  split at h
  · simp only [Option.some.injEq, Prod.mk.injEq] at h
    rw [← h.1, hlen]
    simp [start]
  · cases h

/-- A goroutine that runs alone does what `RunToEnd` does: for the first of the two
racing projections, the result stored is the one its `RunToEnd` returns under a context
that is not cancelled. -/
theorem alone_agrees_with_RunToEnd :
    (ProjectionsRace Counter.register Counter.encoder true (Counter.racers.take 1)
        [0, 0, 0]).map (fun out => out.1)
      = (Projection.RunToEnd Counter.register Counter.encoder
          ({ Counter.projection true (Counter.refusing 2 "first refuses") with Name := "first" })
          (ctx false) 1 (Projection.State.init [Counter.addedEvent 1 1 2] []) none).map
          (fun out => [out.2]) := by
  decide

end Race

/-! ## The frame of a tracked change -/

namespace aggregate

variable {σ π : Type}

/-- C36: for every aggregate and every payload, `TrackChangeWithMetadata` keeps a
non-empty id and otherwise sets the id to the generated one, leaves the committed
version, the global version and the events buffered before unchanged, and appends one
event, which carries the root's id, the aggregate's type name and exactly the given data
and metadata; the state after the call is `Transition` applied once, to the prior state
and that event, with the root as it is after the event was appended, whatever the state
type and the Transition are. -/
theorem C36_track_change_frame (c : Class σ π) (newID : String) (now : Nat)
    (a : Aggregate σ π) (data : Dyn π) (metadata : Metadata) :
    ∃ e : Event π,
      (TrackChangeWithMetadata c newID now a data metadata).root.id
        = (if a.root.id = emptyID then newID else a.root.id)
      ∧ (TrackChangeWithMetadata c newID now a data metadata).root.version = a.root.version
      ∧ (TrackChangeWithMetadata c newID now a data metadata).root.globalVersion
        = a.root.globalVersion
      ∧ (TrackChangeWithMetadata c newID now a data metadata).root.events = a.root.events ++ [e]
      ∧ e.AggregateID = (TrackChangeWithMetadata c newID now a data metadata).root.id
      ∧ e.AggregateType = c.typeName
      ∧ e.Data = data
      ∧ e.Metadata = metadata
      ∧ (TrackChangeWithMetadata c newID now a data metadata).state
        = c.Transition (TrackChangeWithMetadata c newID now a data metadata).root a.state
            e := by
  unfold TrackChangeWithMetadata
  dsimp only
  by_cases hid : a.root.id = emptyID
  · rw [if_pos hid, if_pos hid]
    exact ⟨_, rfl, rfl, rfl, rfl, rfl, rfl, rfl, rfl, rfl⟩
  · rw [if_neg hid, if_neg hid]
    exact ⟨_, rfl, rfl, rfl, rfl, rfl, rfl, rfl, rfl, rfl⟩

end aggregate

/-! ## What RunOnce and RunToEnd report -/

namespace Projection

variable {φ κ π : Type}

/-- The boolean a pass of the loop of `RunOnce` ends with is true exactly when the pass
ends without an error and an event was yielded, in this pass or before it. -/
theorem RunOnce.loop_ran (reg : internal.register π) (enc : Encoder π)
    (p : Projection φ κ π) (items : List (Except Error core.Event)) :
    ∀ (st : State φ κ π) (ran : Bool) (last : Option (Event π)),
      (RunOnce.loop reg enc p items st ran last).2.1 = true
        ↔ ((RunOnce.loop reg enc p items st ran last).2.2.Error = none
            ∧ (items ≠ [] ∨ ran = true)) := by
  induction items with
  | nil =>
    intro st ran last
    simp [RunOnce.loop]
  | cons item rest ih =>
    intro st ran last
    cases hv : Iterator.Value reg enc item with
    | error verr =>
      by_cases his : Error.Is verr Error.ErrEventNotRegistered = true
      · by_cases hs : p.Strict = true
        · simp [RunOnce.loop, hv, his, hs]
        · have hs' : p.Strict = false := by simpa using hs
          have hstep : RunOnce.loop reg enc p (item :: rest) st ran last
              = RunOnce.loop reg enc p rest st true last := by
            simp [RunOnce.loop, hv, his, hs']
          rw [hstep, ih st true last]
          simp
      · simp [RunOnce.loop, hv, his]
    | ok event =>
      rcases hc : p.callbackF st.callback event with ⟨k, _ | cerr⟩
      · have hstep : RunOnce.loop reg enc p (item :: rest) st ran last
            = RunOnce.loop reg enc p rest
                { st with callback := k, handled := st.handled ++ [(event, none)] } true
                (some event) := by
          simp only [RunOnce.loop, hv, hc]
        rw [hstep, ih _ true (some event)]
        simp
      · simp [RunOnce.loop, hv, hc]

/-- C38, amended: the boolean result of `RunOnce` tells whether there were events and no
error. For every fetcher, callback and Strict setting: when the fetcher fails the boolean
is false; when it hands out an iterator, the boolean is true if and only if the iterator
yielded at least one event during the call and RunOnce returns no error. -/
theorem C38_run_once_boolean (reg : internal.register π) (enc : Encoder π)
    (p : Projection φ κ π) (st : State φ κ π) :
    (∀ fetch err, p.fetchF st.fetch = (fetch, .error err) →
      (RunOnce reg enc p st).2.1 = false)
    ∧ (∀ fetch coreIterator, p.fetchF st.fetch = (fetch, .ok coreIterator) →
      ((RunOnce reg enc p st).2.1 = true
        ↔ (coreIterator ≠ [] ∧ (RunOnce reg enc p st).2.2.Error = none))) := by
  constructor
  · intro fetch err hfetch
    simp only [RunOnce, hfetch]
  · intro fetch coreIterator hfetch
    rw [RunOnce_of_fetch reg enc p st fetch coreIterator hfetch, RunOnce.loop_ran]
    simp only [Bool.false_eq_true, or_false]
    exact And.comm

/-- C38, amended, at a concrete input: over the stream that holds `Added{1}`, with the
callback that never fails, the iterator yields an event, RunOnce returns no error and the
boolean is true. -/
theorem C38_run_once_boolean_witness :
    (Counter.projection true Counter.recorder).fetchF [Counter.addedEvent 1 1 1]
      = ([], .ok [.ok (Counter.addedEvent 1 1 1)])
    ∧ ((RunOnce Counter.register Counter.encoder (Counter.projection true Counter.recorder)
          (State.init [Counter.addedEvent 1 1 1] [])).2.1 = true
        ↔ ([Except.ok (Counter.addedEvent 1 1 1)] ≠ ([] : core.Iterator)
          ∧ (RunOnce Counter.register Counter.encoder
              (Counter.projection true Counter.recorder)
              (State.init [Counter.addedEvent 1 1 1] [])).2.2.Error = none)) :=
  ⟨rfl,
    (C38_run_once_boolean Counter.register Counter.encoder
      (Counter.projection true Counter.recorder)
      (State.init [Counter.addedEvent 1 1 1] [])).2 [] [.ok (Counter.addedEvent 1 1 1)] rfl⟩

/-- C38 as stated fails when RunOnce returns an error: over the stream that holds
`Added{2}`, with the callback that refuses the amount 2, the iterator yields the event,
the callback is called on it, and the boolean is false; so it is when the strict
projection meets the unregistered `Removed` as the one event of its stream. -/
theorem C38_false_although_an_event_was_yielded :
    ((Counter.projection true Counter.refusingTwo).fetchF [Counter.addedEvent 1 1 2]
        = ([], .ok [.ok (Counter.addedEvent 1 1 2)])
      ∧ (RunOnce Counter.register Counter.encoder (Counter.projection true Counter.refusingTwo)
          (State.init [Counter.addedEvent 1 1 2] [])).2.1 = false
      ∧ RunOnce.calls Counter.register Counter.encoder
          (Counter.projection true Counter.refusingTwo)
          (State.init [Counter.addedEvent 1 1 2] [])
        = [(Counter.addedDecoded 1 1 2, some (Error.errorf "amount 2 refused"))])
    ∧ ((Counter.projection true Counter.recorder).fetchF [Counter.removedEvent 1 1]
        = ([], .ok [.ok (Counter.removedEvent 1 1)])
      ∧ (RunOnce Counter.register Counter.encoder (Counter.projection true Counter.recorder)
          (State.init [Counter.removedEvent 1 1] [])).2.1 = false) := by
  refine ⟨⟨rfl, ?_, ?_⟩, ⟨rfl, ?_⟩⟩ <;> decide

theorem RunOnce.loop_Name (reg : internal.register π) (enc : Encoder π)
    (p : Projection φ κ π) (items : List (Except Error core.Event)) :
    ∀ (st : State φ κ π) (ran : Bool) (last : Option (Event π)),
      (RunOnce.loop reg enc p items st ran last).2.2.Name = p.Name := by
  induction items with
  | nil => intro st ran last; rfl
  | cons item rest ih =>
    intro st ran last
    cases hv : Iterator.Value reg enc item with
    | error verr =>
      by_cases his : Error.Is verr Error.ErrEventNotRegistered = true
      · by_cases hs : p.Strict = true
        · simp [RunOnce.loop, hv, his, hs]
        · simpa only [RunOnce.loop, hv, his, hs, if_true, if_false] using ih st true last
      · simp [RunOnce.loop, hv, his]
    | ok event =>
      rcases hc : p.callbackF st.callback event with ⟨k, _ | cerr⟩
      · simpa only [RunOnce.loop, hv, hc] using ih _ true (some event)
      · simp [RunOnce.loop, hv, hc]

theorem RunOnce_Name (reg : internal.register π) (enc : Encoder π) (p : Projection φ κ π)
    (st : State φ κ π) : (RunOnce reg enc p st).2.2.Name = p.Name := by
  rcases hf : p.fetchF st.fetch with ⟨fetch, ferr | coreIterator⟩
  · simp [RunOnce, hf]
  · rw [RunOnce_of_fetch reg enc p st fetch coreIterator hf]
    exact RunOnce.loop_Name reg enc p coreIterator _ _ _

/-- On every return of `RunToEnd` other than the one from the case of the cancelled
context, the result carries the name of the projection. -/
theorem RunToEnd_Name (reg : internal.register π) (enc : Encoder π) (p : Projection φ κ π)
    (ctx : Context) (fuel : Nat) :
    ∀ (st : State φ κ π) (last : Option (Event π)) (st' : State φ κ π)
      (result : ProjectionResult π),
      RunToEnd reg enc p ctx fuel st last = some (st', result) →
      result.Name = p.Name ∨ result = RunToEnd.cancelled ctx := by
  induction fuel with
  | zero =>
    intro st last st' result h
    simp [RunToEnd] at h
  | succ fuel ih =>
    intro st last st' result h
    by_cases hd : ctx.done st.polls = true
    · simp only [RunToEnd, hd, if_true, Option.some.injEq, Prod.mk.injEq] at h
      exact Or.inr h.2.symm
    · have hd' : ctx.done st.polls = false := by simpa using hd
      have hname := RunOnce_Name reg enc p { st with polls := st.polls + 1 }
      rcases hdef : RunToEnd.default reg enc p { st with polls := st.polls + 1 } last with
        ⟨st₁, result₁, go⟩
      have hname₁ : result₁.Name = p.Name := by
        have := congrArg (fun out => out.2.1.Name) hdef
        simp only [RunToEnd.default] at this
        rw [← this]
        split_ifs <;> simp [hname]
      cases go with
      | false =>
        simp only [RunToEnd, hd', Bool.false_eq_true, if_false, hdef, Option.some.injEq,
          Prod.mk.injEq] at h
        exact Or.inl (by rw [← h.2]; exact hname₁)
      | true =>
        simp only [RunToEnd, hd', Bool.false_eq_true, if_false, hdef] at h
        exact ih _ _ _ _ h

/-- C40: the code at the failing input. A projection named `totals` runs over the stream
that holds `Added{1}` with the global version 1; the context is cancelled during the
first pass. The first pass hands the event to the callback, which returns nil; the
second poll of the context finds it cancelled, and `RunToEnd` returns the cancellation
error with an empty `Name` and with the zero event as `LastHandledEvent`. -/
theorem C40_cancelled_result_is_blank :
    (Counter.projection true Counter.recorder).Name = "totals"
    ∧ (RunToEnd Counter.register Counter.encoder (Counter.projection true Counter.recorder)
        Counter.cancelledAfterFirstPass 2 (State.init [Counter.addedEvent 1 1 1] []) none).map
        (fun out => (out.1.handled, out.2))
      = some ([(Counter.addedDecoded 1 1 1, none)],
          { Error := some Error.contextCanceled, Name := "", LastHandledEvent := none })
    ∧ (Counter.addedDecoded 1 1 1).GlobalVersion = 1 := by
  refine ⟨rfl, ?_, rfl⟩
  decide

end Projection

/-! ## Keys of the type register -/

namespace internal

namespace register

variable {π : Type}

theorem key_chars_injective (sep : Char) (a a' r r' : List Char) (ha : sep ∉ a)
    (ha' : sep ∉ a') (h : a ++ sep :: r = a' ++ sep :: r') : a = a' ∧ r = r' := by
  induction a generalizing a' with
  | nil =>
    cases a' with
    | nil => exact ⟨rfl, by simpa using h⟩
    | cons c' rest' =>
      simp only [List.nil_append, List.cons_append, List.cons.injEq] at h
      exact absurd (h.1 ▸ List.mem_cons_self _ _) ha'
  | cons c rest ih =>
    cases a' with
    | nil =>
      simp only [List.nil_append, List.cons_append, List.cons.injEq] at h
      exact absurd (h.1 ▸ List.mem_cons_self _ _) ha
    | cons c' rest' =>
      simp only [List.cons_append, List.cons.injEq] at h
      obtain ⟨h₁, h₂⟩ := ih rest' (fun hm => ha (List.mem_cons_of_mem _ hm))
        (fun hm => ha' (List.mem_cons_of_mem _ hm)) h.2
      exact ⟨by rw [h.1, h₁], h₂⟩

/-- For aggregate type names without an underscore the key tells the pairs apart: on a
register whose only registration is the reason of `e` for the aggregate type `T`, a
lookup for (`T'`, `R'`) succeeds only if `T' = T` and `R'` is the reason of `e`. -/
theorem EventRegistered_only_registration [Inhabited π] (T : String) (e : Dyn π)
    (event : core.Event) (hT : '_' ∉ T.data) (hT' : '_' ∉ event.AggregateType.data)
    (h : ((newRegister : register π).Register T [e]).EventRegistered event ≠ none) :
    event.AggregateType = T ∧ event.Reason = e.typeName := by
  have hkey : event.AggregateType ++ "_" ++ event.Reason = T ++ "_" ++ e.typeName := by
    by_contra hne
    apply h
    simp only [EventRegistered, Register, newRegister, List.map_cons, List.map_nil,
      List.foldl_cons, List.foldl_nil, eventToFunc, List.lookup_cons, List.lookup_nil]
    have hb : (event.AggregateType ++ "_" ++ event.Reason == T ++ "_" ++ e.typeName) = false := by
      simpa using hne
    rw [hb]
  have hd := congrArg String.data hkey
  simp only [String.data_append] at hd
  rw [List.append_assoc, List.append_assoc, List.singleton_append,
    List.singleton_append] at hd
  obtain ⟨h₁, h₂⟩ := key_chars_injective '_' _ _ _ _ hT' hT hd
  exact ⟨String.ext h₁, String.ext h₂⟩

/-- C39: the code at the failing input. The only registration on the register is the
reason `Line_Added` for the aggregate type `Order`. The lookup for a raw event of the
aggregate type `Order_Line` with the reason `Added` builds the same key,
`Order_Line_Added`, and succeeds, with the constructor of `Line_Added`, though neither
the aggregate type nor the reason is the registered one. -/
theorem C39_lookup_succeeds_for_another_pair :
    ((newRegister : register Nat).Register "Order"
        [{ typeName := "Line_Added", value := 0 }]).eventsF.map Prod.fst = ["Order_Line_Added"]
    ∧ ((newRegister : register Nat).Register "Order"
        [{ typeName := "Line_Added", value := 0 }]).EventRegistered
        (probe "Order_Line" "Added") = some { typeName := "Line_Added", value := 0 }
    ∧ (probe "Order_Line" "Added").AggregateType ≠ "Order"
    ∧ (probe "Order_Line" "Added").Reason ≠ "Line_Added" := by
  refine ⟨?_, ?_, ?_, ?_⟩ <;> decide

end register

end internal

/-! ## The two copies of a stored event -/

namespace bbolt

theorem DB.Bucket_setBucket (tx : DB) (name m : String) (b : bbolt.Bucket) :
    (tx.setBucket name b).Bucket m
      = if m = name then (tx.Bucket m).map (fun _ => b) else tx.Bucket m := by
  cases tx with
  | mk buckets =>
    simp only [DB.Bucket, DB.setBucket]
    induction buckets with
    | nil => simp
    | cons nb rest ih =>
      obtain ⟨n0, b0⟩ := nb
      by_cases hn : n0 = name
      · have hhead : (if (n0, b0).1 = name then ((n0, b0).1, b) else (n0, b0)) = (n0, b) :=
          if_pos hn
        rw [List.map_cons, hhead, List.lookup_cons, List.lookup_cons, ih]
        by_cases hhit : m = n0
        · have hbeq : (m == n0) = true := by simpa using hhit
          simp [hbeq, hhit, hn]
        · have hbeq : (m == n0) = false := by simpa using hhit
          simp [hbeq]
      · have hhead : (if (n0, b0).1 = name then ((n0, b0).1, b) else (n0, b0)) = (n0, b0) :=
          if_neg hn
        rw [List.map_cons, hhead, List.lookup_cons, List.lookup_cons, ih]
        by_cases hhit : m = n0
        · have hbeq : (m == n0) = true := by simpa using hhit
          have hmn : ¬ m = name := fun h => hn (hhit ▸ h)
          simp [hbeq, hmn]
        · have hbeq : (m == n0) = false := by simpa using hhit
          simp [hbeq]

theorem Bucket.mem_Put_self (b : Bucket) (key : Nat) (value : boltEvent) :
    (key, value) ∈ (b.Put key value).pairs := by
  simp [Bucket.Put]

theorem Bucket.mem_Put_of_ne (b : Bucket) (key k : Nat) (value v : boltEvent)
    (h : (k, v) ∈ b.pairs) (hne : k ≠ key) : (k, v) ∈ (b.Put key value).pairs := by
  rcases Nat.lt_or_gt_of_ne hne with hlt | hgt
  · simp [Bucket.Put, h, hlt]
  · simp [Bucket.Put, h, hgt]

theorem DB.Holds_NextSequence (tx : DB) (name m : String) (k : Nat) (v : boltEvent)
    (h : tx.Holds m k v) : (tx.NextSequence name).1.Holds m k v := by
  obtain ⟨b, hb, hmem, hle⟩ := h
  cases hn : tx.Bucket name with
  | none =>
    simp only [DB.NextSequence, hn]
    exact ⟨b, hb, hmem, hle⟩
  | some bn =>
    simp only [DB.NextSequence, hn, DB.Holds, DB.Bucket_setBucket]
    by_cases hm : m = name
    · subst hm
      rw [hb] at hn
      simp only [Option.some.injEq] at hn
      subst hn
      exact ⟨{ b with sequence := b.sequence + 1 }, by simp [hb], hmem,
        Nat.le_succ_of_le hle⟩
    · exact ⟨b, by simp [hm, hb], hmem, hle⟩

theorem DB.Reaches_NextSequence (tx : DB) (name m : String) (n : Nat)
    (h : tx.Reaches m n) : (tx.NextSequence name).1.Reaches m n := by
  obtain ⟨b, hb, hle⟩ := h
  cases hn : tx.Bucket name with
  | none =>
    simp only [DB.NextSequence, hn]
    exact ⟨b, hb, hle⟩
  | some bn =>
    simp only [DB.NextSequence, hn, DB.Reaches, DB.Bucket_setBucket]
    by_cases hm : m = name
    · subst hm
      rw [hb] at hn
      simp only [Option.some.injEq] at hn
      subst hn
      exact ⟨{ b with sequence := b.sequence + 1 }, by simp [hb], Nat.le_succ_of_le hle⟩
    · exact ⟨b, by simp [hm, hb], hle⟩

/-- The sequence number `NextSequence` hands out is above every number the counter of
the bucket had reached, and the counter has reached it afterwards. -/
theorem DB.NextSequence_gt (tx : DB) (name : String) (n : Nat) (h : tx.Reaches name n) :
    n < (tx.NextSequence name).2
    ∧ (tx.NextSequence name).1.Reaches name (tx.NextSequence name).2 := by
  obtain ⟨b, hb, hle⟩ := h
  simp only [DB.NextSequence, hb, DB.Reaches, DB.Bucket_setBucket]
  exact ⟨Nat.lt_succ_of_le hle, { b with sequence := b.sequence + 1 }, by simp [hb],
    Nat.le_refl _⟩

theorem DB.Holds_Put_of_ne (tx : DB) (name m : String) (key k : Nat) (value v : boltEvent)
    (h : tx.Holds m k v) (hne : m = name → k ≠ key) : (tx.Put name key value).Holds m k v := by
  obtain ⟨b, hb, hmem, hle⟩ := h
  cases hn : tx.Bucket name with
  | none =>
    simp only [DB.Put, hn]
    exact ⟨b, hb, hmem, hle⟩
  | some bn =>
    simp only [DB.Put, hn, DB.Holds, DB.Bucket_setBucket]
    by_cases hm : m = name
    · subst hm
      rw [hb] at hn
      simp only [Option.some.injEq] at hn
      subst hn
      exact ⟨b.Put key value, by simp [hb],
        Bucket.mem_Put_of_ne b key k value v hmem (hne rfl), hle⟩
    · exact ⟨b, by simp [hm, hb], hmem, hle⟩

theorem DB.Reaches_Put (tx : DB) (name m : String) (key n : Nat) (value : boltEvent)
    (h : tx.Reaches m n) : (tx.Put name key value).Reaches m n := by
  obtain ⟨b, hb, hle⟩ := h
  cases hn : tx.Bucket name with
  | none =>
    simp only [DB.Put, hn]
    exact ⟨b, hb, hle⟩
  | some bn =>
    simp only [DB.Put, hn, DB.Reaches, DB.Bucket_setBucket]
    by_cases hm : m = name
    · subst hm
      rw [hb] at hn
      simp only [Option.some.injEq] at hn
      subst hn
      exact ⟨b.Put key value, by simp [hb], hle⟩
    · exact ⟨b, by simp [hm, hb], hle⟩

theorem DB.Holds_Put_self (tx : DB) (name : String) (key : Nat) (value : boltEvent)
    (h : tx.Reaches name key) : (tx.Put name key value).Holds name key value := by
  obtain ⟨b, hb, hle⟩ := h
  simp only [DB.Put, hb, DB.Holds, DB.Bucket_setBucket]
  exact ⟨b.Put key value, by simp [hb], Bucket.mem_Put_self b key value, hle⟩

theorem DB.Holds_lt_NextSequence (tx : DB) (name m : String) (k : Nat) (v : boltEvent)
    (h : tx.Holds m k v) (hm : m = name) : k < (tx.NextSequence name).2 := by
  obtain ⟨b, hb, _, hle⟩ := h
  subst hm
  exact (DB.NextSequence_gt tx m k ⟨b, hb, hle⟩).1

/-- One pass of the loop of `Save`: the value put into the per-stream bucket under the
next sequence number of that bucket is the value put into the bucket of the global order
under the next global sequence number, which is its global version and the one written
back into the slice; what the two buckets held before is still there. -/
theorem saveLoop_cons_stored (ref : String) (tx : DB) (event : core.Event)
    (rest : List core.Event) (hr : tx.Reaches ref 0)
    (hg : tx.Reaches globalEventOrderBucketName 0) :
    ∃ (tx' : DB) (sequence : Nat) (value : boltEvent),
      saveLoop ref tx (event :: rest)
        = ((saveLoop ref tx' rest).1,
            { event with GlobalVersion := value.GlobalVersion } :: (saveLoop ref tx' rest).2)
      ∧ Iterator.decode value
          = { event with Version := uint64 event.Version, GlobalVersion := value.GlobalVersion }
      ∧ 1 ≤ sequence ∧ 1 ≤ value.GlobalVersion
      ∧ tx'.Holds ref sequence value
      ∧ tx'.Holds globalEventOrderBucketName value.GlobalVersion value
      ∧ (∀ m k v, tx.Holds m k v → tx'.Holds m k v)
      ∧ tx'.Reaches ref 0 ∧ tx'.Reaches globalEventOrderBucketName 0 := by
  obtain ⟨hseq, hr1⟩ := DB.NextSequence_gt tx ref 0 hr
  have hg1 := DB.Reaches_NextSequence tx ref globalEventOrderBucketName 0 hg
  obtain ⟨hgs, hg2⟩ :=
    DB.NextSequence_gt (tx.NextSequence ref).1 globalEventOrderBucketName 0 hg1
  have hr2 := DB.Reaches_NextSequence (tx.NextSequence ref).1 globalEventOrderBucketName ref
    _ hr1
  have hapart : ref = globalEventOrderBucketName →
      (tx.NextSequence ref).2
        ≠ ((tx.NextSequence ref).1.NextSequence globalEventOrderBucketName).2 := by
    intro hsame
    subst hsame
    exact Nat.ne_of_lt (DB.NextSequence_gt _ globalEventOrderBucketName _ hr1).1
  refine ⟨_, (tx.NextSequence ref).2,
    { AggregateID := event.AggregateID
      AggregateType := event.AggregateType
      Version := uint64 event.Version
      GlobalVersion := ((tx.NextSequence ref).1.NextSequence globalEventOrderBucketName).2
      Reason := event.Reason
      Timestamp := event.Timestamp
      Metadata := event.Metadata
      Data := event.Data },
    rfl, rfl, hseq, hgs, ?_, ?_, ?_, ?_, ?_⟩
  · exact DB.Holds_Put_of_ne _ _ _ _ _ _ _ (DB.Holds_Put_self _ _ _ _ hr2) hapart
  · exact DB.Holds_Put_self _ _ _ _ (DB.Reaches_Put _ _ _ _ _ _ hg2)
  · intro m k v h
    have h1 := DB.Holds_NextSequence tx ref m k v h
    have h2 := DB.Holds_NextSequence (tx.NextSequence ref).1 globalEventOrderBucketName m k v h1
    have h3 := DB.Holds_Put_of_ne _ ref m (itob (tx.NextSequence ref).2) k
      { AggregateID := event.AggregateID
        AggregateType := event.AggregateType
        Version := uint64 event.Version
        GlobalVersion := ((tx.NextSequence ref).1.NextSequence globalEventOrderBucketName).2
        Reason := event.Reason
        Timestamp := event.Timestamp
        Metadata := event.Metadata
        Data := event.Data } v h2
      (fun hm => Nat.ne_of_lt (DB.Holds_lt_NextSequence tx ref m k v h hm))
    exact DB.Holds_Put_of_ne _ globalEventOrderBucketName m _ k _ v h3
      (fun hm => Nat.ne_of_lt
        (DB.Holds_lt_NextSequence (tx.NextSequence ref).1 globalEventOrderBucketName m k v h1 hm))
  · exact DB.Reaches_Put _ _ _ _ _ _ (DB.Reaches_Put _ _ _ _ _ _
      (DB.Reaches_NextSequence _ _ _ _ (DB.Reaches_NextSequence _ _ _ _ hr)))
  · exact DB.Reaches_Put _ _ _ _ _ _ (DB.Reaches_Put _ _ _ _ _ _
      (DB.Reaches_NextSequence _ _ _ _ hg1))

/-- The loop of `Save`: for every event of the slice, the database after the loop holds
one value in the per-stream bucket and in the bucket of the global order, there under
its global version, which was written back into the slice; what the buckets held before
the loop is still there. -/
theorem saveLoop_stored (ref : String) (events : List core.Event) :
    ∀ tx : DB, tx.Reaches ref 0 → tx.Reaches globalEventOrderBucketName 0 →
      (∀ m k v, tx.Holds m k v → (saveLoop ref tx events).1.Holds m k v)
      ∧ ∀ (i : Nat) (event : core.Event), events[i]? = some event →
          ∃ (sequence : Nat) (value : boltEvent),
            (saveLoop ref tx events).2[i]?
              = some { event with GlobalVersion := value.GlobalVersion }
            ∧ Iterator.decode value
              = { event with
                  Version := uint64 event.Version, GlobalVersion := value.GlobalVersion }
            ∧ 1 ≤ sequence ∧ 1 ≤ value.GlobalVersion
            ∧ (saveLoop ref tx events).1.Holds ref sequence value
            ∧ (saveLoop ref tx events).1.Holds globalEventOrderBucketName value.GlobalVersion
                value := by
  induction events with
  | nil =>
    intro tx _ _
    exact ⟨fun _ _ _ h => h, fun i event h => by simp at h⟩
  | cons first rest ih =>
    intro tx hr hg
    obtain ⟨tx', sequence, value, heq, hdec, hs, hv, hstream, hglobal, hkeep, hr', hg'⟩ :=
      saveLoop_cons_stored ref tx first rest hr hg
    obtain ⟨ihkeep, ihitems⟩ := ih tx' hr' hg'
    rw [heq]
    refine ⟨fun m k v h => ihkeep m k v (hkeep m k v h), fun i event hi => ?_⟩
    cases i with
    | zero =>
      simp only [List.getElem?_cons_zero, Option.some.injEq] at hi
      subst hi
      exact ⟨sequence, value, by simp, hdec, hs, hv, ihkeep _ _ _ hstream,
        ihkeep _ _ _ hglobal⟩
    | succ j =>
      simp only [List.getElem?_cons_succ] at hi ⊢
      exact ihitems j event hi

theorem Save_ok (db : DB) (first : core.Event) (rest : List core.Event)
    (hok : (Save db (first :: rest)).2.2 = none) :
    ∃ tx : DB,
      tx.Reaches (bucketRef first.AggregateType first.AggregateID) 0
      ∧ tx.Reaches globalEventOrderBucketName 0
      ∧ Save db (first :: rest)
        = ((saveLoop (bucketRef first.AggregateType first.AggregateID) tx (first :: rest)).1,
            (saveLoop (bucketRef first.AggregateType first.AggregateID) tx (first :: rest)).2,
            none) := by
  have hexists : (match db.Bucket (bucketRef first.AggregateType first.AggregateID) with
      | none => db.CreateBucketIfNotExists (bucketRef first.AggregateType first.AggregateID)
      | some _ => db).Reaches (bucketRef first.AggregateType first.AggregateID) 0 := by
    cases hb : db.Bucket (bucketRef first.AggregateType first.AggregateID) with
    | some b => exact ⟨b, hb, Nat.zero_le _⟩
    | none =>
      refine ⟨{ pairs := [], sequence := 0 }, ?_, Nat.zero_le _⟩
      have hl : db.buckets.lookup (bucketRef first.AggregateType first.AggregateID) = none := hb
      simp [DB.CreateBucketIfNotExists, hb, DB.Bucket, List.lookup_append, hl]
  simp only [Save] at hok ⊢
  split at hok
  · simp at hok
  · rename_i hver
    cases hglobal : (match db.Bucket (bucketRef first.AggregateType first.AggregateID) with
      | none => db.CreateBucketIfNotExists (bucketRef first.AggregateType first.AggregateID)
      | some _ => db).Bucket globalEventOrderBucketName with
    | none =>
      rw [hglobal] at hok
      simp at hok
    | some b =>
      refine ⟨_, hexists, ⟨b, hglobal, Nat.zero_le _⟩, ?_⟩
      simp only [hver, if_false]

theorem mem_dropWhile_of_false {α : Type} (p : α → Bool) (l : List α) (x : α) (hx : x ∈ l)
    (hp : p x = false) : x ∈ l.dropWhile p := by
  induction l with
  | nil => simp at hx
  | cons a t ih =>
    rw [List.dropWhile_cons]
    by_cases ha : p a = true
    · rw [if_pos ha]
      rcases List.mem_cons.mp hx with rfl | ht
      · rw [hp] at ha
        cases ha
      · exact ih ht
    · rw [if_neg ha]
      exact hx

/-- C37, amended: after a `Save` that succeeded, whatever the database held before, every
event of the slice is stored as one value in the per-stream bucket and in the bucket of
the global order. That value carries the global version that Save assigned, which is at
least 1, is the key in the global bucket and was written back into the caller's slice.
The iterator of `Get` for the aggregate, read from version 0, yields the event with that
global version, and so does the first fetch of `All(0)`. -/
theorem C37_both_copies_carry_the_global_version (db : DB) (ctx : Context)
    (first : core.Event) (rest : List core.Event)
    (hok : (Save db (first :: rest)).2.2 = none) :
    ∀ (i : Nat) (event : core.Event), (first :: rest)[i]? = some event →
      ∃ (sequence : Nat) (value : boltEvent) (stream globalBucket : Bucket)
        (fromGet fromAll : List (Except Error core.Event)),
        (Save db (first :: rest)).2.1[i]?
          = some { event with GlobalVersion := value.GlobalVersion }
        ∧ 1 ≤ value.GlobalVersion
        ∧ Iterator.decode value
          = { event with Version := uint64 event.Version, GlobalVersion := value.GlobalVersion }
        ∧ (Save db (first :: rest)).1.Bucket (bucketRef first.AggregateType first.AggregateID)
          = some stream
        ∧ (sequence, value) ∈ stream.pairs
        ∧ (Save db (first :: rest)).1.Bucket globalEventOrderBucketName = some globalBucket
        ∧ (value.GlobalVersion, value) ∈ globalBucket.pairs
        ∧ (Iterator.drain (stream.pairs.length + 2)
            (Get (Save db (first :: rest)).1 ctx first.AggregateID first.AggregateType 0)).map
            (fun r => r.2) = some fromGet
        ∧ .ok (Iterator.decode value) ∈ fromGet
        ∧ ((All 0).fetch (globalBucket.pairs.length + 2) (Save db (first :: rest)).1).map
            (fun r => r.2) = some fromAll
        ∧ .ok (Iterator.decode value) ∈ fromAll := by
  intro i event hi
  obtain ⟨tx, hr, hg, hsave⟩ := Save_ok db first rest hok
  obtain ⟨sequence, value, hback, hdec, hs, hv, ⟨stream, hstream, hsmem, _⟩,
    ⟨globalBucket, hglobal, hgmem, _⟩⟩ :=
    (saveLoop_stored (bucketRef first.AggregateType first.AggregateID) (first :: rest) tx hr
      hg).2 i event hi
  have hposition : position 0 = 1 := by decide
  have hget := (Get_drain
    (saveLoop (bucketRef first.AggregateType first.AggregateID) tx (first :: rest)).1 ctx
    first.AggregateID first.AggregateType 0 (stream.pairs.length + 2)).2 stream hstream
    (Nat.lt_succ_self _)
  have hall := All_first_fetch 0
    (saveLoop (bucketRef first.AggregateType first.AggregateID) tx (first :: rest)).1
    globalBucket (globalBucket.pairs.length + 2) hglobal (Nat.lt_succ_self _)
  rw [hsave]
  refine ⟨sequence, value, stream, globalBucket, _, _, hback, hv, hdec, hstream, hsmem,
    hglobal, hgmem, hget, ?_, hall, ?_⟩
  · refine List.mem_map.mpr ⟨(sequence, value), ?_, rfl⟩
    apply mem_dropWhile_of_false _ _ _ hsmem
    rw [hposition]
    have hnot : ¬ sequence < 1 := Nat.not_lt.mpr hs
    simpa using hnot
  · refine List.mem_map.mpr ⟨(value.GlobalVersion, value), ?_, rfl⟩
    apply mem_dropWhile_of_false _ _ _ hgmem
    rw [hposition]
    have hnot : ¬ value.GlobalVersion < 1 := Nat.not_lt.mpr hv
    simpa using hnot

/-- C37, amended, at a concrete input: the first of the two events of `Order`/`1` saved
to a new database. -/
theorem C37_both_copies_carry_the_global_version_witness :
    (Save New [rawEvent "Order" "1" 1 "Created", rawEvent "Order" "1" 2 "Paid"]).2.2 = none
    ∧ ∃ (sequence : Nat) (value : boltEvent) (stream globalBucket : Bucket)
        (fromGet fromAll : List (Except Error core.Event)),
        (Save New [rawEvent "Order" "1" 1 "Created", rawEvent "Order" "1" 2 "Paid"]).2.1[0]?
          = some { rawEvent "Order" "1" 1 "Created" with GlobalVersion := value.GlobalVersion }
        ∧ 1 ≤ value.GlobalVersion
        ∧ Iterator.decode value
          = { rawEvent "Order" "1" 1 "Created" with
              Version := uint64 (rawEvent "Order" "1" 1 "Created").Version,
              GlobalVersion := value.GlobalVersion }
        ∧ (Save New [rawEvent "Order" "1" 1 "Created", rawEvent "Order" "1" 2 "Paid"]).1.Bucket
            (bucketRef (rawEvent "Order" "1" 1 "Created").AggregateType
              (rawEvent "Order" "1" 1 "Created").AggregateID) = some stream
        ∧ (sequence, value) ∈ stream.pairs
        ∧ (Save New [rawEvent "Order" "1" 1 "Created", rawEvent "Order" "1" 2 "Paid"]).1.Bucket
            globalEventOrderBucketName = some globalBucket
        ∧ (value.GlobalVersion, value) ∈ globalBucket.pairs
        ∧ (Iterator.drain (stream.pairs.length + 2)
            (Get (Save New [rawEvent "Order" "1" 1 "Created", rawEvent "Order" "1" 2 "Paid"]).1
              Context.Background (rawEvent "Order" "1" 1 "Created").AggregateID
              (rawEvent "Order" "1" 1 "Created").AggregateType 0)).map
            (fun r => r.2) = some fromGet
        ∧ .ok (Iterator.decode value) ∈ fromGet
        ∧ ((All 0).fetch (globalBucket.pairs.length + 2)
            (Save New [rawEvent "Order" "1" 1 "Created", rawEvent "Order" "1" 2 "Paid"]).1).map
            (fun r => r.2) = some fromAll
        ∧ .ok (Iterator.decode value) ∈ fromAll :=
  ⟨by decide,
    C37_both_copies_carry_the_global_version New Context.Background
      (rawEvent "Order" "1" 1 "Created") [rawEvent "Order" "1" 2 "Paid"] (by decide) 0
      (rawEvent "Order" "1" 1 "Created") rfl⟩

/-- C37 as stated fails: after the first two events of `Order`/`1` were saved to a new
database, the bucket of the stream and the bucket of the global order hold the same
values, the events that `Get` yields carry the global versions 1 and 2, not 0, and these
are the global versions that the fetcher of `All(0)` yields for them. -/
theorem C37_get_yields_the_assigned_global_version :
    (afterTwo.Bucket (bucketRef "Order" "1")).map (fun b => b.pairs.map Prod.snd)
      = (afterTwo.Bucket globalEventOrderBucketName).map (fun b => b.pairs.map Prod.snd)
    ∧ (Iterator.drain 5 (Get afterTwo Context.Background "1" "Order" 0)).map
        (fun r => globalVersions r.2) = some [1, 2]
    ∧ ((All 0).fetch 5 afterTwo).map (fun r => globalVersions r.2) = some [1, 2]
    ∧ (Iterator.drain 5 (Get afterTwo Context.Background "1" "Order" 0)).map
        (fun r => streamPositions r.2) = some [("Order", "1", 1), ("Order", "1", 2)] := by
  refine ⟨?_, ?_, ?_, ?_⟩ <;> decide

end bbolt

/-! ## The rules of the order example -/

namespace order

open aggregate

/-- On a complete order `AddDiscount` and `Pay` return an error and leave the order, its
buffer included, as it is. -/
theorem complete_refuses_AddDiscount_and_Pay (share : Nat → Nat → Nat) (newID : String)
    (now later : Nat) (o : Aggregate Order Data) (n : Nat)
    (hstatus : o.state.Status = Complete) :
    (AddDiscount share newID now o n).1 = o ∧ (AddDiscount share newID now o n).2 ≠ none
    ∧ (Pay newID now later o n).1 = o ∧ (Pay newID now later o n).2 ≠ none := by
  simp [AddDiscount, Pay, hstatus]

/-- On an order with a payment `AddDiscount` leaves the order, its buffer included, as
it is. -/
theorem paid_refuses_AddDiscount (share : Nat → Nat → Nat) (newID : String) (now : Nat)
    (o : Aggregate Order Data) (p : Nat) (hpaid : o.state.Paid > 0) :
    (AddDiscount share newID now o p).1 = o := by
  unfold AddDiscount
  split_ifs <;> rfl

/-- C31: the code at the failing input. After `Create(100)`, `AddDiscount(25)` and
`Pay(75)` the order is complete, with nothing outstanding and the discount 25 still in
place. `RemoveDiscount()` on it tracks the event `DiscountRemoved`: the discount becomes
0 and the outstanding amount 100, on an order whose status is `Complete`. -/
theorem C31_remove_discount_alters_a_complete_order :
    paidUp.state = { Status := Complete, Total := 100, Discount := 25, Outstanding := 0,
                     Paid := 75 }
    ∧ paidUp.root.events.map (fun e => e.Reason)
        = ["Created", "DiscountApplied", "Paid", "Completed"]
    ∧ (RemoveDiscount "o-1" 50 paidUp).root.events.map (fun e => e.Reason)
        = ["Created", "DiscountApplied", "Paid", "Completed", "DiscountRemoved"]
    ∧ (RemoveDiscount "o-1" 50 paidUp).state
        = { Status := Complete, Total := 100, Discount := 0, Outstanding := 100, Paid := 75 } := by
  refine ⟨?_, ?_, ?_, ?_⟩ <;> decide

/-- C32: the code at the failing input. After `Create(100)`, `AddDiscount(25)` and
`Pay(10)` the order has a payment of 10, the discount 25 and 65 outstanding.
`RemoveDiscount()` on it tracks the event `DiscountRemoved`: the discount becomes 0 and
the outstanding amount 100, the total, the payment being forgotten. -/
theorem C32_remove_discount_after_a_payment :
    partlyPaid.state = { Status := Pending, Total := 100, Discount := 25, Outstanding := 65,
                         Paid := 10 }
    ∧ partlyPaid.root.events.map (fun e => e.Reason) = ["Created", "DiscountApplied", "Paid"]
    ∧ (RemoveDiscount "o-1" 50 partlyPaid).root.events.map (fun e => e.Reason)
        = ["Created", "DiscountApplied", "Paid", "DiscountRemoved"]
    ∧ (RemoveDiscount "o-1" 50 partlyPaid).state
        = { Status := Pending, Total := 100, Discount := 0, Outstanding := 100, Paid := 10 } := by
  refine ⟨?_, ?_, ?_, ?_⟩ <;> decide

end order

/-! ## The tic-tac-toe example -/

namespace tictactoe

open aggregate

/-- What `checkWinner` returns: the mark of a line of three equal non-empty cells when
there is one, and the empty string when no row, column or diagonal is such a line. -/
theorem checkWinner_cases (board : Board) :
    (checkWinner board ≠ "" ∧ holdsLine board (checkWinner board))
    ∨ (checkWinner board = "" ∧ ¬ hasLine board) := by
  by_cases r0 : board 0 0 ≠ "" ∧ board 0 0 = board 0 1 ∧ board 0 1 = board 0 2
  · have hw : checkWinner board = board 0 0 := by
      unfold checkWinner
      simp only [checkWinner.rowsAndColumns, if_pos r0]
    rw [hw]
    exact Or.inl ⟨r0.1, Or.inl ⟨0, rfl, r0.2.1.symm, (r0.2.1.trans r0.2.2).symm⟩⟩
  by_cases c0 : board 0 0 ≠ "" ∧ board 0 0 = board 1 0 ∧ board 1 0 = board 2 0
  · have hw : checkWinner board = board 0 0 := by
      unfold checkWinner
      simp only [checkWinner.rowsAndColumns, if_neg r0, if_pos c0]
    rw [hw]
    exact Or.inl ⟨c0.1, Or.inr (Or.inl ⟨0, rfl, c0.2.1.symm, (c0.2.1.trans c0.2.2).symm⟩)⟩
  by_cases r1 : board 1 0 ≠ "" ∧ board 1 0 = board 1 1 ∧ board 1 1 = board 1 2
  · have hw : checkWinner board = board 1 0 := by
      unfold checkWinner
      simp only [checkWinner.rowsAndColumns, if_neg r0, if_neg c0, if_pos r1]
    rw [hw]
    exact Or.inl ⟨r1.1, Or.inl ⟨1, rfl, r1.2.1.symm, (r1.2.1.trans r1.2.2).symm⟩⟩
  by_cases c1 : board 0 1 ≠ "" ∧ board 0 1 = board 1 1 ∧ board 1 1 = board 2 1
  · have hw : checkWinner board = board 0 1 := by
      unfold checkWinner
      simp only [checkWinner.rowsAndColumns, if_neg r0, if_neg c0, if_neg r1, if_pos c1]
    rw [hw]
    exact Or.inl ⟨c1.1, Or.inr (Or.inl ⟨1, rfl, c1.2.1.symm, (c1.2.1.trans c1.2.2).symm⟩)⟩
  by_cases r2 : board 2 0 ≠ "" ∧ board 2 0 = board 2 1 ∧ board 2 1 = board 2 2
  · have hw : checkWinner board = board 2 0 := by
      unfold checkWinner
      simp only [checkWinner.rowsAndColumns, if_neg r0, if_neg c0, if_neg r1, if_neg c1, if_pos r2]
    rw [hw]
    exact Or.inl ⟨r2.1, Or.inl ⟨2, rfl, r2.2.1.symm, (r2.2.1.trans r2.2.2).symm⟩⟩
  by_cases c2 : board 0 2 ≠ "" ∧ board 0 2 = board 1 2 ∧ board 1 2 = board 2 2
  · have hw : checkWinner board = board 0 2 := by
      unfold checkWinner
      simp only [checkWinner.rowsAndColumns, if_neg r0, if_neg c0, if_neg r1, if_neg c1, if_neg r2, if_pos c2]
    rw [hw]
    exact Or.inl ⟨c2.1, Or.inr (Or.inl ⟨2, rfl, c2.2.1.symm, (c2.2.1.trans c2.2.2).symm⟩)⟩
  by_cases d : board 0 0 ≠ "" ∧ board 0 0 = board 1 1 ∧ board 1 1 = board 2 2
  · have hw : checkWinner board = board 0 0 := by
      unfold checkWinner
      simp only [checkWinner.rowsAndColumns, if_neg r0, if_neg c0, if_neg r1, if_neg c1, if_neg r2, if_neg c2, if_pos d]
    rw [hw]
    exact Or.inl ⟨d.1, Or.inr (Or.inr (Or.inl ⟨rfl, d.2.1.symm, (d.2.1.trans d.2.2).symm⟩))⟩
  by_cases a : board 0 2 ≠ "" ∧ board 0 2 = board 1 1 ∧ board 1 1 = board 2 0
  · have hw : checkWinner board = board 0 2 := by
      unfold checkWinner
      simp only [checkWinner.rowsAndColumns, if_neg r0, if_neg c0, if_neg r1, if_neg c1, if_neg r2, if_neg c2, if_neg d, if_pos a]
    rw [hw]
    exact Or.inl ⟨a.1, Or.inr (Or.inr (Or.inr ⟨rfl, a.2.1.symm, (a.2.1.trans a.2.2).symm⟩))⟩
  have hw : checkWinner board = "" := by
    unfold checkWinner
    simp only [checkWinner.rowsAndColumns, if_neg r0, if_neg c0, if_neg r1, if_neg c1, if_neg r2, if_neg c2, if_neg d, if_neg a]
  refine Or.inr ⟨hw, ?_⟩
  rintro ⟨m, hm, ⟨i, h₀, h₁, h₂⟩ | ⟨i, h₀, h₁, h₂⟩ | ⟨h₀, h₁, h₂⟩ | ⟨h₀, h₁, h₂⟩⟩
  · fin_cases i
    · exact r0 ⟨fun h => hm (h₀.symm.trans h), h₀.trans h₁.symm, h₁.trans h₂.symm⟩
    · exact r1 ⟨fun h => hm (h₀.symm.trans h), h₀.trans h₁.symm, h₁.trans h₂.symm⟩
    · exact r2 ⟨fun h => hm (h₀.symm.trans h), h₀.trans h₁.symm, h₁.trans h₂.symm⟩
  · fin_cases i
    · exact c0 ⟨fun h => hm (h₀.symm.trans h), h₀.trans h₁.symm, h₁.trans h₂.symm⟩
    · exact c1 ⟨fun h => hm (h₀.symm.trans h), h₀.trans h₁.symm, h₁.trans h₂.symm⟩
    · exact c2 ⟨fun h => hm (h₀.symm.trans h), h₀.trans h₁.symm, h₁.trans h₂.symm⟩
  · exact d ⟨fun h => hm (h₀.symm.trans h), h₀.trans h₁.symm, h₁.trans h₂.symm⟩
  · exact a ⟨fun h => hm (h₀.symm.trans h), h₀.trans h₁.symm, h₁.trans h₂.symm⟩

theorem checkWinner_eq_empty_iff (board : Board) : checkWinner board = "" ↔ ¬ hasLine board := by
  rcases checkWinner_cases board with ⟨hne, hline⟩ | ⟨he, hno⟩
  · exact ⟨fun h => absurd h hne, fun h => absurd ⟨_, hne, hline⟩ h⟩
  · exact ⟨fun _ => hno, fun _ => he⟩

theorem checkWinner_holdsLine (board : Board) (h : checkWinner board ≠ "") :
    holdsLine board (checkWinner board) := by
  rcases checkWinner_cases board with ⟨_, hline⟩ | ⟨he, _⟩
  · exact hline
  · exact absurd he h

theorem isDraw_iff (board : Board) :
    isDraw board = true ↔ checkWinner board = "" ∧ full board := by
  unfold isDraw full
  by_cases hw : checkWinner board = ""
  · simp only [hw, ne_eq, not_true_eq_false, if_false, true_and]
    simp only [List.all_cons, List.all_nil, Bool.and_true, Bool.and_eq_true, decide_eq_true_eq]
    constructor
    · intro h i j
      fin_cases i <;> fin_cases j <;> simp_all
    · intro h
      exact ⟨⟨h 0 0, h 0 1, h 0 2⟩, ⟨h 1 0, h 1 1, h 1 2⟩, ⟨h 2 0, h 2 1, h 2 2⟩⟩
  · simp [hw]

/-- C33: for every board, `checkWinner` returns a non-empty mark if and only if some
row, column or diagonal holds three equal non-empty cells, and the mark it returns is
then the mark of such a line; otherwise it returns the empty string. `isDraw` returns
true exactly when `checkWinner` returns the empty string and no cell is empty. -/
theorem C33_check_winner_and_is_draw (board : Board) :
    (checkWinner board ≠ "" ↔ hasLine board)
    ∧ (checkWinner board ≠ "" → holdsLine board (checkWinner board))
    ∧ (¬ hasLine board → checkWinner board = "")
    ∧ (isDraw board = true ↔ checkWinner board = "" ∧ full board) := by
  have hiff := checkWinner_eq_empty_iff board
  refine ⟨?_, checkWinner_holdsLine board, hiff.mpr, isDraw_iff board⟩
  constructor
  · intro hne
    exact ⟨_, hne, checkWinner_holdsLine board hne⟩
  · intro hline he
    exact hiff.mp he hline

/-- C33 at a concrete input: on the board of the game of `TestWinDetection`, in which X
holds the top row, `checkWinner` returns a non-empty mark, so the board holds a line of
that mark, which is `X`. -/
theorem C33_check_winner_and_is_draw_witness :
    checkWinner (play "g-1" 0 TestWinDetection.moves).state.board ≠ ""
    ∧ holdsLine (play "g-1" 0 TestWinDetection.moves).state.board
        (checkWinner (play "g-1" 0 TestWinDetection.moves).state.board)
    ∧ checkWinner (play "g-1" 0 TestWinDetection.moves).state.board = "X" :=
  ⟨by decide,
    (C33_check_winner_and_is_draw (play "g-1" 0 TestWinDetection.moves).state.board).2.1
      (by decide),
    by decide⟩

end tictactoe

namespace tictactoe

open aggregate

theorem TrackChange_apply (newID : String) (now : Nat) (g : Aggregate Game Data) (d : Data) :
    (TrackChange aggregateClass newID now g d.dyn).state = g.state.apply d
    ∧ tracked (TrackChange aggregateClass newID now g d.dyn) = tracked g ++ [d] := by
  unfold TrackChange TrackChangeWithMetadata tracked
  dsimp only
  split <;> exact ⟨rfl, by simp [Event.NewEvent, Event.Data, Data.dyn]⟩

theorem PlayMove_over (newID : String) (now later : Nat) (g : Aggregate Game Data)
    (x y : Fin 3) (h : g.state.gameOver = true) :
    PlayMove newID now later g x y = (g, some (Error.errorf "game over")) := by
  simp [PlayMove, h]

theorem PlayMove_taken (newID : String) (now later : Nat) (g : Aggregate Game Data)
    (x y : Fin 3) (h : g.state.gameOver = false) (hcell : g.state.board x y ≠ "") :
    PlayMove newID now later g x y = (g, some (Error.errorf "position already taken")) := by
  simp [PlayMove, h, hcell]

/-- A move on a free cell of a game that is not over: `PlayMove` returns nil, and the
game it leaves is the one in which the move of the player whose turn it is was tracked,
followed by the event that closes the game if the move closes it. -/
theorem PlayMove_free (newID : String) (now later : Nat) (g : Aggregate Game Data)
    (x y : Fin 3) (h : g.state.gameOver = false) (hcell : g.state.board x y = "") :
    (PlayMove newID now later g x y).2 = none
    ∧ (PlayMove newID now later g x y).1.state
        = (match ending (g.state.apply (moveOf g.state.turn x y)).board with
          | some t => (g.state.apply (moveOf g.state.turn x y)).apply t
          | none => g.state.apply (moveOf g.state.turn x y))
    ∧ tracked (PlayMove newID now later g x y).1
        = tracked g ++ moveOf g.state.turn x y
            :: (ending (g.state.apply (moveOf g.state.turn x y)).board).toList := by
  have hmove : (if g.state.turn = "X" then
        TrackChange aggregateClass newID now g (Data.XMoved x y).dyn
      else TrackChange aggregateClass newID now g (Data.OMoved x y).dyn)
      = TrackChange aggregateClass newID now g (moveOf g.state.turn x y).dyn := by
    unfold moveOf
    split <;> rfl
  obtain ⟨hs, ht⟩ := TrackChange_apply newID now g (moveOf g.state.turn x y)
  simp only [PlayMove, h, hcell, Bool.false_eq_true, if_false, ne_eq, not_true_eq_false, hmove,
    hs]
  unfold ending
  by_cases hx : checkWinner (g.state.apply (moveOf g.state.turn x y)).board = "X"
  · obtain ⟨hs', ht'⟩ := TrackChange_apply newID later
      (TrackChange aggregateClass newID now g (moveOf g.state.turn x y).dyn) Data.XWon
    rw [if_pos hx, if_pos hx]
    exact ⟨rfl, by rw [hs', hs], by rw [ht', ht]; simp⟩
  · rw [if_neg hx, if_neg hx]
    by_cases ho : checkWinner (g.state.apply (moveOf g.state.turn x y)).board = "O"
    · obtain ⟨hs', ht'⟩ := TrackChange_apply newID later
        (TrackChange aggregateClass newID now g (moveOf g.state.turn x y).dyn) Data.OWon
      rw [if_pos ho, if_pos ho]
      exact ⟨rfl, by rw [hs', hs], by rw [ht', ht]; simp⟩
    · rw [if_neg ho, if_neg ho]
      by_cases hd : isDraw (g.state.apply (moveOf g.state.turn x y)).board = true
      · obtain ⟨hs', ht'⟩ := TrackChange_apply newID later
          (TrackChange aggregateClass newID now g (moveOf g.state.turn x y).dyn) Data.Draw
        rw [if_pos hd, if_pos hd]
        exact ⟨rfl, by rw [hs', hs], by rw [ht', ht]; simp⟩
      · rw [if_neg hd, if_neg hd]
        exact ⟨rfl, hs, by rw [ht]; simp⟩

theorem ending_isEnd (board : Board) (t : Data) (h : ending board = some t) :
    t.isEnd = true := by
  unfold ending at h
  split_ifs at h <;> (cases h; rfl)

theorem apply_isEnd (s : Game) (t : Data) (h : t.isEnd = true) :
    (s.apply t).board = s.board ∧ (s.apply t).turn = s.turn
    ∧ (s.apply t).gameOver = true := by
  cases t <;> first | exact ⟨rfl, rfl, rfl⟩ | cases h

theorem apply_moveOf (s : Game) (x y : Fin 3) :
    (s.apply (moveOf s.turn x y)).board
        = s.board.set x y (if s.turn = "X" then "X" else "O")
    ∧ (s.apply (moveOf s.turn x y)).turn = (if s.turn = "X" then "O" else "X")
    ∧ (s.apply (moveOf s.turn x y)).gameOver = s.gameOver
    ∧ (s.apply (moveOf s.turn x y)).winner = s.winner := by
  unfold moveOf
  split <;> exact ⟨rfl, rfl, rfl, rfl⟩

/-- The board and the turn after a move on a free cell of a game that is not over. -/
theorem PlayMove_free_board (newID : String) (now later : Nat) (g : Aggregate Game Data)
    (x y : Fin 3) (h : g.state.gameOver = false) (hcell : g.state.board x y = "") :
    (PlayMove newID now later g x y).1.state.board
        = g.state.board.set x y (if g.state.turn = "X" then "X" else "O")
    ∧ (PlayMove newID now later g x y).1.state.turn
        = (if g.state.turn = "X" then "O" else "X") := by
  obtain ⟨_, hstate, _⟩ := PlayMove_free newID now later g x y h hcell
  obtain ⟨hb, ht, _, _⟩ := apply_moveOf g.state x y
  rw [hstate]
  cases he : ending (g.state.apply (moveOf g.state.turn x y)).board with
  | none => exact ⟨hb, ht⟩
  | some t =>
    obtain ⟨hb', ht', _⟩ := apply_isEnd (g.state.apply (moveOf g.state.turn x y)) t
      (ending_isEnd _ t he)
    exact ⟨hb'.trans hb, ht'.trans ht⟩

/-- C34: for every game and every cell, `PlayMove` fails if and only if the game is
over or the cell is taken; when it fails the game is left as it was, buffer, board,
turn, `gameOver` and winner; when it succeeds, the cell holds the mark of the player
whose turn it was, `X` or `O`, the turn is the other player's, the other cells are as
before, and the move of that player was tracked after the events tracked before. -/
theorem C34_play_move (newID : String) (now later : Nat) (g : Aggregate Game Data)
    (x y : Fin 3) :
    ((PlayMove newID now later g x y).2 ≠ none
      ↔ (g.state.gameOver = true ∨ g.state.board x y ≠ ""))
    ∧ ((PlayMove newID now later g x y).2 ≠ none → (PlayMove newID now later g x y).1 = g)
    ∧ ((PlayMove newID now later g x y).2 = none →
        (g.state.turn = "X" →
          (PlayMove newID now later g x y).1.state.board x y = "X"
          ∧ (PlayMove newID now later g x y).1.state.turn = "O")
        ∧ (g.state.turn = "O" →
          (PlayMove newID now later g x y).1.state.board x y = "O"
          ∧ (PlayMove newID now later g x y).1.state.turn = "X")
        ∧ (∀ i j, ¬ (i = x ∧ j = y) →
          (PlayMove newID now later g x y).1.state.board i j = g.state.board i j)
        ∧ ∃ rest, tracked (PlayMove newID now later g x y).1
            = tracked g ++ moveOf g.state.turn x y :: rest) := by
  by_cases hover : g.state.gameOver = true
  · have hp := PlayMove_over newID now later g x y hover
    rw [hp]
    exact ⟨⟨fun _ => Or.inl hover, fun _ => by simp⟩, fun _ => rfl, fun h => by simp at h⟩
  · have hover' : g.state.gameOver = false := by simpa using hover
    by_cases hcell : g.state.board x y = ""
    · obtain ⟨hnone, _, htracked⟩ := PlayMove_free newID now later g x y hover' hcell
      obtain ⟨hb, ht⟩ := PlayMove_free_board newID now later g x y hover' hcell
      refine ⟨⟨fun h => absurd hnone h, fun h => ?_⟩, fun h => absurd hnone h, fun _ => ?_⟩
      · rcases h with h | h
        · exact absurd h hover
        · exact absurd hcell h
      · refine ⟨fun hx => ?_, fun ho => ?_, fun i j hij => ?_, ⟨_, htracked⟩⟩
        · rw [hb, ht]
          simp [Board.set, hx]
        · have hne : ¬ ("O" : String) = "X" := by decide
          rw [hb, ht]
          simp [Board.set, ho, hne]
        · rw [hb]
          simp [Board.set, hij]
    · have hp := PlayMove_taken newID now later g x y hover' hcell
      rw [hp]
      exact ⟨⟨fun _ => Or.inr hcell, fun _ => by simp⟩, fun _ => rfl, fun h => by simp at h⟩

/-- C34 at concrete inputs: in a new game the move (0, 0) succeeds, the cell holds `X`
and it is the turn of `O`; the same move once more fails and leaves the game as it
was. -/
theorem C34_play_move_witness :
    (NewGame "g-1" 0).state.turn = "X"
    ∧ (PlayMove "g-1" 1 2 (NewGame "g-1" 0) 0 0).2 = none
    ∧ (PlayMove "g-1" 1 2 (NewGame "g-1" 0) 0 0).1.state.board 0 0 = "X"
    ∧ (PlayMove "g-1" 1 2 (NewGame "g-1" 0) 0 0).1.state.turn = "O"
    ∧ (PlayMove "g-1" 3 4 (PlayMove "g-1" 1 2 (NewGame "g-1" 0) 0 0).1 0 0).2 ≠ none
    ∧ (PlayMove "g-1" 3 4 (PlayMove "g-1" 1 2 (NewGame "g-1" 0) 0 0).1 0 0).1
        = (PlayMove "g-1" 1 2 (NewGame "g-1" 0) 0 0).1 :=
  ⟨rfl, by decide,
    (((C34_play_move "g-1" 1 2 (NewGame "g-1" 0) 0 0).2.2 (by decide)).1 rfl).1,
    (((C34_play_move "g-1" 1 2 (NewGame "g-1" 0) 0 0).2.2 (by decide)).1 rfl).2,
    by decide,
    (C34_play_move "g-1" 3 4 (PlayMove "g-1" 1 2 (NewGame "g-1" 0) 0 0).1 0 0).2.1 (by decide)⟩

end tictactoe

namespace tictactoe

open aggregate

theorem set_line (board : Board) (x y : Fin 3) (mark m : String) (a₁ b₁ a₂ b₂ a₃ b₃ : Fin 3)
    (h₁ : board.set x y mark a₁ b₁ = m) (h₂ : board.set x y mark a₂ b₂ = m)
    (h₃ : board.set x y mark a₃ b₃ = m) :
    m = mark ∨ (board a₁ b₁ = m ∧ board a₂ b₂ = m ∧ board a₃ b₃ = m) := by
  unfold Board.set at h₁ h₂ h₃
  split_ifs at h₁ h₂ h₃
  all_goals first
    | exact Or.inl h₁.symm
    | exact Or.inl h₂.symm
    | exact Or.inl h₃.symm
    | exact Or.inr ⟨h₁, h₂, h₃⟩

/-- A line on the board after a mark was set holds that mark, or was a line before. -/
theorem holdsLine_set (board : Board) (x y : Fin 3) (mark m : String)
    (h : holdsLine (board.set x y mark) m) : m = mark ∨ holdsLine board m := by
  rcases h with ⟨i, h₁, h₂, h₃⟩ | ⟨i, h₁, h₂, h₃⟩ | ⟨h₁, h₂, h₃⟩ | ⟨h₁, h₂, h₃⟩
  · exact (set_line board x y mark m _ _ _ _ _ _ h₁ h₂ h₃).imp id (fun h => Or.inl ⟨i, h⟩)
  · exact (set_line board x y mark m _ _ _ _ _ _ h₁ h₂ h₃).imp id
      (fun h => Or.inr (Or.inl ⟨i, h⟩))
  · exact (set_line board x y mark m _ _ _ _ _ _ h₁ h₂ h₃).imp id
      (fun h => Or.inr (Or.inr (Or.inl h)))
  · exact (set_line board x y mark m _ _ _ _ _ _ h₁ h₂ h₃).imp id
      (fun h => Or.inr (Or.inr (Or.inr h)))

/-- On a board without a line, a move can only complete a line of its own mark. -/
theorem checkWinner_set (board : Board) (x y : Fin 3) (mark : String)
    (hno : checkWinner board = "") :
    checkWinner (board.set x y mark) = "" ∨ checkWinner (board.set x y mark) = mark := by
  by_cases he : checkWinner (board.set x y mark) = ""
  · exact Or.inl he
  · rcases holdsLine_set board x y mark _ (checkWinner_holdsLine _ he) with h | h
    · exact Or.inr h
    · exact absurd ⟨_, he, h⟩ ((checkWinner_eq_empty_iff board).mp hno)

theorem moveOf_not_end (turn : String) (x y : Fin 3) : (moveOf turn x y).isEnd = false := by
  unfold moveOf
  split <;> rfl

/-- A move on a free cell of a sound game that is not over leaves a sound game. -/
theorem Sound_move (s : Game) (l : List Data) (x y : Fin 3) (hs : Sound s l)
    (hover : s.gameOver = false) (hcell : s.board x y = "") :
    Sound
      (match ending (s.apply (moveOf s.turn x y)).board with
        | some t => (s.apply (moveOf s.turn x y)).apply t
        | none => s.apply (moveOf s.turn x y))
      (l ++ moveOf s.turn x y :: (ending (s.apply (moveOf s.turn x y)).board).toList) := by
  obtain ⟨hturn, hopen, _⟩ := hs
  obtain ⟨hno, _, hlog⟩ := hopen hover
  obtain ⟨hb, ht, hg, _⟩ := apply_moveOf s x y
  have hxo : ¬ ("X" : String) = "O" := by decide
  have hox : ¬ ("O" : String) = "X" := by decide
  have hxe : ¬ ("X" : String) = "" := by decide
  have hoe : ¬ ("O" : String) = "" := by decide
  have hcw := checkWinner_set s.board x y (if s.turn = "X" then "X" else "O") hno
  rw [← hb] at hcw
  have hturn' : (s.apply (moveOf s.turn x y)).turn = "X"
      ∨ (s.apply (moveOf s.turn x y)).turn = "O" := by
    rw [ht]
    rcases hturn with h | h
    · exact Or.inr (by simp [h])
    · exact Or.inl (by simp [h, hox])
  have hback : moveOf (if (s.apply (moveOf s.turn x y)).turn = "X" then "O" else "X") x y
      = moveOf s.turn x y := by
    rw [ht]
    rcases hturn with h | h
    · simp [h, hox]
    · simp [h, hox]
  have hlog' : ∀ d ∈ l ++ [moveOf s.turn x y], d.isEnd = false := by
    intro d hd
    rcases List.mem_append.mp hd with h | h
    · exact hlog d h
    · rw [List.mem_singleton.mp h]
      exact moveOf_not_end _ _ _
  have hprev : checkWinner ((s.apply (moveOf s.turn x y)).board.set x y "") = "" := by
    have hset : (s.board.set x y (if s.turn = "X" then "X" else "O")).set x y "" = s.board := by
      funext i j
      unfold Board.set
      by_cases hij : i = x ∧ j = y
      · rw [if_pos hij, hij.1, hij.2, hcell]
      · rw [if_neg hij, if_neg hij]
    rw [hb, hset]
    exact hno
  unfold ending
  by_cases hx : checkWinner (s.apply (moveOf s.turn x y)).board = "X"
  · have hmark : s.turn = "X" := by
      rcases hcw with h | h
      · exact absurd (hx.symm.trans h) hxe
      · by_contra hne
        rw [if_neg hne] at h
        exact hxo (hx.symm.trans h)
    rw [if_pos hx]
    show Sound ((s.apply (moveOf s.turn x y)).apply Data.XWon)
      (l ++ [moveOf s.turn x y, Data.XWon])
    refine ⟨hturn', (fun h => Bool.noConfusion (h : true = false)),
      fun _ => ⟨l, x, y, hlog, hprev, Or.inl ⟨?_, rfl, hx⟩⟩⟩
    simp [moveOf, hmark]
  · rw [if_neg hx]
    by_cases ho : checkWinner (s.apply (moveOf s.turn x y)).board = "O"
    · have hmark : ¬ s.turn = "X" := by
        intro hX
        rcases hcw with h | h
        · exact absurd (ho.symm.trans h) hoe
        · rw [if_pos hX] at h
          exact hx h
      rw [if_pos ho]
      show Sound ((s.apply (moveOf s.turn x y)).apply Data.OWon)
        (l ++ [moveOf s.turn x y, Data.OWon])
      refine ⟨hturn', (fun h => Bool.noConfusion (h : true = false)),
        fun _ => ⟨l, x, y, hlog, hprev, Or.inr (Or.inl ⟨?_, rfl, ho⟩)⟩⟩
      simp [moveOf, hmark]
    · rw [if_neg ho]
      have hempty : checkWinner (s.apply (moveOf s.turn x y)).board = "" := by
        rcases hcw with h | h
        · exact h
        · by_cases hX : s.turn = "X"
          · rw [if_pos hX] at h
            exact absurd h hx
          · rw [if_neg hX] at h
            exact absurd h ho
      by_cases hd : isDraw (s.apply (moveOf s.turn x y)).board = true
      · rw [if_pos hd]
        show Sound ((s.apply (moveOf s.turn x y)).apply Data.Draw)
          (l ++ [moveOf s.turn x y, Data.Draw])
        refine ⟨hturn', (fun h => Bool.noConfusion (h : true = false)),
          fun _ => ⟨l, x, y, hlog, hprev, Or.inr (Or.inr ⟨?_, rfl, hempty, ?_⟩)⟩⟩
        · show l ++ [moveOf s.turn x y, Data.Draw]
            = l ++ [moveOf (if (s.apply (moveOf s.turn x y)).turn = "X" then "O" else "X") x y,
                Data.Draw]
          rw [hback]
        · exact ((isDraw_iff _).mp hd).2
      · rw [if_neg hd]
        show Sound (s.apply (moveOf s.turn x y)) (l ++ [moveOf s.turn x y])
        refine ⟨hturn', (fun _ => ⟨hempty,
          fun hfull => hd ((isDraw_iff _).mpr ⟨hempty, hfull⟩), ?_⟩), fun h => ?_⟩
        · exact hlog'
        · rw [hg, hover] at h
          cases h

end tictactoe

namespace tictactoe

open aggregate

theorem Sound_NewGame (newID : String) (now : Nat) :
    Sound (NewGame newID now).state (tracked (NewGame newID now)) := by
  obtain ⟨hs, ht⟩ := TrackChange_apply newID now zero Data.Started
  unfold NewGame
  rw [hs, ht]
  refine ⟨Or.inl rfl, (fun _ => ⟨by decide, fun hfull => hfull 0 0 rfl, ?_⟩),
    (fun h => Bool.noConfusion (h : false = true))⟩
  intro d hd
  have hd' : d = Data.Started := by simpa [tracked, zero] using hd
  rw [hd']
  rfl

/-- The invariant `Sound` is kept by every call of `PlayMove`, whatever it returns. -/
theorem Sound_PlayMove (newID : String) (now later : Nat) (g : Aggregate Game Data)
    (x y : Fin 3) (hs : Sound g.state (tracked g)) :
    Sound (PlayMove newID now later g x y).1.state (tracked (PlayMove newID now later g x y).1) := by
  by_cases hover : g.state.gameOver = true
  · rw [PlayMove_over newID now later g x y hover]
    exact hs
  · have hover' : g.state.gameOver = false := by simpa using hover
    by_cases hcell : g.state.board x y = ""
    · obtain ⟨_, hstate, htracked⟩ := PlayMove_free newID now later g x y hover' hcell
      rw [hstate, htracked]
      exact Sound_move g.state (tracked g) x y hs hover' hcell
    · rw [PlayMove_taken newID now later g x y hover' hcell]
      exact hs

theorem play_append (newID : String) (now : Nat) (moves : List Move) (m : Move) :
    play newID now (moves ++ [m])
      = (PlayMove newID m.now m.later (play newID now moves) m.x m.y).1 := by
  simp [play, List.foldl_append]

/-- Every game reached from `NewGame` by calls of `PlayMove` is sound. -/
theorem Sound_play (newID : String) (now : Nat) (moves : List Move) :
    Sound (play newID now moves).state (tracked (play newID now moves)) := by
  induction moves using List.reverseRecOn with
  | nil => exact Sound_NewGame newID now
  | append_singleton init m ih =>
    rw [play_append]
    exact Sound_PlayMove newID m.now m.later _ m.x m.y ih

end tictactoe

namespace tictactoe

open aggregate

/-- In a list that ends in a move and a closing event, with no closing event before,
a closing event stands at the last position only. -/
theorem closing_last (l pre' : List Data) (mv e : Data) (hl : l = pre' ++ [mv, e])
    (hpre : ∀ d ∈ pre', d.isEnd = false) (hmv : mv.isEnd = false)
    (pre : List Data) (d : Data) (rest : List Data) (h : l = pre ++ d :: rest)
    (hd : d.isEnd = true) : rest = [] := by
  rcases List.eq_nil_or_concat rest with hnil | ⟨init, z, hz⟩
  · exact hnil
  · exfalso
    have h' : (pre' ++ [mv]) ++ [e] = (pre ++ d :: init) ++ [z] := by
      have hboth : pre' ++ [mv, e] = pre ++ d :: rest := hl.symm.trans h
      rw [hz] at hboth
      simpa using hboth
    have hinit := (List.append_inj' h' rfl).1
    have hmem : d ∈ pre' ++ [mv] := by
      rw [hinit]
      simp
    rcases List.mem_append.mp hmem with hm | hm
    · rw [hpre d hm] at hd
      cases hd
    · rw [List.mem_singleton.mp hm, hmv] at hd
      cases hd

/-- What the invariant `Sound` says of the methods `Done` and `Winner`, of the board and
of the tracked events. -/
theorem Sound_facts (s : Game) (l : List Data) (h : Sound s l) :
    (s.gameOver = true ↔ (hasLine s.board ∨ full s.board))
    ∧ (s.gameOver = true → s.winner = checkWinner s.board)
    ∧ (s.gameOver = true → hasLine s.board → ∃ pre x y,
        ¬ hasLine (s.board.set x y "")
        ∧ ((l = pre ++ [Data.XMoved x y, Data.XWon] ∧ s.winner = "X"
              ∧ holdsLine s.board "X")
          ∨ (l = pre ++ [Data.OMoved x y, Data.OWon] ∧ s.winner = "O"
              ∧ holdsLine s.board "O")))
    ∧ (s.gameOver = true → ¬ hasLine s.board → s.winner = "" ∧ ∃ pre, l = pre ++ [Data.Draw])
    ∧ (∀ pre d rest, l = pre ++ d :: rest → d.isEnd = true → rest = []) := by
  obtain ⟨_, hopen, hclosed⟩ := h
  have hxe : ¬ ("X" : String) = "" := by decide
  have hoe : ¬ ("O" : String) = "" := by decide
  by_cases hover : s.gameOver = true
  · obtain ⟨pre, x, y, hpre, hprev, hcase⟩ := hclosed hover
    have hprev' := (checkWinner_eq_empty_iff _).mp hprev
    rcases hcase with ⟨hl, hw, hc⟩ | ⟨hl, hw, hc⟩ | ⟨hl, hw, hc, hfull⟩
    · have hline : holdsLine s.board "X" := by
        have := checkWinner_holdsLine s.board (by rw [hc]; exact hxe)
        rwa [hc] at this
      exact ⟨⟨fun _ => Or.inl ⟨"X", hxe, hline⟩, fun _ => hover⟩, fun _ => hw.trans hc.symm,
        fun _ _ => ⟨pre, x, y, hprev', Or.inl ⟨hl, hw, hline⟩⟩,
        fun _ hno => absurd ⟨"X", hxe, hline⟩ hno,
        fun p d r hp hd => closing_last l pre _ _ hl hpre rfl p d r hp hd⟩
    · have hline : holdsLine s.board "O" := by
        have := checkWinner_holdsLine s.board (by rw [hc]; exact hoe)
        rwa [hc] at this
      exact ⟨⟨fun _ => Or.inl ⟨"O", hoe, hline⟩, fun _ => hover⟩, fun _ => hw.trans hc.symm,
        fun _ _ => ⟨pre, x, y, hprev', Or.inr ⟨hl, hw, hline⟩⟩,
        fun _ hno => absurd ⟨"O", hoe, hline⟩ hno,
        fun p d r hp hd => closing_last l pre _ _ hl hpre rfl p d r hp hd⟩
    · exact ⟨⟨fun _ => Or.inr hfull, fun _ => hover⟩, fun _ => hw.trans hc.symm,
        fun _ hline => absurd hline ((checkWinner_eq_empty_iff _).mp hc),
        fun _ _ => ⟨hw, pre ++ [moveOf (if s.turn = "X" then "O" else "X") x y], by
          rw [hl]
          simp⟩,
        fun p d r hp hd => closing_last l pre _ _ hl hpre (moveOf_not_end _ _ _) p d r hp hd⟩
  · have hover' : s.gameOver = false := by simpa using hover
    obtain ⟨hno, hnf, hlog⟩ := hopen hover'
    refine ⟨⟨fun h => absurd h hover, fun h => ?_⟩, fun h => absurd h hover,
      fun h => absurd h hover, fun h => absurd h hover, fun p d r hp hd => ?_⟩
    · rcases h with hl | hf
      · exact absurd hl ((checkWinner_eq_empty_iff _).mp hno)
      · exact absurd hf hnf
    · have hfalse := hlog d (by rw [hp]; simp)
      rw [hfalse] at hd
      cases hd

/-- Once a game is over, further calls of `PlayMove` leave it as it is. -/
theorem play_done (newID : String) (now : Nat) (moves more : List Move)
    (h : (play newID now moves).state.gameOver = true) :
    play newID now (moves ++ more) = play newID now moves := by
  induction more using List.reverseRecOn with
  | nil => simp
  | append_singleton init m ih =>
    rw [← List.append_assoc, play_append, ih, PlayMove_over _ _ _ _ _ _ h]

/-- C35: in every game reached from `NewGame` by calls of `PlayMove`, `Done` is true if
and only if the board has a completed line or is full; when it is done, `Winner` is
`checkWinner` of the board; with a line on the board, the tracked events end in the move
of a player and the event that this player won, `Winner` is that player, the line is of
that player's mark, and the board without the mark of that move has no line; without a
line, `Winner` is empty and the last tracked event is `Draw`; an event `XWon`, `OWon` or
`Draw` stands nowhere but at the end of the tracked events; and once the game is done,
further calls of `PlayMove` leave it as it is. -/
theorem C35_reachable_games (newID : String) (now : Nat) (moves : List Move) :
    (Done (play newID now moves) = true
      ↔ (hasLine (play newID now moves).state.board ∨ full (play newID now moves).state.board))
    ∧ (Done (play newID now moves) = true →
        Winner (play newID now moves) = checkWinner (play newID now moves).state.board)
    ∧ (Done (play newID now moves) = true → hasLine (play newID now moves).state.board →
        ∃ pre x y,
          ¬ hasLine ((play newID now moves).state.board.set x y "")
          ∧ ((tracked (play newID now moves) = pre ++ [Data.XMoved x y, Data.XWon]
                ∧ Winner (play newID now moves) = "X"
                ∧ holdsLine (play newID now moves).state.board "X")
            ∨ (tracked (play newID now moves) = pre ++ [Data.OMoved x y, Data.OWon]
                ∧ Winner (play newID now moves) = "O"
                ∧ holdsLine (play newID now moves).state.board "O")))
    ∧ (Done (play newID now moves) = true → ¬ hasLine (play newID now moves).state.board →
        Winner (play newID now moves) = ""
        ∧ ∃ pre, tracked (play newID now moves) = pre ++ [Data.Draw])
    ∧ (∀ pre d rest, tracked (play newID now moves) = pre ++ d :: rest →
        d.isEnd = true → rest = [])
    ∧ (Done (play newID now moves) = true →
        ∀ more, play newID now (moves ++ more) = play newID now moves) := by
  have hsound := Sound_play newID now moves
  obtain ⟨hdone, hwinner, hline, hdraw, hlast⟩ := Sound_facts _ _ hsound
  refine ⟨hdone, hwinner, hline, hdraw, hlast, ?_⟩
  intro hover more
  exact play_done newID now moves more hover

/-- The game of the test `TestWinDetection`: after X has taken the top row the game is
done, X has won, and the tracked events end in the move of X and `XWon`. -/
theorem TestWinDetection_game :
    Done (play "g-1" 0 TestWinDetection.moves) = true
    ∧ Winner (play "g-1" 0 TestWinDetection.moves) = "X"
    ∧ tracked (play "g-1" 0 TestWinDetection.moves)
        = [Data.Started, Data.XMoved 0 0, Data.OMoved 1 0, Data.XMoved 0 1, Data.OMoved 1 1,
           Data.XMoved 0 2, Data.XWon] := by
  decide

/-- The game of the test `TestDrawDetection`: after nine moves without a line the game
is done, nobody has won, and the last tracked event is `Draw`. -/
theorem TestDrawDetection_game :
    Done (play "g-1" 0 TestDrawDetection.moves) = true
    ∧ Winner (play "g-1" 0 TestDrawDetection.moves) = ""
    ∧ (tracked (play "g-1" 0 TestDrawDetection.moves)).getLast? = some Data.Draw := by
  decide

/-- C35 at concrete inputs: the game of `TestWinDetection` is done, so its winner is
what `checkWinner` returns for its board, and a further move leaves it as it is; the
game of `TestDrawDetection` is done with no line on its board, so its winner is empty
and its last tracked event is `Draw`. -/
theorem C35_reachable_games_witness :
    (Done (play "g-1" 0 TestWinDetection.moves) = true
      ∧ Winner (play "g-1" 0 TestWinDetection.moves)
          = checkWinner (play "g-1" 0 TestWinDetection.moves).state.board
      ∧ ∀ more, play "g-1" 0 (TestWinDetection.moves ++ more)
          = play "g-1" 0 TestWinDetection.moves)
    ∧ (Done (play "g-1" 0 TestDrawDetection.moves) = true
      ∧ ¬ hasLine (play "g-1" 0 TestDrawDetection.moves).state.board
      ∧ Winner (play "g-1" 0 TestDrawDetection.moves) = ""
      ∧ ∃ pre, tracked (play "g-1" 0 TestDrawDetection.moves) = pre ++ [Data.Draw]) :=
  have hdraw : ¬ hasLine (play "g-1" 0 TestDrawDetection.moves).state.board :=
    (checkWinner_eq_empty_iff _).mp (by decide)
  ⟨⟨by decide, (C35_reachable_games "g-1" 0 TestWinDetection.moves).2.1 (by decide),
      (C35_reachable_games "g-1" 0 TestWinDetection.moves).2.2.2.2.2 (by decide)⟩,
    ⟨by decide, hdraw,
      (C35_reachable_games "g-1" 0 TestDrawDetection.moves).2.2.2.1 (by decide) hdraw⟩⟩

end tictactoe

end Eventsourcing
